import Mathlib

/-!
# DNS reconciliation controller (`dns-controller/pkg/dns/dnscontroller.go`)

A shallow embedding of the controller: the scope registry (`MarkReady`, `Replace`,
`getScope`), the snapshot builder (`snapshotIfChangedAndReady`), the alias resolver and
the apply phase of `runOnce`, and the per-iteration DNS operation (`newDNSOp`,
`findZone`, `updateRecords`, `deleteRecords`).

Modelling conventions.

* A Go `map` is an association list (`GoMap`).  The order in which a `range` statement
  visits a map is not fixed by the language, so every `range` over a map receives its
  visiting order from an oracle (`RangeOrder`): a function that returns a permutation of
  the entries.
* `uint64` is `Nat` with an explicit `% 2 ^ 64` at the increment.
* Go strings are `String`; byte-wise operations on the ASCII dot are done on the
  character list.
* The DNS provider and the stop flag are external: they are an environment `Env β` of
  functions over an arbitrary backend state `β`.  Each backend call is appended to a
  trace.
* `runOnce` is modelled as one atomic step.  In the source the registry mutex is held
  while the snapshot is built and while the baseline is stored; the only field written
  at the end is `lastSuccessfulSnapshot`, which producers never touch, so producer
  calls landing during the apply phase commute with that write.
-/

namespace DNS

/-! ## Go maps -/

/-- A Go map as an association list; lookups see the first entry for a key. -/
abbrev GoMap (κ : Type) (ν : Type) := List (κ × ν)

namespace GoMap

variable {κ ν : Type} [DecidableEq κ]

/-- The comma-ok lookup `v, ok := m[k]`. -/
def get? : GoMap κ ν → κ → Option ν
  | [], _ => none
  | (k', v) :: m, k => if k' = k then some v else get? m k

/-- The plain lookup `m[k]` of a map of slices: the nil slice when the key is absent. -/
def getD {α : Type} (m : GoMap κ (List α)) (k : κ) : List α :=
  (get? m k).getD []

/-- The assignment `m[k] = v`. -/
def set : GoMap κ ν → κ → ν → GoMap κ ν
  | [], k, v => [(k, v)]
  | (k', v') :: m, k, v => if k' = k then (k, v) :: m else (k', v') :: set m k v

/-- The builtin `delete(m, k)`. -/
def delete (m : GoMap κ ν) (k : κ) : GoMap κ ν :=
  m.filter (fun e => decide (e.1 ≠ k))

/-- The keys of the map, in representation order. -/
def keys (m : GoMap κ ν) : List κ := m.map Prod.fst

end GoMap

/-- A visiting order for a `range` statement: some permutation of the entries. -/
abbrev Order (α : Type) := (l : List α) → { l' : List α // l'.Perm l }

/-- The order that visits the entries as they are stored. -/
def Order.stored {α : Type} : Order α := fun l => ⟨l, List.Perm.refl l⟩

/-- The order that visits the entries back to front. -/
def Order.reversed {α : Type} : Order α := fun l => ⟨l.reverse, List.reverse_perm l⟩

/-! ## Records -/

/-- Modelled from the spec: the type `RecordType` is declared outside the files under
study; the source converts it with `string(k.RecordType)`, so it is a string type. -/
abbrev RecordType := String

/-- Modelled from the spec: the constant `RecordTypeAlias` is declared outside the files
under study; the spec names the internal alias type `ALIAS`. -/
def RecordTypeAlias : RecordType := "ALIAS"

/-- Modelled from the spec: the struct `Record` is declared outside the files under
study; the source reads its fields `FQDN`, `RecordType`, `Value` and `AliasTarget`. -/
structure Record where
  FQDN : String
  RecordType : RecordType
  Value : String
  AliasTarget : Bool
  deriving DecidableEq, Repr

/-- The struct `recordKey`. -/
structure recordKey where
  RecordType : RecordType
  FQDN : String
  deriving DecidableEq, Repr

/-- The struct `scope`. -/
structure scope where
  ScopeName : String
  Ready : Bool
  Records : GoMap String (List Record)
  deriving DecidableEq, Repr

/-- The struct `snapshot`. -/
structure snapshot where
  version : Nat
  records : List Record
  aliasTargets : GoMap String (List Record)
  recordValues : GoMap recordKey (List String)
  deriving DecidableEq, Repr

/-- The mutable fields of `DNSController` (`version` is a `uint64`). -/
structure DNSController where
  scopes : GoMap String scope
  version : Nat
  lastSuccessfulSnapshot : Option snapshot
  deriving DecidableEq, Repr

/-- The state built by `NewDNSController`: no scope, version zero, no baseline. -/
def DNSController.fresh : DNSController :=
  { scopes := [], version := 0, lastSuccessfulSnapshot := none }

/-- `NewDNSController`: fails without a provider or when the provider has no zones
interface, otherwise returns the fresh controller. -/
def NewDNSController (providerGiven zonesSupported : Bool) : Except String DNSController :=
  if !providerGiven then .error "must pass provider"
  else if !zonesSupported then .error "DNS provider does not support zones"
  else .ok DNSController.fresh

/-! ## Scope registry -/

/-- `getScope`: retrieves the scope, creating and storing it when absent. -/
def getScope (c : DNSController) (scopeName : String) : DNSController × scope :=
  match c.scopes.get? scopeName with
  | some s => (c, s)
  | none =>
    let s : scope := { ScopeName := scopeName, Ready := false, Records := [] }
    ({ c with scopes := c.scopes.set scopeName s }, s)

/-- `MarkReady`: the scope is fetched through its pointer and its flag is written. -/
def MarkReady (c : DNSController) (scopeName : String) (ready : Bool) : DNSController :=
  let (c, s) := getScope c scopeName
  { c with scopes := c.scopes.set scopeName { s with Ready := ready } }

/-- `Replace`: sets or deletes the entry of the scope, then `c.version++`. -/
def Replace (c : DNSController) (scopeName recordName : String) (records : List Record) :
    DNSController :=
  let (c, s) := getScope c scopeName
  let s : scope :=
    if records.length = 0 then { s with Records := s.Records.delete recordName }
    else { s with Records := s.Records.set recordName records }
  { c with scopes := c.scopes.set scopeName s, version := (c.version + 1) % 2 ^ 64 }

/-! ## Snapshot builder -/

/-- The visiting orders of the `range` statements over maps, one per statement; the
ranges over `scope.Records` are also given the scope's name. -/
structure RangeOrder where
  readyScopes : Order (String × scope)
  countRecords : String → Order (String × List Record)
  collectScopes : Order (String × scope)
  collectRecords : String → Order (String × List Record)
  normalize : Order (recordKey × List String)
  update : Order (recordKey × List String)
  delete : Order (recordKey × List String)

/-- Every `range` visits the entries as stored. -/
def RangeOrder.stored : RangeOrder :=
  { readyScopes := Order.stored, countRecords := fun _ => Order.stored,
    collectScopes := Order.stored, collectRecords := fun _ => Order.stored,
    normalize := Order.stored, update := Order.stored, delete := Order.stored }

/-- Every `range` visits the entries back to front. -/
def RangeOrder.reversed : RangeOrder :=
  { readyScopes := Order.reversed, countRecords := fun _ => Order.reversed,
    collectScopes := Order.reversed, collectRecords := fun _ => Order.reversed,
    normalize := Order.reversed, update := Order.reversed, delete := Order.reversed }

/-- The first loop of `snapshotIfChangedAndReady`: `none` at the first scope that is not
ready, otherwise the running `recordCount`. -/
def readyLoop (ord : RangeOrder) : List (String × scope) → Nat → Option Nat
  | [], recordCount => some recordCount
  | (_, sc) :: rest, recordCount =>
    if !sc.Ready then none
    else
      readyLoop ord rest
        ((ord.countRecords sc.ScopeName sc.Records).1.foldl
          (fun n scopeRecords => n + scopeRecords.2.length) recordCount)

/-- The body of the innermost collecting loop: an alias target is appended to
`aliasTargets[r.FQDN]`, any other record to `records`. -/
def collectRecord (acc : List Record × GoMap String (List Record)) (r : Record) :
    List Record × GoMap String (List Record) :=
  if r.AliasTarget then (acc.1, acc.2.set r.FQDN (acc.2.getD r.FQDN ++ [r]))
  else (acc.1 ++ [r], acc.2)

/-- The second loop of `snapshotIfChangedAndReady` over the scopes and their records. -/
def collectLoop (ord : RangeOrder) (scopes : List (String × scope)) :
    List Record × GoMap String (List Record) :=
  scopes.foldl
    (fun acc sc =>
      (ord.collectRecords sc.2.ScopeName sc.2.Records).1.foldl
        (fun acc scopeRecords => scopeRecords.2.foldl collectRecord acc) acc)
    ([], [])

/-- `snapshotIfChangedAndReady`: `none` stands for the nil snapshot. -/
def snapshotIfChangedAndReady (ord : RangeOrder) (c : DNSController) : Option snapshot :=
  let version := c.version
  let unchanged : Bool :=
    match c.lastSuccessfulSnapshot with
    | some last => decide (version = last.version)
    | none => false
  if unchanged then none
  else
    match readyLoop ord (ord.readyScopes c.scopes).1 0 with
    | none => none
    | some _ =>
      let collected := collectLoop ord (ord.collectScopes c.scopes).1
      some { version := version, records := collected.1, aliasTargets := collected.2,
             recordValues := [] }

/-! ## Alias resolver and normalisation -/

/-- Comparison of Go strings with `<`, on the character lists. -/
def ltChars : List Char → List Char → Bool
  | [], [] => false
  | [], _ :: _ => true
  | _ :: _, [] => false
  | a :: as, b :: bs =>
    if a.toNat < b.toNat then true
    else if b.toNat < a.toNat then false
    else ltChars as bs

/-- The order `a <= b` on strings, as `!(b < a)`. -/
def strLe (a b : String) : Prop := ltChars b.data a.data = false

instance strLe.decidable : DecidableRel strLe := fun a b =>
  inferInstanceAs (Decidable (ltChars b.data a.data = false))

/-- `sort.Strings`: the ascending arrangement of the slice.  Equal strings are
indistinguishable, so the result does not depend on the sorting algorithm. -/
def sortStrings (values : List String) : List String :=
  values.insertionSort strLe

/-- The body of the resolving loop of `runOnce` for one record of the snapshot. -/
def resolveRecord (aliasTargets : GoMap String (List Record))
    (newValueMap : GoMap recordKey (List String)) (r : Record) :
    GoMap recordKey (List String) :=
  if r.RecordType = RecordTypeAlias then
    (aliasTargets.getD r.Value).foldl
      (fun m aliasRecord =>
        let key : recordKey := { RecordType := aliasRecord.RecordType, FQDN := r.FQDN }
        m.set key (m.getD key ++ [aliasRecord.Value]))
      newValueMap
  else
    let key : recordKey := { RecordType := r.RecordType, FQDN := r.FQDN }
    newValueMap.set key (newValueMap.getD key ++ [r.Value])

/-- The resolving loop of `runOnce`: the value map before normalisation. -/
def resolveLoop (s : snapshot) : GoMap recordKey (List String) :=
  s.records.foldl (resolveRecord s.aliasTargets) []

/-- The normalising loop of `runOnce`: every visited entry is sorted and stored back. -/
def normalizeLoop (visit : List (recordKey × List String))
    (newValueMap : GoMap recordKey (List String)) : GoMap recordKey (List String) :=
  visit.foldl (fun m e => m.set e.1 (sortStrings e.2)) newValueMap

/-- The map `newValueMap` that `runOnce` stores in `snapshot.recordValues`. -/
def computeRecordValues (ord : RangeOrder) (s : snapshot) : GoMap recordKey (List String) :=
  let newValueMap := resolveLoop s
  normalizeLoop (ord.normalize newValueMap).1 newValueMap

/-! ## DNS provider, environment and trace -/

/-- A `dnsprovider.Zone`: an identity, its `Name()`, and whether `ResourceRecordSets()`
reports support. -/
structure Zone where
  id : Nat
  name : String
  supportsRecordSets : Bool
  deriving DecidableEq, Repr

/-- A `dnsprovider.ResourceRecordSet`, as built by `rrsProvider.New(name, rrdatas, ttl,
rrsType)` and read through `Name()` and `Type()`. -/
structure ResourceRecordSet where
  name : String
  rrdatas : List String
  ttl : Int
  type : String
  deriving DecidableEq, Repr

/-- The errors `runOnce` can hold: those it formats itself, each with the text it embeds,
and the errors returned by the provider. -/
inductive Err where
  | provider (msg : String)
  | stopRequested
  | queryingZones (cause : Err)
  | noSuitableZone (fqdn : String)
  | zoneWithoutRecordSets (zoneName : String)
  | queryingRecordSets (zoneName : String) (cause : Err)
  | creatingRecord (fqdn : String) (type : String) (cause : Err)
  deriving DecidableEq, Repr

/-- A call made on the DNS provider. -/
inductive Call where
  | listZones
  | listRecordSets (zone : Zone)
  | add (zone : Zone) (rr : ResourceRecordSet)
  | remove (zone : Zone) (rr : ResourceRecordSet)
  deriving DecidableEq, Repr

/-- A call that writes to the backend. -/
def Call.isWrite : Call → Bool
  | .add _ _ => true
  | .remove _ _ => true
  | _ => false

/-- What lies outside the controller, over a backend state `β`: the stop flag of
`util.Stoppable` and the provider's `Zones.List`, `ResourceRecordSets.List`, `Add` and
`Remove`.  Each may depend on and change the backend state. -/
structure Env (β : Type) where
  stopRequested : β → Bool × β
  zonesList : β → Except Err (List Zone) × β
  rrsList : Zone → β → Except Err (List ResourceRecordSet) × β
  rrsAdd : Zone → ResourceRecordSet → β → Option Err × β
  rrsRemove : Zone → ResourceRecordSet → β → Option Err × β

/-- The backend state together with the calls made so far. -/
structure World (β : Type) where
  backend : β
  calls : List Call

namespace Env

variable {β : Type}

/-- `c.StopRequested()`; a poll is not a backend call. -/
def pollStop (env : Env β) (w : World β) : Bool × World β :=
  let r := env.stopRequested w.backend
  (r.1, { w with backend := r.2 })

/-- `zonesProvider.List()`. -/
def callZonesList (env : Env β) (w : World β) : Except Err (List Zone) × World β :=
  let r := env.zonesList w.backend
  (r.1, { backend := r.2, calls := w.calls ++ [Call.listZones] })

/-- `rrsProvider.List()` on a zone. -/
def callRrsList (env : Env β) (zone : Zone) (w : World β) :
    Except Err (List ResourceRecordSet) × World β :=
  let r := env.rrsList zone w.backend
  (r.1, { backend := r.2, calls := w.calls ++ [Call.listRecordSets zone] })

/-- `rrsProvider.Add(rr)` on a zone. -/
def callAdd (env : Env β) (zone : Zone) (rr : ResourceRecordSet) (w : World β) :
    Option Err × World β :=
  let r := env.rrsAdd zone rr w.backend
  (r.1, { backend := r.2, calls := w.calls ++ [Call.add zone rr] })

/-- `rrsProvider.Remove(rr)` on a zone. -/
def callRemove (env : Env β) (zone : Zone) (rr : ResourceRecordSet) (w : World β) :
    Option Err × World β :=
  let r := env.rrsRemove zone rr w.backend
  (r.1, { backend := r.2, calls := w.calls ++ [Call.remove zone rr] })

end Env

/-! ## DNS operation -/

/-- `strings.HasSuffix(s, ".")`. -/
def hasDotSuffix (s : String) : Bool := s.data.getLast? == some '.'

/-- `EnsureDotSuffix`. -/
def EnsureDotSuffix (s : String) : String :=
  if !hasDotSuffix s then s ++ "." else s

/-- `strings.IndexByte`: `none` stands for `-1`. -/
def IndexByte : List Char → Char → Option Nat
  | [], _ => none
  | x :: xs, c => if x = c then some 0 else (IndexByte xs c).map (· + 1)

/-- The struct `dnsOp`: the zone map captured by `newDNSOp`. -/
structure dnsOp where
  zones : GoMap String Zone

/-- `newDNSOp`: lists the zones and keys them by their dot-terminated name. -/
def newDNSOp {β : Type} (env : Env β) (w : World β) : Except Err dnsOp × World β :=
  match env.callZonesList w with
  | (.error err, w) => (.error (Err.queryingZones err), w)
  | (.ok zones, w) =>
    (.ok { zones := zones.foldl (fun zoneMap zone =>
              zoneMap.set (EnsureDotSuffix zone.name) zone) [] }, w)

/-- The loop of `findZone`, with a bound on the number of iterations. -/
def findZoneLoop (zones : GoMap String Zone) : Nat → String → Option Zone
  | 0, _ => none
  | fuel + 1, zoneName =>
    match zones.get? zoneName with
    | some zone => some zone
    | none =>
      match IndexByte zoneName.data '.' with
      | none => none
      | some dot => findZoneLoop zones fuel (String.mk (zoneName.data.drop (dot + 1)))

/-- `findZone`: every iteration shortens `zoneName`, so `length + 1` iterations are
enough. -/
def findZone (o : dnsOp) (fqdn : String) : Option Zone :=
  let zoneName := EnsureDotSuffix fqdn
  findZoneLoop o.zones (zoneName.length + 1) zoneName

/-- The loop of `deleteRecords` over the listed record sets. -/
def deleteRecordsLoop {β : Type} (env : Env β) (zone : Zone) (k : recordKey) :
    List ResourceRecordSet → List Err → World β → List Err × World β
  | [], errors, w => (errors, w)
  | rr :: rrs, errors, w =>
    let rrName := EnsureDotSuffix rr.name
    if rrName ≠ k.FQDN then deleteRecordsLoop env zone k rrs errors w
    else if rr.type ≠ k.RecordType then deleteRecordsLoop env zone k rrs errors w
    else
      match env.callRemove zone rr w with
      | (some err, w) => deleteRecordsLoop env zone k rrs (errors ++ [err]) w
      | (none, w) => deleteRecordsLoop env zone k rrs errors w

/-- `deleteRecords`. -/
def deleteRecords {β : Type} (env : Env β) (o : dnsOp) (k : recordKey) (w : World β) :
    Option Err × World β :=
  match findZone o k.FQDN with
  | none => (some (Err.noSuitableZone k.FQDN), w)
  | some zone =>
    if !zone.supportsRecordSets then (some (Err.zoneWithoutRecordSets zone.name), w)
    else
      match env.callRrsList zone w with
      | (.error err, w) => (some (Err.queryingRecordSets zone.name err), w)
      | (.ok rrs, w) =>
        match deleteRecordsLoop env zone k rrs [] w with
        | (errors, w) => (errors.head?, w)

/-- `updateRecords`. -/
def updateRecords {β : Type} (env : Env β) (o : dnsOp) (k : recordKey)
    (newRecords : List String) (ttl : Int) (w : World β) : Option Err × World β :=
  match findZone o k.FQDN with
  | none => (some (Err.noSuitableZone k.FQDN), w)
  | some zone =>
    if !zone.supportsRecordSets then (some (Err.zoneWithoutRecordSets zone.name), w)
    else
      let rr : ResourceRecordSet :=
        { name := k.FQDN, rrdatas := newRecords, ttl := ttl, type := k.RecordType }
      match env.callAdd zone rr w with
      | (some err, w) => (some (Err.creatingRecord k.FQDN rr.type err), w)
      | (none, w) => (none, w)

/-! ## Reconciler -/

/-- Modelled from the spec: `utils.StringSlicesEqual` is declared outside the files under
study; the spec calls the comparison sequence equality. -/
def StringSlicesEqual (l r : List String) : Bool := decide (l = r)

/-- The loop of `runOnce` over `newValueMap`: `none` when a stop request ends it,
otherwise the errors collected. -/
def updateLoop {β : Type} (env : Env β) (op : dnsOp)
    (oldValueMap : GoMap recordKey (List String)) :
    List (recordKey × List String) → List Err → World β → Option (List Err) × World β
  | [], errors, w => (some errors, w)
  | (k, newValues) :: rest, errors, w =>
    match env.pollStop w with
    | (true, w) => (none, w)
    | (false, w) =>
      let oldValues := oldValueMap.getD k
      if StringSlicesEqual newValues oldValues then updateLoop env op oldValueMap rest errors w
      else
        let ttl : Int := 60
        match updateRecords env op k newValues ttl w with
        | (some err, w) => updateLoop env op oldValueMap rest (errors ++ [err]) w
        | (none, w) => updateLoop env op oldValueMap rest errors w

/-- The loop of `runOnce` over `oldValueMap`, looking for deleted hostnames. -/
def deleteLoop {β : Type} (env : Env β) (op : dnsOp)
    (newValueMap : GoMap recordKey (List String)) :
    List (recordKey × List String) → List Err → World β → Option (List Err) × World β
  | [], errors, w => (some errors, w)
  | (k, _) :: rest, errors, w =>
    match env.pollStop w with
    | (true, w) => (none, w)
    | (false, w) =>
      let newValues := newValueMap.get? k
      if newValues.isNone then
        match deleteRecords env op k w with
        | (some err, w) => deleteLoop env op newValueMap rest (errors ++ [err]) w
        | (none, w) => deleteLoop env op newValueMap rest errors w
      else deleteLoop env op newValueMap rest errors w

/-- What one call of `runOnce` leaves behind: the returned error (`none` for nil), the
controller and the world. -/
structure Outcome (β : Type) where
  err : Option Err
  controller : DNSController
  world : World β

/-- `runOnce`. -/
def runOnce {β : Type} (env : Env β) (ord : RangeOrder) (c : DNSController) (w : World β) :
    Outcome β :=
  match snapshotIfChangedAndReady ord c with
  | none => { err := none, controller := c, world := w }
  | some snapshot =>
    let newValueMap := computeRecordValues ord snapshot
    let snapshot := { snapshot with recordValues := newValueMap }
    let oldValueMap : GoMap recordKey (List String) :=
      match c.lastSuccessfulSnapshot with
      | some last => last.recordValues
      | none => []
    match newDNSOp env w with
    | (.error err, w) => { err := some err, controller := c, world := w }
    | (.ok op, w) =>
      match updateLoop env op oldValueMap (ord.update newValueMap).1 [] w with
      | (none, w) => { err := some Err.stopRequested, controller := c, world := w }
      | (some errors, w) =>
        match deleteLoop env op newValueMap (ord.delete oldValueMap).1 errors w with
        | (none, w) => { err := some Err.stopRequested, controller := c, world := w }
        | (some errors, w) =>
          match errors with
          | err :: _ => { err := some err, controller := c, world := w }
          | [] =>
            { err := none, controller := { c with lastSuccessfulSnapshot := some snapshot },
              world := w }

/-! ## Histories -/

/-- One event in the life of the controller: a producer call or a reconcile iteration
with the visiting orders it happens to use. -/
inductive Step where
  | markReady (scopeName : String) (ready : Bool)
  | replace (scopeName recordName : String) (records : List Record)
  | runOnce (ord : RangeOrder)

/-- The effect of one event on the controller and the world. -/
def step {β : Type} (env : Env β) (cw : DNSController × World β) :
    Step → DNSController × World β
  | .markReady scopeName ready => (MarkReady cw.1 scopeName ready, cw.2)
  | .replace scopeName recordName records => (Replace cw.1 scopeName recordName records, cw.2)
  | .runOnce ord => ((runOnce env ord cw.1 cw.2).controller, (runOnce env ord cw.1 cw.2).world)

/-- The effect of a history of events. -/
def run {β : Type} (env : Env β) (cw : DNSController × World β) (steps : List Step) :
    DNSController × World β :=
  steps.foldl (step env) cw

/-! ## Auxiliary definitions for the statements -/

/-- The event is a `MarkReady(_, true)` call. -/
def Step.marksReady : Step → Bool
  | .markReady _ ready => ready
  | _ => false

/-- The event is a `Replace` call. -/
def Step.isReplace : Step → Bool
  | .replace _ _ _ => true
  | _ => false

/-- The number of `Replace` calls in a history. -/
def countReplace (steps : List Step) : Nat :=
  (steps.filter Step.isReplace).length

/-- The records of a scope map, if the scope is present. -/
def recordsOf (scopes : GoMap String scope) (scopeName : String) :
    GoMap String (List Record) :=
  match scopes.get? scopeName with
  | some sc => sc.Records
  | none => []

/-- A backend over the trivial state that never fails, never asks to stop, and offers
the single zone `ex.com`. -/
def quietEnv : Env Unit :=
  { stopRequested := fun b => (false, b)
    zonesList := fun b => (.ok [{ id := 0, name := "ex.com", supportsRecordSets := true }], b)
    rrsList := fun _ b => (.ok [], b)
    rrsAdd := fun _ _ b => (none, b)
    rrsRemove := fun _ _ b => (none, b) }

/-- The world before any backend call, over the trivial backend state. -/
def emptyWorld : World Unit := { backend := (), calls := [] }

/-- The gate of the readiness claim: no scope is ready and the baseline, if any, holds
no record values. -/
def Gated (c : DNSController) : Prop :=
  (∀ e ∈ c.scopes, e.2.Ready = false) ∧
    ∀ last, c.lastSuccessfulSnapshot = some last → last.recordValues = []

/-- A record of type A for `a.ex.com`. -/
def recA : Record :=
  { FQDN := "a.ex.com", RecordType := "A", Value := "1.2.3.4", AliasTarget := false }

/-- A history with producer writes and reconcile iterations but no scope marked ready. -/
def gatedHistory : List Step :=
  [Step.runOnce RangeOrder.stored, Step.replace "s" "svc1" [recA],
   Step.runOnce RangeOrder.reversed, Step.markReady "t" false,
   Step.replace "t" "svc2" [recA], Step.runOnce RangeOrder.stored]

/-- A controller with scope `a` ready with a record and scope `b` present, not ready. -/
def halfReady : DNSController :=
  { scopes := [("a", { ScopeName := "a", Ready := true, Records := [("svc1", [recA])] }),
               ("b", { ScopeName := "b", Ready := false, Records := [] })],
    version := 1, lastSuccessfulSnapshot := none }

/-- The steady state: there is a baseline and its version is the current version. -/
def Settled (c : DNSController) : Prop :=
  ∃ last, c.lastSuccessfulSnapshot = some last ∧ c.version = last.version

/-- A controller with one ready scope holding the record `recA`, never reconciled. -/
def readyOne : DNSController :=
  Replace (MarkReady DNSController.fresh "s" true) "s" "svc1" [recA]

/-- A history without `Replace`: readiness changes and reconcile iterations. -/
def quietHistory : List Step :=
  [Step.markReady "t" true, Step.runOnce RangeOrder.reversed, Step.markReady "s" false,
   Step.runOnce RangeOrder.stored]

/-- A history that commits a baseline at version 1 and then calls `Replace` as many
times as it takes a `uint64` counter to come back round to 0. -/
def wrapHistory : List Step :=
  [Step.replace "s" "n" [], Step.markReady "s" true, Step.runOnce RangeOrder.stored] ++
    List.replicate (2 ^ 64 - 1) (Step.replace "s" "n" [])

/-- A history that commits an empty baseline, then a record. -/
def monoHistory : List Step :=
  [Step.markReady "s" true, Step.runOnce RangeOrder.stored, Step.replace "s" "svc1" [recA]]

/-- The records of the registry in the order in which the collecting loop of
`snapshotIfChangedAndReady` visits them. -/
def visitedRecords (ord : RangeOrder) (scopes : GoMap String scope) : List Record :=
  (ord.collectScopes scopes).1.flatMap (fun sc =>
    (ord.collectRecords sc.2.ScopeName sc.2.Records).1.flatMap (fun scopeRecords =>
      scopeRecords.2))

/-- The records of the registry as stored: every record list of every scope. -/
def allRecords (scopes : GoMap String scope) : List Record :=
  scopes.flatMap (fun sc => sc.2.Records.flatMap (fun scopeRecords => scopeRecords.2))

/-- The alias targets among `records` whose FQDN is `name`. -/
def targetsNamed (records : List Record) (name : String) : List Record :=
  records.filter (fun t => t.AliasTarget && decide (t.FQDN = name))

/-- The values one record of `snapshot.records` contributes to the key `k`, given the
alias targets found under each name: for an alias, the values of the targets under its
`Value` whose type is the key's type, if its FQDN is the key's; otherwise its own value
if its type and FQDN are the key's. -/
def contribution (targets : String → List Record) (r : Record) (k : recordKey) :
    List String :=
  if r.RecordType = RecordTypeAlias then
    ((targets r.Value).filter
      (fun t => decide (({ RecordType := t.RecordType, FQDN := r.FQDN } : recordKey) = k))).map
      Record.Value
  else if ({ RecordType := r.RecordType, FQDN := r.FQDN } : recordKey) = k then [r.Value]
  else []

/-- The values the registry contributes to the key `k`: the contributions of its records
that are not alias targets, the alias targets being looked up in the registry. -/
def contributed (scopes : GoMap String scope) (k : recordKey) : List String :=
  ((allRecords scopes).filter (fun r => !r.AliasTarget)).flatMap (fun r =>
    contribution (targetsNamed (allRecords scopes)) r k)

/-- The call, when it is an `add`, submits the record set of an entry of the value map
`m`: the entry's FQDN as name, its values as rdata, TTL 60 and its type. -/
def Call.addsFrom (m : GoMap recordKey (List String)) : Call → Prop
  | .add _ rr =>
    ∃ e ∈ m, rr = { name := e.1.FQDN, rrdatas := e.2, ttl := 60, type := e.1.RecordType }
  | _ => True

/-- The call is an `add`. -/
def Call.isAdd : Call → Bool
  | .add _ _ => true
  | _ => false

/-- The first alias target of the alias scenario. -/
def target1 : Record :=
  { FQDN := "target.ex.com", RecordType := "A", Value := "10.0.0.2", AliasTarget := true }

/-- The second alias target of the alias scenario. -/
def target2 : Record :=
  { FQDN := "target.ex.com", RecordType := "A", Value := "10.0.0.1", AliasTarget := true }

/-- The alias record of the alias scenario. -/
def aliasRec : Record :=
  { FQDN := "api.ex.com", RecordType := RecordTypeAlias, Value := "target.ex.com",
    AliasTarget := false }

/-- The alias scenario: two alias targets under one name, an alias to them, scope ready. -/
def aliasScenario : DNSController :=
  MarkReady (Replace (Replace DNSController.fresh "s" "t1" [target1, target2])
    "s" "a1" [aliasRec]) "s" true

/-- The snapshot of the alias scenario. -/
def aliasSnapshot : snapshot :=
  { version := 2, records := [aliasRec],
    aliasTargets := [("target.ex.com", [target1, target2])], recordValues := [] }

/-- An alias target that is itself of the alias type. -/
def aliasTypedTarget : Record :=
  { FQDN := "target.ex.com", RecordType := RecordTypeAlias, Value := "other.ex.com",
    AliasTarget := true }

/-- A registry in which an alias points at an alias target of the alias type. -/
def aliasOfAlias : DNSController :=
  MarkReady (Replace (Replace DNSController.fresh "s" "t1" [aliasTypedTarget])
    "s" "a1" [aliasRec]) "s" true

/-- A registry with an alias target that no alias refers to, next to a plain record. -/
def unusedTarget : DNSController :=
  MarkReady (Replace (Replace DNSController.fresh "s" "t1" [target1])
    "s" "svc1" [recA]) "s" true

/-- The snapshot of `unusedTarget`. -/
def unusedTargetSnapshot : snapshot :=
  { version := 2, records := [recA], aliasTargets := [("target.ex.com", [target1])],
    recordValues := [] }

/-- Two values for one key, in one record list of one scope. -/
def twoInOne : DNSController :=
  MarkReady (Replace DNSController.fresh "s" "n1"
    [{ FQDN := "a.ex.com", RecordType := "A", Value := "2.2.2.2", AliasTarget := false },
     { FQDN := "a.ex.com", RecordType := "A", Value := "1.1.1.1", AliasTarget := false }])
    "s" true

/-- The same two values for the same key, in two scopes and in the other order. -/
def twoInTwo : DNSController :=
  MarkReady (MarkReady
    (Replace (Replace DNSController.fresh "x" "m"
      [{ FQDN := "a.ex.com", RecordType := "A", Value := "1.1.1.1", AliasTarget := false }])
      "y" "m"
      [{ FQDN := "a.ex.com", RecordType := "A", Value := "2.2.2.2", AliasTarget := false }])
    "x" true) "y" true

/-- The snapshot of `twoInOne` with the stored visiting order. -/
def twoInOneSnapshot : snapshot :=
  { version := 1,
    records :=
      [{ FQDN := "a.ex.com", RecordType := "A", Value := "2.2.2.2", AliasTarget := false },
       { FQDN := "a.ex.com", RecordType := "A", Value := "1.1.1.1", AliasTarget := false }],
    aliasTargets := [], recordValues := [] }

/-- The snapshot of `twoInTwo` with the reversed visiting order. -/
def twoInTwoSnapshot : snapshot :=
  { version := 2,
    records :=
      [{ FQDN := "a.ex.com", RecordType := "A", Value := "2.2.2.2", AliasTarget := false },
       { FQDN := "a.ex.com", RecordType := "A", Value := "1.1.1.1", AliasTarget := false }],
    aliasTargets := [], recordValues := [] }

/-! ## Auxiliary definitions for the apply phase -/

/-- The stop signal is never set, and reading it leaves the backend as it is. -/
def NeverStops {β : Type} (env : Env β) : Prop :=
  ∀ b, env.stopRequested b = (false, b)

/-- The map `oldValueMap` of `runOnce`: the record values of the baseline, the nil map
when there is no baseline. -/
def oldValues (c : DNSController) : GoMap recordKey (List String) :=
  match c.lastSuccessfulSnapshot with
  | some last => last.recordValues
  | none => []

/-- The visited entries of the new map whose value list differs from the old one. -/
def toUpdate (old : GoMap recordKey (List String)) (visit : List (recordKey × List String)) :
    List (recordKey × List String) :=
  visit.filter (fun e => decide (e.2 ≠ old.getD e.1))

/-- The visited keys of the old map that have no entry in the new map. -/
def toDelete (new : GoMap recordKey (List String)) (visit : List (recordKey × List String)) :
    List recordKey :=
  (visit.filter (fun e => decide (new.get? e.1 = none))).map Prod.fst

/-- One invocation `updateRecords(k, values, 60)`, its error, if any, appended to the
errors collected so far. -/
def invokeUpdate {β : Type} (env : Env β) (op : dnsOp) (acc : List Err × World β)
    (e : recordKey × List String) : List Err × World β :=
  match updateRecords env op e.1 e.2 60 acc.2 with
  | (some err, w) => (acc.1 ++ [err], w)
  | (none, w) => (acc.1, w)

/-- One invocation `deleteRecords(k)`, its error, if any, appended to the errors
collected so far. -/
def invokeDelete {β : Type} (env : Env β) (op : dnsOp) (acc : List Err × World β)
    (k : recordKey) : List Err × World β :=
  match deleteRecords env op k acc.2 with
  | (some err, w) => (acc.1 ++ [err], w)
  | (none, w) => (acc.1, w)

/-- The apply phase as a script: `updateRecords` on every entry to update, then
`deleteRecords` on every key to delete, whatever errors come back. -/
def applyScript {β : Type} (env : Env β) (op : dnsOp)
    (updates : List (recordKey × List String)) (deletes : List recordKey) (w : World β) :
    List Err × World β :=
  deletes.foldl (invokeDelete env op) (updates.foldl (invokeUpdate env op) ([], w))

/-- The snapshot with its record values filled in, as `runOnce` stores it. -/
def resolved (ord : RangeOrder) (s : snapshot) : snapshot :=
  { s with recordValues := computeRecordValues ord s }

/-- The end of `runOnce` once the loops are through: the first collected error and the
controller as it was, or nil and the snapshot stored as the baseline. -/
def finish {β : Type} (c : DNSController) (snap : snapshot) (r : List Err × World β) :
    Outcome β :=
  match r.1 with
  | err :: _ => { err := some err, controller := c, world := r.2 }
  | [] =>
    { err := none,
      controller := { scopes := c.scopes, version := c.version,
                      lastSuccessfulSnapshot := some snap },
      world := r.2 }

/-- The suffixes that follow a dot of the character list, longest first. -/
def afterDots : List Char → List (List Char)
  | [] => []
  | c :: cs => if c = '.' then cs :: afterDots cs else afterDots cs

/-- The name itself and what is left after stripping one, two, ... whole leftmost
labels (each with its dot), longest first. -/
def labelSuffixes (name : String) : List String :=
  (name.data :: afterDots name.data).map String.mk

/-- A backend state: the record sets held, each with the id of its zone. -/
abbrev Store := List (Nat × ResourceRecordSet)

/-- The entry of the store for a zone, a name and a type. -/
def Store.holds (zone : Zone) (rr : ResourceRecordSet) (e : Nat × ResourceRecordSet) :
    Bool :=
  decide (e.1 = zone.id) && decide (e.2.name = rr.name) && decide (e.2.type = rr.type)

/-- A backend with the given zones that never fails and never asks to stop: `add` is an
upsert on the zone, name and type, `remove` deletes the entry, `list` returns the
record sets of the zone. -/
def storeEnv (zones : List Zone) : Env Store :=
  { stopRequested := fun b => (false, b)
    zonesList := fun b => (.ok zones, b)
    rrsList := fun zone b => (.ok ((b.filter (fun e => decide (e.1 = zone.id))).map Prod.snd), b)
    rrsAdd := fun zone rr b =>
      (none, b.filter (fun e => !Store.holds zone rr e) ++ [(zone.id, rr)])
    rrsRemove := fun zone rr b => (none, b.filter (fun e => !Store.holds zone rr e)) }

/-- A backend in which the stop signal is always set. -/
def stoppedEnv : Env Unit :=
  { quietEnv with stopRequested := fun b => (true, b) }

/-- The zone `ex.com.`. -/
def zoneEx : Zone := { id := 0, name := "ex.com.", supportsRecordSets := true }

/-- The zone `sub.ex.com.`. -/
def zoneSub : Zone := { id := 1, name := "sub.ex.com.", supportsRecordSets := true }

/-- The world of the store backend before any call. -/
def emptyStore : World Store := { backend := [], calls := [] }

/-- The basic scenario: scope `s` marked ready, the record `recA` under `svc1`, one
reconcile iteration. -/
def basicHistory : List Step :=
  [Step.markReady "s" true, Step.replace "s" "svc1" [recA], Step.runOnce RangeOrder.stored]

/-- The deletion scenario: the basic scenario, then the entry `svc1` is emptied and a
second reconcile iteration runs. -/
def deletionHistory : List Step :=
  basicHistory ++ [Step.replace "s" "svc1" [], Step.runOnce RangeOrder.stored]

/-- The record `recA` with its FQDN written with a trailing dot. -/
def recADot : Record :=
  { FQDN := "a.ex.com.", RecordType := "A", Value := "5.6.7.8", AliasTarget := false }

/-- A registry holding `a.ex.com` and `a.ex.com.` with the same type. -/
def dotTwins : DNSController :=
  MarkReady (Replace (Replace DNSController.fresh "s" "svc1" [recA]) "s" "svc2" [recADot])
    "s" true

/-- The snapshot of `readyOne`. -/
def readyOneSnapshot : snapshot :=
  { version := 1, records := [recA], aliasTargets := [], recordValues := [] }

/-- The zone of `quietEnv`. -/
def quietZone : Zone := { id := 0, name := "ex.com", supportsRecordSets := true }

/-- The DNS operation that `newDNSOp` builds on `quietEnv`. -/
def quietOp : dnsOp := { zones := [("ex.com.", quietZone)] }

/-- The world of `quietEnv` after the zone listing. -/
def listedWorld : World Unit := { backend := (), calls := [Call.listZones] }

/-- The key of `recA`. -/
def keyA : recordKey := { RecordType := "A", FQDN := "a.ex.com" }

/-- The baseline of a controller, if any, has no key twice. -/
def BaselineNodup (c : DNSController) : Prop :=
  ∀ last, c.lastSuccessfulSnapshot = some last → (GoMap.keys last.recordValues).Nodup

/-- The entries `runOnce` has to update: those of the new value map, in the visiting
order of its update loop, that differ from the old map. -/
def updatesOf (ord : RangeOrder) (c : DNSController) (s : snapshot) :
    List (recordKey × List String) :=
  toUpdate (oldValues c) (ord.update (computeRecordValues ord s)).1

/-- The keys `runOnce` has to delete: those of the old value map, in the visiting order
of its delete loop, without an entry in the new map. -/
def deletesOf (ord : RangeOrder) (c : DNSController) (s : snapshot) : List recordKey :=
  toDelete (computeRecordValues ord s) (ord.delete (oldValues c)).1

/-- The basic scenario followed by the emptying of the entry `svc1`. -/
def emptiedHistory : List Step :=
  basicHistory ++ [Step.replace "s" "svc1" []]

/-- The footprint of an attempt to update the entry `e`: the `add` of its record set on
the zone found for its FQDN among the calls, or the error of `updateRecords` for a
missing zone or for a zone without record sets among the collected errors. -/
def updateAttempted (op : dnsOp) (e : recordKey × List String) (errors : List Err)
    (calls : List Call) : Prop :=
  (∃ zone, findZone op e.1.FQDN = some zone ∧
      Call.add zone { name := e.1.FQDN, rrdatas := e.2, ttl := 60, type := e.1.RecordType }
        ∈ calls) ∨
    (findZone op e.1.FQDN = none ∧ Err.noSuitableZone e.1.FQDN ∈ errors) ∨
    ∃ zone, findZone op e.1.FQDN = some zone ∧ Err.zoneWithoutRecordSets zone.name ∈ errors

/-- The footprint of an attempt to delete the key `k`: the listing of the record sets of
the zone found for its FQDN among the calls, or the error of `deleteRecords` for a
missing zone or for a zone without record sets among the collected errors. -/
def deleteAttempted (op : dnsOp) (k : recordKey) (errors : List Err) (calls : List Call) :
    Prop :=
  (∃ zone, findZone op k.FQDN = some zone ∧ Call.listRecordSets zone ∈ calls) ∨
    (findZone op k.FQDN = none ∧ Err.noSuitableZone k.FQDN ∈ errors) ∨
    ∃ zone, findZone op k.FQDN = some zone ∧ Err.zoneWithoutRecordSets zone.name ∈ errors

/-- A backend like `quietEnv` in which every `add` fails. -/
def failingEnv : Env Unit :=
  { quietEnv with rrsAdd := fun _ _ b => (some (Err.provider "add failed"), b) }

/-- A record of type A for `b.ex.com`. -/
def recB : Record :=
  { FQDN := "b.ex.com", RecordType := "A", Value := "5.6.7.8", AliasTarget := false }

/-- A controller with one ready scope holding two records with different keys. -/
def twoKeys : DNSController :=
  Replace (Replace (MarkReady DNSController.fresh "s" true) "s" "svc1" [recA])
    "s" "svc2" [recB]

/-- The snapshot of `twoKeys` with the reversed visiting order. -/
def twoKeysSnapshot : snapshot :=
  { version := 2, records := [recB, recA], aliasTargets := [], recordValues := [] }

/-- The zone map with the zones `ex.com.` and `sub.ex.com.`. -/
def twoZones : dnsOp := { zones := [("ex.com.", zoneEx), ("sub.ex.com.", zoneSub)] }

/-- The `add` that `updateRecords(k, values, 60)` submits: one call when a zone with
record sets is found for the key's FQDN, none otherwise. -/
def addFor (op : dnsOp) (e : recordKey × List String) : List Call :=
  match findZone op e.1.FQDN with
  | some zone =>
    if zone.supportsRecordSets then
      [Call.add zone { name := e.1.FQDN, rrdatas := e.2, ttl := 60, type := e.1.RecordType }]
    else []
  | none => []

/-- The event is not a `Replace` with a record whose FQDN lacks the trailing dot. -/
def Step.dotted : Step → Bool
  | .replace _ _ records => records.all (fun r => hasDotSuffix r.FQDN)
  | _ => true

/-- No `runOnce` of the history returns an error. -/
def allSucceed {β : Type} (env : Env β) : DNSController × World β → List Step → Bool
  | _, [] => true
  | cw, st :: steps =>
    (match st with
      | .runOnce ord => (runOnce env ord cw.1 cw.2).err.isNone
      | _ => true) && allSucceed env (step env cw st) steps

/-- The DNS operation that `newDNSOp` builds from a list of zones. -/
def opOf (zones : List Zone) : dnsOp :=
  { zones := zones.foldl (fun zoneMap zone => zoneMap.set (EnsureDotSuffix zone.name) zone) [] }

/-- The record set of a key and its values, with the id of its zone. -/
def entryOf (zone : Zone) (k : recordKey) (v : List String) : Nat × ResourceRecordSet :=
  (zone.id, { name := k.FQDN, rrdatas := v, ttl := 60, type := k.RecordType })

/-- The store reflects a value map, given as a lookup function: every key of the map has
a dot-terminated FQDN and a zone with record sets, and the store holds exactly the record
sets of the map's entries, each in the zone of its key. -/
def Reflects (op : dnsOp) (M : recordKey → Option (List String)) (b : Store) : Prop :=
  (∀ k v, M k = some v →
    hasDotSuffix k.FQDN = true ∧
      ∃ z, findZone op k.FQDN = some z ∧ z.supportsRecordSets = true) ∧
  ∀ e, e ∈ b ↔ ∃ k v z, M k = some v ∧ findZone op k.FQDN = some z ∧ e = entryOf z k v

/-- Every record of the registry has a dot-terminated FQDN. -/
def AllDotted (c : DNSController) : Prop :=
  ∀ r ∈ allRecords c.scopes, hasDotSuffix r.FQDN = true

/-- The record `a.ex.com.` with a first value. -/
def recDot1 : Record :=
  { FQDN := "a.ex.com.", RecordType := "A", Value := "1.1.1.1", AliasTarget := false }

/-- The record `a.ex.com.` with a second value. -/
def recDot2 : Record :=
  { FQDN := "a.ex.com.", RecordType := "A", Value := "2.2.2.2", AliasTarget := false }

/-- A record outside every zone of the backend. -/
def recOutside : Record :=
  { FQDN := "b.other.org.", RecordType := "A", Value := "9.9.9.9", AliasTarget := false }

/-- A history with a failed iteration in the middle: `a.ex.com.` is committed with the
first value; it is changed to the second value together with a record that has no zone,
so the iteration updates `a.ex.com.` and then fails; both changes are taken back before
the next iteration. -/
def stalePrefix : List Step :=
  [Step.markReady "s" true, Step.replace "s" "svc1" [recDot1],
   Step.runOnce RangeOrder.stored,
   Step.replace "s" "svc1" [recDot2], Step.replace "s" "svc2" [recOutside],
   Step.runOnce RangeOrder.stored,
   Step.replace "s" "svc1" [recDot1], Step.replace "s" "svc2" []]

/-- The history `stalePrefix` followed by one more iteration. -/
def staleHistory : List Step :=
  stalePrefix ++ [Step.runOnce RangeOrder.stored]

/-- A history without failure: `a.ex.com.` is committed with the first value and then
changed to the second value. -/
def convergingHistory : List Step :=
  [Step.markReady "s" true, Step.replace "s" "svc1" [recDot1],
   Step.runOnce RangeOrder.stored,
   Step.replace "s" "svc1" [recDot2]]

/-! ## Auxiliary definitions: cancellation, deletion, self-referencing aliases -/

/-- The stop signal is set and stays set: every poll of `StopRequested` answers true. -/
def AlwaysStops {β : Type} (env : Env β) : Prop := ∀ b, (env.stopRequested b).1 = true

/-- The basic scenario followed by the replacement of `recA` by `recB` under `svc1`: the
baseline holds the key of `recA`, the registry the key of `recB`, so the next iteration
has one entry to update and one key to delete. -/
def pendingHistory : List Step :=
  basicHistory ++ [Step.replace "s" "svc1" [recB]]

/-- A snapshot in which the key `{A, api.ex.com}` gets the value `10.0.0.2` twice: once
from the expansion of the alias `aliasRec` and once from a plain record. -/
def dupSnapshot : snapshot :=
  { version := 3,
    records :=
      [aliasRec,
       { FQDN := "api.ex.com", RecordType := "A", Value := "10.0.0.2", AliasTarget := false }],
    aliasTargets := [("target.ex.com", [target1, target2])], recordValues := [] }

/-- The test of the loop of `deleteRecords`: the record set is not skipped when its
dot-terminated name is the key's FQDN and its type is the key's type. -/
def matchesKey (k : recordKey) (rr : ResourceRecordSet) : Bool :=
  decide (EnsureDotSuffix rr.name = k.FQDN) && decide (rr.type = k.RecordType)

/-- One removal of the loop of `deleteRecords`: `Remove(rr)` is called and its error, if
any, is appended to the collected errors. -/
def removeStep {β : Type} (env : Env β) (zone : Zone) (acc : List Err × World β)
    (rr : ResourceRecordSet) : List Err × World β :=
  match env.callRemove zone rr acc.2 with
  | (some err, w) => (acc.1 ++ [err], w)
  | (none, w) => (acc.1, w)

/-- A zone `ex.com.` that reports no support for record sets. -/
def zoneNoSets : Zone := { id := 2, name := "ex.com.", supportsRecordSets := false }

/-- The zone map with the single zone `zoneNoSets`. -/
def opNoSets : dnsOp := { zones := [("ex.com.", zoneNoSets)] }

/-- The record sets listed by `brokenEnv`: two match the key `{A, a.ex.com.}` (one of
them is named without the trailing dot), the other two differ in name or in type. -/
def listedSets : List ResourceRecordSet :=
  [{ name := "a.ex.com.", rrdatas := ["1.1.1.1"], ttl := 60, type := "A" },
   { name := "b.ex.com.", rrdatas := ["2.2.2.2"], ttl := 60, type := "A" },
   { name := "a.ex.com", rrdatas := ["3.3.3.3"], ttl := 60, type := "A" },
   { name := "a.ex.com.", rrdatas := ["text"], ttl := 60, type := "TXT" }]

/-- A backend that lists `listedSets` in every zone and fails every removal, naming the
values of the record set in the error. -/
def brokenEnv : Env Unit :=
  { quietEnv with
    rrsList := fun _ b => (.ok listedSets, b)
    rrsRemove := fun _ rr b => (some (Err.provider (String.join rr.rrdatas)), b) }

/-- A backend in which the listing of the record sets fails. -/
def unlistableEnv : Env Unit :=
  { quietEnv with rrsList := fun _ b => (.error (Err.provider "list failed"), b) }

/-- The key `{A, a.ex.com.}`. -/
def keyADot : recordKey := { RecordType := "A", FQDN := "a.ex.com." }

/-- An alias record whose value is its own FQDN. -/
def selfAlias : Record :=
  { FQDN := "self.ex.com", RecordType := RecordTypeAlias, Value := "self.ex.com",
    AliasTarget := false }

/-- An alias target registered under the FQDN of `selfAlias`. -/
def selfTarget : Record :=
  { FQDN := "self.ex.com", RecordType := "A", Value := "10.0.0.9", AliasTarget := true }

/-- A registry with the self-referencing alias and the target under its name, scope
ready. -/
def selfScenario : DNSController :=
  MarkReady (Replace (Replace DNSController.fresh "s" "t1" [selfTarget])
    "s" "a1" [selfAlias]) "s" true

/-- The snapshot of `selfScenario`. -/
def selfSnapshot : snapshot :=
  { version := 2, records := [selfAlias],
    aliasTargets := [("self.ex.com", [selfTarget])], recordValues := [] }

end DNS

/-!
# Subnet splitting (`pkg/apis/kops/cluster.go`)

A shallow embedding of `splitInto8Subnets` and of the functions of the Go packages `net`
and `encoding/binary` that it calls.

Modelling conventions.

* A Go `byte` is `Fin 256`; `net.IP` and `net.IPMask` are lists of bytes, the nil slice
  being the empty list.
* `int` values that may be negative are `Int`; `uint32` values are `Nat` below `2 ^ 32`,
  with an explicit `% 2 ^ 32` at the addition; `uint` is taken to be 64 bits wide.
* A shift `x << s` of a `uint32` yields zero when `s` is 32 or more.
* Indexing a slice out of range panics in Go; the functions that index return `none`
  then, and the split reports it as a result of its own.
-/

namespace Kops

/-- The conversion `byte(n)`. -/
def byteOf (n : Nat) : Fin 256 := ⟨n % 256, Nat.mod_lt n (by decide)⟩

/-- A `net.IPNet`: the address and the mask. -/
structure IPNet where
  IP : List (Fin 256)
  Mask : List (Fin 256)
  deriving DecidableEq, Repr

/-- `net.IP.To4`: a 4-byte address as it is, the last four bytes of a 16-byte address
with the prefix of an IPv4-mapped address; `none` stands for nil. -/
def To4 (ip : List (Fin 256)) : Option (List (Fin 256)) :=
  if ip.length = 4 then some ip
  else if ip.length = 16 ∧ (ip.take 10).all (fun b => decide (b = 0)) = true ∧
      ip.get? 10 = some 255 ∧ ip.get? 11 = some 255 then some (ip.drop 12)
  else none

/-- The inner loop of `simpleMaskLength`, `for v&0x80 != 0 { n++; v <<= 1 }`, on a byte:
the top bit is set when the byte is at least 128; eight rounds empty any byte. -/
def onesLoop : Nat → Nat → Nat → Nat × Nat
  | 0, n, v => (n, v)
  | fuel + 1, n, v => if 128 ≤ v then onesLoop fuel (n + 1) (v * 2 % 256) else (n, v)

/-- `simpleMaskLength` of package `net`: the number of leading one bits when the mask is
a run of ones followed by zeros only; `none` stands for `-1`. -/
def simpleMaskLength : List (Fin 256) → Nat → Option Nat
  | [], n => some n
  | v :: rest, n =>
    if v = 255 then simpleMaskLength rest (n + 8)
    else
      let r := onesLoop 8 n v.val
      if r.2 ≠ 0 then none
      else if rest.all (fun b => decide (b = 0)) then some r.1
      else none

/-- `net.IPMask.Size`: the number of leading ones and the number of bits, or `0, 0` when
the mask is not canonical. -/
def Size (m : List (Fin 256)) : Nat × Nat :=
  match simpleMaskLength m 0 with
  | none => (0, 0)
  | some ones => (ones, m.length * 8)

/-- The loop of `net.CIDRMask` over the `l` bytes of the mask. -/
def cidrLoop : Nat → Nat → List (Fin 256)
  | 0, _ => []
  | l + 1, n => if 8 ≤ n then 255 :: cidrLoop l (n - 8)
                else byteOf (255 - 255 / 2 ^ n) :: cidrLoop l 0

/-- `net.CIDRMask(ones, bits)`: nil unless `bits` is 32 or 128 and `ones` lies between 0
and `bits`. -/
def CIDRMask (ones bits : Int) : List (Fin 256) :=
  if bits ≠ 32 ∧ bits ≠ 128 then []
  else if ones < 0 ∨ ones > bits then []
  else cidrLoop (bits / 8).toNat ones.toNat

/-- `binary.BigEndian.Uint32`: `none` when the slice has fewer than four bytes. -/
def Uint32 : List (Fin 256) → Option Nat
  | b0 :: b1 :: b2 :: b3 :: _ =>
    some (b3.val + b2.val * 2 ^ 8 + b1.val * 2 ^ 16 + b0.val * 2 ^ 24)
  | _ => none

/-- `binary.BigEndian.PutUint32`: the slice with its first four bytes overwritten, `none`
when it has fewer than four bytes. -/
def PutUint32 : List (Fin 256) → Nat → Option (List (Fin 256))
  | _ :: _ :: _ :: _ :: rest, v =>
    some (byteOf (v / 2 ^ 24) :: byteOf (v / 2 ^ 16) :: byteOf (v / 2 ^ 8) :: byteOf v :: rest)
  | _, _ => none

/-- The conversion `uint(x)` of an `int`. -/
def uintOf (x : Int) : Nat := (x % 2 ^ 64).toNat

/-- The shift `x << s` of a `uint32`. -/
def shl32 (x s : Nat) : Nat := if s < 32 then x * 2 ^ s % 2 ^ 32 else 0

/-- What `splitInto8Subnets` can end in besides its subnets: the error it formats, which
embeds the parent, or a panic on a slice index. -/
inductive SplitErr where
  | unexpectedIPType (parent : IPNet)
  | indexOutOfRange
  deriving DecidableEq, Repr

/-- The body of the loop of `splitInto8Subnets` for the index `i`. -/
def subnetAt (parent : IPNet) (networkLength : Int) (i : Nat) : Except SplitErr IPNet :=
  match To4 parent.IP with
  | some ip4 =>
    match Uint32 ip4 with
    | none => .error SplitErr.indexOutOfRange
    | some n =>
      let n := (n + shl32 (i % 2 ^ 32) (uintOf (32 - networkLength))) % 2 ^ 32
      match PutUint32 (List.replicate ip4.length 0) n with
      | none => .error SplitErr.indexOutOfRange
      | some subnetIP => .ok { IP := subnetIP, Mask := CIDRMask networkLength 32 }
  | none => .error (SplitErr.unexpectedIPType parent)

/-- The loop `for i := 0; i < 8; i++` of `splitInto8Subnets`, with the number of rounds
left. -/
def splitLoop (parent : IPNet) (networkLength : Int) :
    Nat → Nat → List IPNet → Except SplitErr (List IPNet)
  | 0, _, subnets => .ok subnets
  | rounds + 1, i, subnets =>
    match subnetAt parent networkLength i with
    | .error err => .error err
    | .ok subnet => splitLoop parent networkLength rounds (i + 1) (subnets ++ [subnet])

/-- `splitInto8Subnets`. -/
def splitInto8Subnets (parent : IPNet) : Except SplitErr (List IPNet) :=
  let networkLength : Int := (Size parent.Mask).1
  let networkLength := networkLength + 3
  splitLoop parent networkLength 8 0 []

/-! ## Auxiliary definitions for the statements on subnets -/

/-- The four bytes of a 32-bit address, most significant first. -/
def ipOf (v : Nat) : List (Fin 256) :=
  [byteOf (v / 2 ^ 24), byteOf (v / 2 ^ 16), byteOf (v / 2 ^ 8), byteOf v]

/-- The address of an IPv4 network as a number, zero when it is not IPv4. -/
def IPNet.start (net : IPNet) : Nat :=
  match To4 net.IP with
  | some ip4 => (Uint32 ip4).getD 0
  | none => 0

/-- The prefix length of a network: the number of leading ones of its mask. -/
def IPNet.prefixLength (net : IPNet) : Nat := (Size net.Mask).1

/-- The address range of an IPv4 network: the `2 ^ (32 - prefix length)` addresses from
its own address on. -/
def IPNet.covers (net : IPNet) (a : Nat) : Prop :=
  net.start ≤ a ∧ a < net.start + 2 ^ (32 - net.prefixLength)

/-- The network `10.0.0.0/8`. -/
def net10 : IPNet := { IP := [10, 0, 0, 0], Mask := [255, 0, 0, 0] }

/-- The network `10.0.0.0/30`. -/
def net10Small : IPNet := { IP := [10, 0, 0, 0], Mask := [255, 255, 255, 252] }

/-- The parent `10.1.2.3/8`, whose address is not the network address. -/
def netHost : IPNet := { IP := [10, 1, 2, 3], Mask := [255, 0, 0, 0] }

/-- The parent `255.255.255.255/8`. -/
def netWrap : IPNet := { IP := [255, 255, 255, 255], Mask := [255, 0, 0, 0] }

/-- An IPv6 network, `2001:db8::/32`. -/
def net6 : IPNet :=
  { IP := [32, 1, 13, 184, 0, 0, 0, 0, 0, 0, 0, 0, 0, 0, 0, 0],
    Mask := [255, 255, 255, 255, 0, 0, 0, 0, 0, 0, 0, 0, 0, 0, 0, 0] }

end Kops

namespace DNS

/-! ## Auxiliary definitions: contributions of one record, failing zone listings -/

/-- The snapshot without one occurrence of the record `r` among its records; the alias
targets are kept. -/
def withoutRecord (s : snapshot) (r : Record) : snapshot :=
  { s with records := s.records.erase r }

/-- The values that the expansion of the alias `r` yields for the key `k`: the values of
the targets in `aliasTargets[r.Value]` whose type, with the FQDN of `r`, makes `k`. -/
def expansion (s : snapshot) (r : Record) (k : recordKey) : List String :=
  ((s.aliasTargets.getD r.Value).filter (fun t =>
    decide (({ RecordType := t.RecordType, FQDN := r.FQDN } : recordKey) = k))).map
    Record.Value

/-- A backend like `quietEnv` whose zone listing fails. -/
def zonesDownEnv : Env Unit :=
  { quietEnv with zonesList := fun b => (.error (Err.provider "zones down"), b) }

/-- A backend over the number of zone listings made so far: the first listing succeeds
with the zone of `quietEnv`, every later one fails; nothing else fails and no stop is
requested. -/
def flakyEnv : Env Nat :=
  { stopRequested := fun b => (false, b)
    zonesList := fun b =>
      (if b = 0 then .ok [quietZone] else .error (Err.provider "zones down"), b + 1)
    rrsList := fun _ b => (.ok [], b)
    rrsAdd := fun _ _ b => (none, b)
    rrsRemove := fun _ _ b => (none, b) }

/-- The world of `flakyEnv` before any call. -/
def flakyWorld : World Nat := { backend := 0, calls := [] }

/-- The basic scenario followed by a `Replace` that writes the same record again: the
version changes, the record values do not. -/
def sameAgainHistory : List Step :=
  basicHistory ++ [Step.replace "s" "svc1" [recA]]

/-- A record of type A for `c.ex.com`. -/
def recC : Record :=
  { FQDN := "c.ex.com", RecordType := "A", Value := "9.9.9.9", AliasTarget := false }

/-- A history that commits the keys of `recA` and `recB` and then replaces both records
by `recC`: the next iteration has one entry to update and two keys to delete, all three
in the zone of `quietEnv`. -/
def isolationHistory : List Step :=
  [Step.markReady "s" true, Step.replace "s" "svc1" [recA], Step.replace "s" "svc2" [recB],
   Step.runOnce RangeOrder.stored, Step.replace "s" "svc1" [recC],
   Step.replace "s" "svc2" []]

/-! ## Lemmas on Go maps -/

namespace GoMap

variable {κ ν : Type} [DecidableEq κ]

theorem get?_set_self (m : GoMap κ ν) (k : κ) (v : ν) : get? (set m k v) k = some v := by
  induction m with
  | nil => simp [set, get?]
  | cons e m ih =>
    obtain ⟨k', v'⟩ := e
    by_cases h : k' = k
    · simp [set, get?, h]
    · simp [set, get?, h, ih]

theorem get?_set_other (m : GoMap κ ν) {k k' : κ} (v : ν) (h : k' ≠ k) :
    get? (set m k v) k' = get? m k' := by
  induction m with
  | nil => simp [set, get?, Ne.symm h]
  | cons e m ih =>
    obtain ⟨k₀, v₀⟩ := e
    by_cases h₀ : k₀ = k
    · subst h₀
      simp [set, get?, Ne.symm h]
    · by_cases h₁ : k₀ = k'
      · subst h₁
        simp [set, get?, h₀]
      · simp [set, get?, h₀, h₁, ih]

theorem get?_delete_self (m : GoMap κ ν) (k : κ) : get? (delete m k) k = none := by
  induction m with
  | nil => simp [delete, get?]
  | cons e m ih =>
    obtain ⟨k', v'⟩ := e
    by_cases h : k' = k
    · simpa [delete, h] using ih
    · simpa [delete, get?, h] using ih

theorem get?_delete_other (m : GoMap κ ν) {k k' : κ} (h : k' ≠ k) :
    get? (delete m k) k' = get? m k' := by
  induction m with
  | nil => simp [delete, get?]
  | cons e m ih =>
    obtain ⟨k₀, v₀⟩ := e
    by_cases h₀ : k₀ = k
    · subst h₀
      simpa [delete, get?, Ne.symm h] using ih
    · by_cases h₁ : k₀ = k'
      · subst h₁
        simp [delete, get?, h₀]
      · simpa [delete, get?, h₀, h₁] using ih

theorem mem_set (m : GoMap κ ν) (k : κ) (v : ν) (e : κ × ν) (h : e ∈ set m k v) :
    e = (k, v) ∨ e ∈ m := by
  induction m with
  | nil => simpa [set] using h
  | cons e₀ m ih =>
    obtain ⟨k₀, v₀⟩ := e₀
    by_cases h₀ : k₀ = k
    · simp only [set, h₀, if_true, List.mem_cons] at h
      rcases h with h | h
      · exact Or.inl h
      · exact Or.inr (List.mem_cons_of_mem _ h)
    · simp only [set, h₀, if_false, List.mem_cons] at h
      rcases h with h | h
      · exact Or.inr (h ▸ List.mem_cons_self _ _)
      · rcases ih h with h | h
        · exact Or.inl h
        · exact Or.inr (List.mem_cons_of_mem _ h)

theorem set_ne_nil (m : GoMap κ ν) (k : κ) (v : ν) : set m k v ≠ [] := by
  cases m with
  | nil => simp [set]
  | cons e m =>
    obtain ⟨k', v'⟩ := e
    by_cases h : k' = k <;> simp [set, h]

end GoMap

/-! ## Readiness gating and steady state -/

theorem readyLoop_none (ord : RangeOrder) :
    ∀ (l : List (String × scope)) (n : Nat), (∃ e ∈ l, e.2.Ready = false) →
      readyLoop ord l n = none
  | [], _, h => by simp at h
  | (name, sc) :: rest, n, h => by
    cases hr : sc.Ready with
    | false => simp [readyLoop, hr]
    | true =>
      have h' : ∃ e ∈ rest, e.2.Ready = false := by
        obtain ⟨e, he, hf⟩ := h
        rcases List.mem_cons.1 he with rfl | he
        · simp [hr] at hf
        · exact ⟨e, he, hf⟩
      simp [readyLoop, hr, readyLoop_none ord rest _ h']

theorem snapshot_none_of_not_ready (ord : RangeOrder) (c : DNSController)
    (h : ∃ e ∈ c.scopes, e.2.Ready = false) : snapshotIfChangedAndReady ord c = none := by
  have h' : ∃ e ∈ (ord.readyScopes c.scopes).1, e.2.Ready = false := by
    obtain ⟨e, he, hf⟩ := h
    exact ⟨e, ((ord.readyScopes c.scopes).2.mem_iff).2 he, hf⟩
  unfold snapshotIfChangedAndReady
  simp only [readyLoop_none ord _ 0 h']
  split <;> rfl

theorem runOnce_of_snapshot_none {β : Type} (env : Env β) (ord : RangeOrder)
    (c : DNSController) (w : World β) (h : snapshotIfChangedAndReady ord c = none) :
    runOnce env ord c w = { err := none, controller := c, world := w } := by
  unfold runOnce
  simp only [h]

theorem snapshot_none_of_unchanged (ord : RangeOrder) (c : DNSController) (last : snapshot)
    (h : c.lastSuccessfulSnapshot = some last) (hv : c.version = last.version) :
    snapshotIfChangedAndReady ord c = none := by
  unfold snapshotIfChangedAndReady
  simp [h, hv]

theorem snapshot_version (ord : RangeOrder) (c : DNSController) (s : snapshot)
    (h : snapshotIfChangedAndReady ord c = some s) : s.version = c.version := by
  unfold snapshotIfChangedAndReady at h
  simp only at h
  split at h
  · cases h
  · split at h
    · cases h
    · cases h
      rfl

/-- C1. Whenever some scope of the registry has `Ready = false`,
`snapshotIfChangedAndReady` returns no snapshot, for every version counter, every last
successful snapshot and every visiting order of the maps. -/
theorem C1_no_snapshot_unless_all_ready (ord : RangeOrder) (scopes : GoMap String scope)
    (version : Nat) (last : Option snapshot) (h : ∃ e ∈ scopes, e.2.Ready = false) :
    snapshotIfChangedAndReady ord
      { scopes := scopes, version := version, lastSuccessfulSnapshot := last } = none :=
  snapshot_none_of_not_ready ord _ h

theorem C1_no_snapshot_unless_all_ready_witness :
    (∃ e ∈ [("a", ({ ScopeName := "a", Ready := true, Records := [] } : scope)),
            ("b", ({ ScopeName := "b", Ready := false, Records := [] } : scope))],
        e.2.Ready = false) ∧
    snapshotIfChangedAndReady RangeOrder.reversed
      { scopes := [("a", { ScopeName := "a", Ready := true, Records := [] }),
                   ("b", { ScopeName := "b", Ready := false, Records := [] })],
        version := 7, lastSuccessfulSnapshot := none } = none :=
  ⟨⟨_, List.mem_cons_of_mem _ (List.mem_cons_self _ _), rfl⟩,
   C1_no_snapshot_unless_all_ready RangeOrder.reversed _ 7 none
     ⟨_, List.mem_cons_of_mem _ (List.mem_cons_self _ _), rfl⟩⟩

theorem order_nil {α : Type} (o : Order α) : (o []).1 = [] :=
  List.Perm.eq_nil (o []).2

theorem order_eq_nil {α : Type} (o : Order α) (l : List α) (h : l = []) : (o l).1 = [] := by
  subst h
  exact order_nil o

theorem newDNSOp_calls {β : Type} (env : Env β) (w : World β) :
    (newDNSOp env w).2.calls = w.calls ++ [Call.listZones] := by
  unfold newDNSOp Env.callZonesList
  cases h : (env.zonesList w.backend).1 <;> simp [h]

theorem snapshot_of_no_scopes (ord : RangeOrder) (c : DNSController) (s : snapshot)
    (hc : c.scopes = []) (h : snapshotIfChangedAndReady ord c = some s) :
    s = { version := c.version, records := [], aliasTargets := [], recordValues := [] } := by
  obtain ⟨scopes, version, last⟩ := c
  simp only at hc
  subst hc
  unfold snapshotIfChangedAndReady at h
  simp only [order_nil, readyLoop, collectLoop, List.foldl_nil] at h
  split at h
  · cases h
  · cases h
    rfl

theorem computeRecordValues_of_no_records (ord : RangeOrder) (s : snapshot)
    (h : s.records = []) : computeRecordValues ord s = [] := by
  obtain ⟨version, records, aliasTargets, recordValues⟩ := s
  simp only at h
  subst h
  simp [computeRecordValues, resolveLoop, order_nil, normalizeLoop]

theorem getScope_scopes_mem (c : DNSController) (scopeName : String) (e : String × scope)
    (he : e ∈ (getScope c scopeName).1.scopes) :
    e ∈ c.scopes ∨ e.2.Ready = false := by
  unfold getScope at he
  split at he
  · exact Or.inl he
  · rcases GoMap.mem_set _ _ _ _ he with h | h
    · exact Or.inr (by rw [h])
    · exact Or.inl h

theorem getScope_snd_ready (c : DNSController) (scopeName : String)
    (h : ∀ e ∈ c.scopes, e.2.Ready = false) : (getScope c scopeName).2.Ready = false := by
  unfold getScope
  split
  · rename_i s hs
    have hmem : ∀ (m : GoMap String scope), m.get? scopeName = some s → (scopeName, s) ∈ m := by
      intro m
      induction m with
      | nil => intro h; simp [GoMap.get?] at h
      | cons e m ih =>
        obtain ⟨k', v'⟩ := e
        intro h
        by_cases hk : k' = scopeName
        · simp [GoMap.get?, hk] at h
          simp [hk, h]
        · simp [GoMap.get?, hk] at h
          exact List.mem_cons_of_mem _ (ih h)
    exact h _ (hmem _ hs)
  · rfl

theorem getScope_last (c : DNSController) (scopeName : String) :
    (getScope c scopeName).1.lastSuccessfulSnapshot = c.lastSuccessfulSnapshot := by
  unfold getScope
  split <;> rfl

theorem getScope_version (c : DNSController) (scopeName : String) :
    (getScope c scopeName).1.version = c.version := by
  unfold getScope
  split <;> rfl

theorem Gated_Replace (c : DNSController) (scopeName recordName : String)
    (records : List Record) (h : Gated c) : Gated (Replace c scopeName recordName records) := by
  refine ⟨?_, ?_⟩
  · intro e he
    simp only [Replace] at he
    rcases GoMap.mem_set _ _ _ _ he with h' | h'
    · rw [h']
      have := getScope_snd_ready c scopeName h.1
      split <;> simpa using this
    · rcases getScope_scopes_mem c scopeName e h' with h'' | h''
      · exact h.1 e h''
      · exact h''
  · intro last hl
    simp only [Replace, getScope_last] at hl
    exact h.2 last hl

theorem Gated_MarkReady_false (c : DNSController) (scopeName : String) (h : Gated c) :
    Gated (MarkReady c scopeName false) := by
  refine ⟨?_, ?_⟩
  · intro e he
    simp only [MarkReady] at he
    rcases GoMap.mem_set _ _ _ _ he with h' | h'
    · rw [h']
    · rcases getScope_scopes_mem c scopeName e h' with h'' | h''
      · exact h.1 e h''
      · exact h''
  · intro last hl
    simp only [MarkReady, getScope_last] at hl
    exact h.2 last hl

theorem runOnce_Gated {β : Type} (env : Env β) (ord : RangeOrder) (c : DNSController)
    (w : World β) (h : Gated c) :
    Gated (runOnce env ord c w).controller ∧
      ((runOnce env ord c w).world.calls = w.calls ∨
        (runOnce env ord c w).world.calls = w.calls ++ [Call.listZones]) := by
  cases hs : snapshotIfChangedAndReady ord c with
  | none =>
    rw [runOnce_of_snapshot_none env ord c w hs]
    exact ⟨h, Or.inl rfl⟩
  | some s =>
    have hc : c.scopes = [] := by
      cases hsc : c.scopes with
      | nil => rfl
      | cons e rest =>
        have : snapshotIfChangedAndReady ord c = none :=
          snapshot_none_of_not_ready ord c
            ⟨e, by rw [hsc]; exact List.mem_cons_self _ _,
              h.1 e (by rw [hsc]; exact List.mem_cons_self _ _)⟩
        rw [this] at hs
        cases hs
    have hs' := snapshot_of_no_scopes ord c s hc hs
    have hold : (match c.lastSuccessfulSnapshot with
        | some last => last.recordValues
        | none => ([] : GoMap recordKey (List String))) = [] := by
      cases hl : c.lastSuccessfulSnapshot with
      | none => rfl
      | some last => exact h.2 last hl
    have hnew : computeRecordValues ord s = [] :=
      computeRecordValues_of_no_records ord s (by rw [hs'])
    have hcalls := newDNSOp_calls env w
    unfold runOnce
    simp only [hs, order_eq_nil _ _ hold, order_eq_nil _ _ hnew, hnew]
    cases hop : newDNSOp env w with
    | mk r w' =>
      rw [hop] at hcalls
      cases r with
      | error err => exact ⟨h, Or.inr hcalls⟩
      | ok op =>
        simp only [updateLoop, deleteLoop]
        refine ⟨⟨h.1, ?_⟩, Or.inr hcalls⟩
        intro last hl
        cases hl
        rfl

theorem run_Gated {β : Type} (env : Env β) :
    ∀ (steps : List Step) (c : DNSController) (w : World β),
      steps.all (fun st => !st.marksReady) = true → Gated c →
      (∀ call ∈ w.calls, call.isWrite = false) →
      ∀ call ∈ (run env (c, w) steps).2.calls, call.isWrite = false
  | [], _, _, _, _, hw => hw
  | st :: steps, c, w, hsteps, hc, hw => by
    have hst : st.marksReady = false ∧ steps.all (fun st => !st.marksReady) = true := by
      simpa using hsteps
    show ∀ call ∈ (run env (step env (c, w) st) steps).2.calls, call.isWrite = false
    cases st with
    | markReady scopeName ready =>
      have hr : ready = false := hst.1
      subst hr
      exact run_Gated env steps _ _ hst.2 (Gated_MarkReady_false c scopeName hc) hw
    | replace scopeName recordName records =>
      exact run_Gated env steps _ _ hst.2 (Gated_Replace c scopeName recordName records hc) hw
    | runOnce ord =>
      have h := runOnce_Gated env ord c w hc
      refine run_Gated env steps _ _ hst.2 h.1 ?_
      intro call hcall
      rcases h.2 with h2 | h2
      · exact hw call (by simpa [step, h2] using hcall)
      · have : call ∈ w.calls ++ [Call.listZones] := by simpa [step, h2] using hcall
        rcases List.mem_append.1 this with h3 | h3
        · exact hw call h3
        · have : call = Call.listZones := by simpa using h3
          rw [this]
          rfl

/-- C2. From a freshly constructed controller, a history of `Replace`, `MarkReady(_,
false)` and `runOnce` events (no `MarkReady(_, true)`) makes no `add` and no `remove`
call on the backend; and in any state where some scope is present but not ready, a
`runOnce` makes no backend call at all, returns nil and leaves the controller as it
was. -/
theorem C2_readiness_gating {β : Type} (env : Env β) (backend : β) (steps : List Step)
    (ord : RangeOrder) (c : DNSController) (w : World β) :
    (steps.all (fun st => !st.marksReady) = true →
      ∀ call ∈ (run env (DNSController.fresh, { backend := backend, calls := [] })
          steps).2.calls, call.isWrite = false) ∧
    ((∃ e ∈ c.scopes, e.2.Ready = false) →
      runOnce env ord c w = { err := none, controller := c, world := w }) := by
  refine ⟨fun hsteps => ?_, fun h => ?_⟩
  · refine run_Gated env steps _ _ hsteps ⟨?_, ?_⟩ ?_
    · intro e he
      cases he
    · intro last hl
      cases hl
    · intro call hcall
      cases hcall
  · exact runOnce_of_snapshot_none env ord c w (snapshot_none_of_not_ready ord c h)

theorem C2_readiness_gating_witness :
    (∀ call ∈ (run quietEnv (DNSController.fresh, { backend := (), calls := [] })
        gatedHistory).2.calls, call.isWrite = false) ∧
    runOnce quietEnv RangeOrder.stored halfReady emptyWorld =
      { err := none, controller := halfReady, world := emptyWorld } :=
  ⟨(C2_readiness_gating quietEnv () gatedHistory RangeOrder.stored halfReady emptyWorld).1
      (by decide),
   (C2_readiness_gating quietEnv () gatedHistory RangeOrder.stored halfReady emptyWorld).2
      ⟨_, List.mem_cons_of_mem _ (List.mem_cons_self _ _), rfl⟩⟩

/-! ## Steady state -/

theorem Settled_MarkReady (c : DNSController) (scopeName : String) (ready : Bool)
    (h : Settled c) : Settled (MarkReady c scopeName ready) := by
  obtain ⟨last, hl, hv⟩ := h
  exact ⟨last, by simp only [MarkReady, getScope_last, hl],
    by simp only [MarkReady, getScope_version, hv]⟩

theorem runOnce_Settled {β : Type} (env : Env β) (ord : RangeOrder) (c : DNSController)
    (w : World β) (h : Settled c) :
    snapshotIfChangedAndReady ord c = none ∧
      runOnce env ord c w = { err := none, controller := c, world := w } := by
  obtain ⟨last, hl, hv⟩ := h
  have hs := snapshot_none_of_unchanged ord c last hl hv
  exact ⟨hs, runOnce_of_snapshot_none env ord c w hs⟩

theorem runOnce_commit_Settled {β : Type} (env : Env β) (ord : RangeOrder)
    (c : DNSController) (w : World β) (s : snapshot)
    (hs : snapshotIfChangedAndReady ord c = some s)
    (herr : (runOnce env ord c w).err = none) :
    (runOnce env ord c w).controller =
      { scopes := c.scopes, version := c.version,
        lastSuccessfulSnapshot := some { s with recordValues := computeRecordValues ord s } } := by
  unfold runOnce at herr ⊢
  simp only [hs] at herr ⊢
  split at herr
  · cases herr
  · split at herr
    · cases herr
    · split at herr
      · cases herr
      · split at herr
        · cases herr
        · rfl

theorem run_Settled {β : Type} (env : Env β) :
    ∀ (steps : List Step) (c : DNSController) (w : World β),
      steps.all (fun st => !st.isReplace) = true → Settled c →
      Settled (run env (c, w) steps).1 ∧ (run env (c, w) steps).2 = w ∧
        (run env (c, w) steps).1.version = c.version ∧
        (run env (c, w) steps).1.lastSuccessfulSnapshot = c.lastSuccessfulSnapshot
  | [], _, _, _, hc => ⟨hc, rfl, rfl, rfl⟩
  | st :: steps, c, w, hsteps, hc => by
    have hst : st.isReplace = false ∧ steps.all (fun st => !st.isReplace) = true := by
      simpa using hsteps
    show Settled (run env (step env (c, w) st) steps).1 ∧
      (run env (step env (c, w) st) steps).2 = w ∧
      (run env (step env (c, w) st) steps).1.version = c.version ∧
      (run env (step env (c, w) st) steps).1.lastSuccessfulSnapshot = c.lastSuccessfulSnapshot
    cases st with
    | markReady scopeName ready =>
      have ih := run_Settled env steps (MarkReady c scopeName ready) w hst.2
        (Settled_MarkReady c scopeName ready hc)
      refine ⟨ih.1, ih.2.1, ?_, ?_⟩
      · rw [show (step env (c, w) (Step.markReady scopeName ready)) =
          (MarkReady c scopeName ready, w) from rfl, ih.2.2.1]
        simp only [MarkReady, getScope_version]
      · rw [show (step env (c, w) (Step.markReady scopeName ready)) =
          (MarkReady c scopeName ready, w) from rfl, ih.2.2.2]
        simp only [MarkReady, getScope_last]
    | replace scopeName recordName records =>
      simp [Step.isReplace] at hst
    | runOnce ord =>
      have h := (runOnce_Settled env ord c w hc).2
      have hstep : step env (c, w) (Step.runOnce ord) = (c, w) := by
        simp only [step, h]
      rw [hstep]
      exact run_Settled env steps c w hst.2 hc

/-- C3. After a `runOnce` that built a snapshot and committed it, as long as no `Replace`
happens (any `MarkReady` calls and further `runOnce` calls may), every later `runOnce`
finds `version == lastSuccessfulSnapshot.version`, gets no snapshot, makes no backend
call of any kind (the world, trace and backend state, is exactly as the committing call
left it), returns nil and leaves the controller unchanged. -/
theorem C3_steady_state_idle {β : Type} (env : Env β) (ord : RangeOrder) (c : DNSController)
    (w : World β) (s : snapshot) (steps : List Step) (ord' : RangeOrder)
    (hs : snapshotIfChangedAndReady ord c = some s)
    (herr : (runOnce env ord c w).err = none)
    (hsteps : steps.all (fun st => !st.isReplace) = true) :
    let after := run env ((runOnce env ord c w).controller, (runOnce env ord c w).world) steps
    (∃ last, after.1.lastSuccessfulSnapshot = some last ∧ after.1.version = last.version) ∧
    snapshotIfChangedAndReady ord' after.1 = none ∧
    after.2 = (runOnce env ord c w).world ∧
    runOnce env ord' after.1 after.2 =
      { err := none, controller := after.1, world := (runOnce env ord c w).world } := by
  intro after
  have hcommit := runOnce_commit_Settled env ord c w s hs herr
  have hsettled : Settled (runOnce env ord c w).controller := by
    rw [hcommit]
    exact ⟨_, rfl, (snapshot_version ord c s hs).symm⟩
  have hrun := run_Settled env steps _ (runOnce env ord c w).world hsteps hsettled
  have hlast := runOnce_Settled env ord' after.1 after.2 hrun.1
  refine ⟨hrun.1, hlast.1, hrun.2.1, ?_⟩
  rw [hlast.2, hrun.2.1]

theorem C3_steady_state_idle_witness :
    snapshotIfChangedAndReady RangeOrder.stored readyOne =
      some { version := 1, records := [recA], aliasTargets := [], recordValues := [] } ∧
    (runOnce quietEnv RangeOrder.stored readyOne emptyWorld).err = none ∧
    quietHistory.all (fun st => !st.isReplace) = true ∧
    snapshotIfChangedAndReady RangeOrder.reversed
      (run quietEnv ((runOnce quietEnv RangeOrder.stored readyOne emptyWorld).controller,
        (runOnce quietEnv RangeOrder.stored readyOne emptyWorld).world) quietHistory).1 = none :=
  ⟨by decide, by decide, by decide,
   (C3_steady_state_idle quietEnv RangeOrder.stored readyOne emptyWorld
      { version := 1, records := [recA], aliasTargets := [], recordValues := [] } quietHistory
      RangeOrder.reversed (by decide) (by decide) (by decide)).2.1⟩

/-! ## Registry operations -/

theorem getScope_scopes_get?_other (c : DNSController) (scopeName : String) {s' : String}
    (h : s' ≠ scopeName) : (getScope c scopeName).1.scopes.get? s' = c.scopes.get? s' := by
  unfold getScope
  split
  · rfl
  · exact GoMap.get?_set_other _ _ h

theorem getScope_snd (c : DNSController) (scopeName : String) :
    (getScope c scopeName).2 =
      match c.scopes.get? scopeName with
      | some sc => sc
      | none => { ScopeName := scopeName, Ready := false, Records := [] } := by
  unfold getScope
  split <;> simp [*]

/-- C4. After `Replace(s, n, rs)` the scope `s` exists; its entry `n` is `rs` when `rs`
is non-empty and is absent when `rs` is empty; its other entries are as before (none
when the scope was just created); its ready flag is as before, and false when the scope
was just created; every other scope is unchanged (records and ready flag); the baseline
is untouched. -/
theorem C4_replace_frame (c : DNSController) (s n : String) (rs : List Record) :
    (∃ sc, (Replace c s n rs).scopes.get? s = some sc ∧
      sc.Records.get? n = (if rs = [] then none else some rs) ∧
      (∀ n', n' ≠ n → sc.Records.get? n' = (recordsOf c.scopes s).get? n') ∧
      sc.Ready = (match c.scopes.get? s with
        | some sc₀ => sc₀.Ready
        | none => false)) ∧
    (∀ s', s' ≠ s → (Replace c s n rs).scopes.get? s' = c.scopes.get? s') ∧
    (Replace c s n rs).lastSuccessfulSnapshot = c.lastSuccessfulSnapshot := by
  refine ⟨?_, ?_, ?_⟩
  · refine ⟨_, by simp only [Replace]; exact GoMap.get?_set_self _ _ _, ?_, ?_, ?_⟩
    · cases rs with
      | nil => simp [GoMap.get?_delete_self]
      | cons r rs => simp [GoMap.get?_set_self]
    · intro n' hn'
      rw [getScope_snd, recordsOf]
      cases rs with
      | nil =>
        simp only [List.length_nil, if_true]
        rw [GoMap.get?_delete_other _ hn']
        cases c.scopes.get? s <;> rfl
      | cons r rs =>
        simp only [List.length_cons, Nat.add_one_ne_zero, if_false]
        rw [GoMap.get?_set_other _ _ hn']
        cases c.scopes.get? s <;> rfl
    · rw [getScope_snd]
      cases c.scopes.get? s <;> split <;> rfl
  · intro s' hs'
    simp only [Replace]
    rw [GoMap.get?_set_other _ _ hs', getScope_scopes_get?_other c s hs']
  · simp only [Replace, getScope_last]

theorem C4_replace_frame_witness :
    (∃ sc, (Replace halfReady "b" "svc9" [recA]).scopes.get? "b" = some sc ∧
      sc.Records.get? "svc9" = (if [recA] = [] then none else some [recA]) ∧
      (∀ n', n' ≠ "svc9" → sc.Records.get? n' = (recordsOf halfReady.scopes "b").get? n') ∧
      sc.Ready = (match halfReady.scopes.get? "b" with
        | some sc₀ => sc₀.Ready
        | none => false)) ∧
    (∀ s', s' ≠ "b" →
      (Replace halfReady "b" "svc9" [recA]).scopes.get? s' = halfReady.scopes.get? s') ∧
    (Replace halfReady "b" "svc9" [recA]).lastSuccessfulSnapshot =
      halfReady.lastSuccessfulSnapshot :=
  C4_replace_frame halfReady "b" "svc9" [recA]

/-! ## Version counter -/

theorem Replace_version (c : DNSController) (s n : String) (rs : List Record) :
    (Replace c s n rs).version = (c.version + 1) % 2 ^ 64 := by
  simp only [Replace, getScope_version]

theorem Replace_last (c : DNSController) (s n : String) (rs : List Record) :
    (Replace c s n rs).lastSuccessfulSnapshot = c.lastSuccessfulSnapshot := by
  simp only [Replace, getScope_last]

theorem MarkReady_version (c : DNSController) (s : String) (ready : Bool) :
    (MarkReady c s ready).version = c.version := by
  simp only [MarkReady, getScope_version]

theorem MarkReady_last (c : DNSController) (s : String) (ready : Bool) :
    (MarkReady c s ready).lastSuccessfulSnapshot = c.lastSuccessfulSnapshot := by
  simp only [MarkReady, getScope_last]

theorem runOnce_controller {β : Type} (env : Env β) (ord : RangeOrder) (c : DNSController)
    (w : World β) :
    (runOnce env ord c w).controller = c ∨
      ∃ s, snapshotIfChangedAndReady ord c = some s ∧
        (runOnce env ord c w).controller =
          { scopes := c.scopes, version := c.version,
            lastSuccessfulSnapshot :=
              some { s with recordValues := computeRecordValues ord s } } := by
  cases hs : snapshotIfChangedAndReady ord c with
  | none =>
    rw [runOnce_of_snapshot_none env ord c w hs]
    exact Or.inl rfl
  | some s =>
    cases herr : (runOnce env ord c w).err with
    | none => exact Or.inr ⟨s, rfl, runOnce_commit_Settled env ord c w s hs herr⟩
    | some e =>
      left
      unfold runOnce at herr ⊢
      simp only [hs] at herr ⊢
      split at herr
      · rfl
      · split at herr
        · rfl
        · split at herr
          · rfl
          · split at herr
            · rfl
            · cases herr

theorem runOnce_version {β : Type} (env : Env β) (ord : RangeOrder) (c : DNSController)
    (w : World β) : (runOnce env ord c w).controller.version = c.version := by
  rcases runOnce_controller env ord c w with h | ⟨s, _, h⟩ <;> rw [h]

theorem step_version {β : Type} (env : Env β) (c : DNSController) (w : World β) (st : Step) :
    (step env (c, w) st).1.version =
      if st.isReplace then (c.version + 1) % 2 ^ 64 else c.version := by
  cases st with
  | markReady s ready => exact MarkReady_version c s ready
  | replace s n rs => exact Replace_version c s n rs
  | runOnce ord => exact runOnce_version env ord c w

theorem run_cons {β : Type} (env : Env β) (cw : DNSController × World β) (st : Step)
    (steps : List Step) : run env cw (st :: steps) = run env (step env cw st) steps := rfl

theorem run_append {β : Type} (env : Env β) (cw : DNSController × World β)
    (steps steps' : List Step) :
    run env cw (steps ++ steps') = run env (run env cw steps) steps' := by
  simp only [run, List.foldl_append]

theorem countReplace_cons (st : Step) (steps : List Step) :
    countReplace (st :: steps) = (if st.isReplace then 1 else 0) + countReplace steps := by
  unfold countReplace
  cases h : st.isReplace
  · simp [List.filter, h]
  · simp [List.filter, h]
    omega

theorem run_version_mod {β : Type} (env : Env β) :
    ∀ (steps : List Step) (c : DNSController) (w : World β),
      (run env (c, w) steps).1.version % 2 ^ 64 = (c.version + countReplace steps) % 2 ^ 64
  | [], c, w => by simp [run, countReplace]
  | st :: steps, c, w => by
    rw [run_cons, countReplace_cons]
    have ih := run_version_mod env steps (step env (c, w) st).1 (step env (c, w) st).2
    rw [show ((step env (c, w) st).1, (step env (c, w) st).2) = step env (c, w) st from rfl] at ih
    rw [ih, step_version]
    cases st.isReplace
    · simp
    · simp
      omega

theorem run_version_lt {β : Type} (env : Env β) :
    ∀ (steps : List Step) (c : DNSController) (w : World β), c.version < 2 ^ 64 →
      (run env (c, w) steps).1.version < 2 ^ 64
  | [], _, _, h => h
  | st :: steps, c, w, h => by
    rw [run_cons]
    refine run_version_lt env steps (step env (c, w) st).1 (step env (c, w) st).2 ?_
    rw [step_version]
    split
    · exact Nat.mod_lt _ (by norm_num)
    · exact h

/-- C5. `Replace` increments the version counter by exactly one, as a `uint64` (also for
an empty list on an entry that does not exist); `MarkReady` leaves it unchanged; and
after any history of `MarkReady`, `Replace` (and `runOnce`) events on a fresh controller
the version is the number of `Replace` calls, modulo `2 ^ 64`. -/
theorem C5_version_counts_replaces {β : Type} (env : Env β) (w : World β)
    (c : DNSController) (s n : String) (rs : List Record) (ready : Bool)
    (steps : List Step) :
    (Replace c s n rs).version = (c.version + 1) % 2 ^ 64 ∧
    (MarkReady c s ready).version = c.version ∧
    (run env (DNSController.fresh, w) steps).1.version = countReplace steps % 2 ^ 64 := by
  refine ⟨Replace_version c s n rs, MarkReady_version c s ready, ?_⟩
  have h := run_version_mod env steps DNSController.fresh w
  have hlt := run_version_lt env steps DNSController.fresh w (by norm_num [DNSController.fresh])
  rw [Nat.mod_eq_of_lt hlt] at h
  rw [h]
  simp [DNSController.fresh]

/-! ## Monotonicity of the baseline version -/

theorem step_last {β : Type} (env : Env β) (c : DNSController) (w : World β) (st : Step) :
    (step env (c, w) st).1.lastSuccessfulSnapshot = c.lastSuccessfulSnapshot ∨
      ∃ new, (step env (c, w) st).1.lastSuccessfulSnapshot = some new ∧
        new.version = c.version := by
  cases st with
  | markReady s ready => exact Or.inl (MarkReady_last c s ready)
  | replace s n rs => exact Or.inl (Replace_last c s n rs)
  | runOnce ord =>
    rcases runOnce_controller env ord c w with h | ⟨s, hs, h⟩
    · exact Or.inl (by simp only [step, h])
    · exact Or.inr ⟨{ s with recordValues := computeRecordValues ord s },
        by simp only [step, h], snapshot_version ord c s hs⟩

theorem run_baseline_le {β : Type} (env : Env β) :
    ∀ (steps : List Step) (c : DNSController) (w : World β),
      c.version + countReplace steps < 2 ^ 64 →
      (∀ last, c.lastSuccessfulSnapshot = some last → last.version ≤ c.version) →
      (run env (c, w) steps).1.version = c.version + countReplace steps ∧
        ∀ last, (run env (c, w) steps).1.lastSuccessfulSnapshot = some last →
          last.version ≤ (run env (c, w) steps).1.version
  | [], _, _, _, h => ⟨by simp [run, countReplace], h⟩
  | st :: steps, c, w, hlt, h => by
    rw [run_cons]
    rw [countReplace_cons] at hlt ⊢
    have hv := step_version env c w st
    have hstep : (step env (c, w) st).1.version = c.version + (if st.isReplace then 1 else 0) := by
      rw [hv]
      cases hr : st.isReplace
      · simp
      · rw [hr] at hlt
        simp only [if_true] at hlt ⊢
        exact Nat.mod_eq_of_lt (by omega)
    have ih := run_baseline_le env steps (step env (c, w) st).1 (step env (c, w) st).2
      (by rw [hstep]; omega)
      (by
        intro last hl
        rcases step_last env c w st with h' | ⟨new, h', hn⟩
        · rw [h'] at hl
          have := h last hl
          rw [hstep]
          omega
        · rw [h'] at hl
          cases hl
          rw [hn, hstep]
          omega)
    rw [show ((step env (c, w) st).1, (step env (c, w) st).2) = step env (c, w) st from rfl] at ih
    refine ⟨?_, ih.2⟩
    rw [ih.1, hstep]
    omega

/-- C6 (amended). Over every history of `MarkReady`, `Replace` and `runOnce` events from
a fresh controller that holds fewer than `2 ^ 64` `Replace` calls, the version of
`lastSuccessfulSnapshot` never decreases: whatever the next event is, the baseline after
it has a version greater than or equal to that of the baseline before it. -/
theorem C6_baseline_version_monotone {β : Type} (env : Env β) (w : World β)
    (steps : List Step) (st : Step) (old new : snapshot)
    (hcount : countReplace (steps ++ [st]) < 2 ^ 64)
    (hold : (run env (DNSController.fresh, w) steps).1.lastSuccessfulSnapshot = some old)
    (hnew : (run env (DNSController.fresh, w) (steps ++ [st])).1.lastSuccessfulSnapshot
      = some new) :
    old.version ≤ new.version := by
  have hc : countReplace steps ≤ countReplace (steps ++ [st]) := by
    unfold countReplace
    rw [List.filter_append, List.length_append]
    omega
  have h := run_baseline_le env steps DNSController.fresh w
    (by simp only [DNSController.fresh]; omega)
    (by intro last hl; cases hl)
  rw [run_append] at hnew
  have hstep : run env (run env (DNSController.fresh, w) steps) [st] =
      step env ((run env (DNSController.fresh, w) steps).1,
        (run env (DNSController.fresh, w) steps).2) st := rfl
  rw [hstep] at hnew
  rcases step_last env (run env (DNSController.fresh, w) steps).1
      (run env (DNSController.fresh, w) steps).2 st with h' | ⟨new', h', hn⟩
  · rw [h', hold] at hnew
    cases hnew
    exact Nat.le_refl _
  · rw [h'] at hnew
    cases hnew
    rw [hn]
    exact h.2 old hold

theorem C6_baseline_version_monotone_witness :
    countReplace (monoHistory ++ [Step.runOnce RangeOrder.stored]) < 2 ^ 64 ∧
    (run quietEnv (DNSController.fresh, emptyWorld) monoHistory).1.lastSuccessfulSnapshot =
      some { version := 0, records := [], aliasTargets := [], recordValues := [] } ∧
    (run quietEnv (DNSController.fresh, emptyWorld)
        (monoHistory ++ [Step.runOnce RangeOrder.stored])).1.lastSuccessfulSnapshot =
      some { version := 1, records := [recA], aliasTargets := [],
             recordValues := [({ RecordType := "A", FQDN := "a.ex.com" }, ["1.2.3.4"])] } ∧
    (0 : Nat) ≤ 1 :=
  ⟨by decide, by decide, by decide,
   C6_baseline_version_monotone quietEnv emptyWorld monoHistory
     (Step.runOnce RangeOrder.stored)
     { version := 0, records := [], aliasTargets := [], recordValues := [] }
     { version := 1, records := [recA], aliasTargets := [],
       recordValues := [({ RecordType := "A", FQDN := "a.ex.com" }, ["1.2.3.4"])] }
     (by decide) (by decide) (by decide)⟩

theorem Replace_wrap_state (v : Nat) (last : Option snapshot) :
    Replace { scopes := [("s", { ScopeName := "s", Ready := true, Records := [] })],
              version := v, lastSuccessfulSnapshot := last } "s" "n" [] =
      { scopes := [("s", { ScopeName := "s", Ready := true, Records := [] })],
        version := (v + 1) % 2 ^ 64, lastSuccessfulSnapshot := last } := by
  simp [Replace, getScope, GoMap.get?, GoMap.set, GoMap.delete]

theorem run_replicate_wrap {β : Type} (env : Env β) (last : Option snapshot) (w : World β) :
    ∀ (n v : Nat),
      run env ({ scopes := [("s", { ScopeName := "s", Ready := true, Records := [] })],
                 version := v, lastSuccessfulSnapshot := last }, w)
          (List.replicate n (Step.replace "s" "n" [])) =
        ({ scopes := [("s", { ScopeName := "s", Ready := true, Records := [] })],
           version := if n = 0 then v else (v + n) % 2 ^ 64,
           lastSuccessfulSnapshot := last }, w)
  | 0, v => by simp [run]
  | n + 1, v => by
    rw [List.replicate_succ, run_cons]
    simp only [step, Replace_wrap_state]
    rw [run_replicate_wrap env last w n]
    cases n with
    | zero => simp
    | succ n =>
      simp only [Nat.add_one_ne_zero, if_false]
      congr 2
      omega

/-- C6 (counterexample). With a baseline committed at version 1, `2 ^ 64 - 1` further
`Replace` calls bring the `uint64` counter round to 0, and the next `runOnce` replaces
the baseline of version 1 by one of version 0. -/
theorem C6_baseline_version_wraps :
    ((run quietEnv (DNSController.fresh, emptyWorld) wrapHistory).1.lastSuccessfulSnapshot.map
        snapshot.version = some 1) ∧
    ((run quietEnv (DNSController.fresh, emptyWorld)
        (wrapHistory ++ [Step.runOnce RangeOrder.stored])).1.lastSuccessfulSnapshot.map
        snapshot.version = some 0) := by
  have hstart : run quietEnv (DNSController.fresh, emptyWorld)
      [Step.replace "s" "n" [], Step.markReady "s" true, Step.runOnce RangeOrder.stored] =
      ({ scopes := [("s", { ScopeName := "s", Ready := true, Records := [] })],
         version := 1,
         lastSuccessfulSnapshot :=
           some { version := 1, records := [], aliasTargets := [], recordValues := [] } },
       { backend := (), calls := [Call.listZones] }) := by
    rfl
  have hwrap : run quietEnv (DNSController.fresh, emptyWorld) wrapHistory =
      ({ scopes := [("s", { ScopeName := "s", Ready := true, Records := [] })],
         version := 0,
         lastSuccessfulSnapshot :=
           some { version := 1, records := [], aliasTargets := [], recordValues := [] } },
       { backend := (), calls := [Call.listZones] }) := by
    unfold wrapHistory
    rw [run_append, hstart, run_replicate_wrap]
    norm_num
  refine ⟨by rw [hwrap]; rfl, ?_⟩
  rw [run_append, hwrap]
  rfl

/-! ## The order on strings and `sortStrings` -/

theorem char_eq_of_toNat_eq {a b : Char} (h : a.toNat = b.toNat) : a = b :=
  Char.ext (UInt32.ext h)

theorem ltChars_asymm : ∀ a b : List Char, ltChars a b = true → ltChars b a = false
  | [], [], h => by simp [ltChars] at h
  | [], _ :: _, _ => by simp [ltChars]
  | _ :: _, [], h => by simp [ltChars] at h
  | a :: as, b :: bs, h => by
    simp only [ltChars] at h ⊢
    by_cases h1 : a.toNat < b.toNat
    · have h2 : ¬ b.toNat < a.toNat := by omega
      simp [h2, h1]
    · by_cases h2 : b.toNat < a.toNat
      · simp [h1, h2] at h
      · simp only [h1, h2, if_false] at h ⊢
        exact ltChars_asymm as bs h

theorem ltChars_eq_of_not_lt :
    ∀ a b : List Char, ltChars a b = false → ltChars b a = false → a = b
  | [], [], _, _ => rfl
  | [], _ :: _, h, _ => by simp [ltChars] at h
  | _ :: _, [], _, h => by simp [ltChars] at h
  | a :: as, b :: bs, h, h' => by
    simp only [ltChars] at h h'
    by_cases h1 : a.toNat < b.toNat
    · simp [h1] at h
    · by_cases h2 : b.toNat < a.toNat
      · simp [h2] at h'
      · simp only [h1, h2, if_false] at h h'
        have hab : a = b := char_eq_of_toNat_eq (by omega)
        rw [hab, ltChars_eq_of_not_lt as bs h h']

theorem ltChars_trans_le : ∀ a b c : List Char,
    ltChars b a = false → ltChars c b = false → ltChars c a = false
  | [], _, c, _, _ => by cases c <;> simp [ltChars]
  | _ :: _, [], _, h, _ => by simp [ltChars] at h
  | _ :: _, _ :: _, [], _, h => by simp [ltChars] at h
  | a :: as, b :: bs, c :: cs, h, h' => by
    simp only [ltChars] at h h' ⊢
    by_cases h1 : b.toNat < a.toNat
    · simp [h1] at h
    · by_cases h2 : c.toNat < b.toNat
      · simp [h2] at h'
      · simp only [h1, h2, if_false] at h h'
        by_cases h3 : a.toNat < b.toNat
        · have h4 : ¬ c.toNat < a.toNat := by omega
          have h5 : a.toNat < c.toNat := by omega
          simp [h4, h5]
        · by_cases h4 : b.toNat < c.toNat
          · have h5 : ¬ c.toNat < a.toNat := by omega
            have h6 : a.toNat < c.toNat := by omega
            simp [h5, h6]
          · simp only [h3, h4, if_false] at h h'
            have e1 : ¬ c.toNat < a.toNat := by omega
            have e2 : ¬ a.toNat < c.toNat := by omega
            simp only [e1, e2, if_false]
            exact ltChars_trans_le as bs cs h h'

instance strLe.isTotal : IsTotal String strLe where
  total a b := by
    unfold strLe
    cases h : ltChars b.data a.data
    · exact Or.inl rfl
    · exact Or.inr (ltChars_asymm _ _ h)

instance strLe.isTrans : IsTrans String strLe where
  trans a b c h h' := ltChars_trans_le a.data b.data c.data h h'

instance strLe.isAntisymm : IsAntisymm String strLe where
  antisymm a b h h' := String.ext (ltChars_eq_of_not_lt a.data b.data h' h)

theorem sortStrings_perm (l : List String) : (sortStrings l).Perm l :=
  List.perm_insertionSort strLe l

theorem sortStrings_sorted (l : List String) : (sortStrings l).Sorted strLe :=
  List.sorted_insertionSort strLe l

theorem sortStrings_eq_of_perm {l₁ l₂ : List String} (h : l₁.Perm l₂) :
    sortStrings l₁ = sortStrings l₂ :=
  List.eq_of_perm_of_sorted
    (((sortStrings_perm l₁).trans h).trans (sortStrings_perm l₂).symm)
    (sortStrings_sorted l₁) (sortStrings_sorted l₂)

/-! ## More on Go maps -/

namespace GoMap

variable {κ ν : Type} [DecidableEq κ]

theorem getD_set_self {α : Type} (m : GoMap κ (List α)) (k : κ) (v : List α) :
    getD (set m k v) k = v := by
  simp [getD, get?_set_self]

theorem getD_set_other {α : Type} (m : GoMap κ (List α)) {k k' : κ} (v : List α)
    (h : k' ≠ k) : getD (set m k v) k' = getD m k' := by
  simp [getD, get?_set_other _ _ h]

theorem getD_delete_other {α : Type} (m : GoMap κ (List α)) {k k' : κ} (h : k' ≠ k) :
    getD (delete m k) k' = getD m k' := by
  simp [getD, get?_delete_other _ h]

theorem keys_set (m : GoMap κ ν) (k : κ) (v : ν) :
    keys (set m k v) = if k ∈ keys m then keys m else keys m ++ [k] := by
  induction m with
  | nil => simp [set, keys]
  | cons e m ih =>
    obtain ⟨k', v'⟩ := e
    by_cases h : k' = k
    · subst h
      simp [set, keys]
    · have ih' : List.map Prod.fst (set m k v) =
          if k ∈ List.map Prod.fst m then List.map Prod.fst m
          else List.map Prod.fst m ++ [k] := ih
      simp only [set, h, if_false, keys, List.map_cons, List.mem_cons, ih']
      have h' : ¬ k = k' := fun e => h e.symm
      by_cases hm : k ∈ List.map Prod.fst m
      · simp [hm]
      · simp [hm, h']

theorem nodup_keys_set (m : GoMap κ ν) (k : κ) (v : ν) (h : (keys m).Nodup) :
    (keys (set m k v)).Nodup := by
  rw [keys_set]
  split
  · exact h
  · rename_i hk
    exact List.Nodup.append h (List.nodup_singleton k) (by
      intro a ha hb
      rw [List.mem_singleton] at hb
      exact hk (hb ▸ ha))

theorem get?_eq_none_iff (m : GoMap κ ν) (k : κ) : get? m k = none ↔ k ∉ keys m := by
  induction m with
  | nil => simp [get?, keys]
  | cons e m ih =>
    obtain ⟨k', v'⟩ := e
    have ih' : get? m k = none ↔ k ∉ List.map Prod.fst m := ih
    by_cases h : k' = k
    · simp [get?, keys, h]
    · have h' : ¬ k = k' := fun e => h e.symm
      simp [get?, keys, h, h', ih']

theorem get?_of_mem (m : GoMap κ ν) (h : (keys m).Nodup) (k : κ) (v : ν)
    (hm : (k, v) ∈ m) : get? m k = some v := by
  induction m with
  | nil => cases hm
  | cons e m ih =>
    obtain ⟨k', v'⟩ := e
    have hnd : k' ∉ List.map Prod.fst m ∧ (List.map Prod.fst m).Nodup := by
      simpa [keys] using h
    rcases List.mem_cons.1 hm with heq | hm'
    · cases heq
      simp [get?]
    · have hk : k' ≠ k := by
        intro e
        subst e
        exact hnd.1 (List.mem_map_of_mem Prod.fst hm')
      simp only [get?, hk, if_false]
      exact ih hnd.2 hm'

end GoMap

/-! ## What the snapshot holds -/

theorem foldl_flatMap {α β γ : Type} (f : α → List β) (g : γ → β → γ) :
    ∀ (l : List α) (a : γ),
      l.foldl (fun acc x => (f x).foldl g acc) a = (l.flatMap f).foldl g a
  | [], _ => rfl
  | x :: l, a => by
    simp only [List.foldl_cons, List.flatMap_cons, List.foldl_append]
    exact foldl_flatMap f g l _

theorem collectLoop_eq (ord : RangeOrder) (scopes : GoMap String scope) :
    collectLoop ord (ord.collectScopes scopes).1 =
      (visitedRecords ord scopes).foldl collectRecord ([], []) := by
  unfold collectLoop visitedRecords
  rw [← foldl_flatMap]
  congr 1
  funext acc sc
  exact foldl_flatMap _ _ _ _

theorem collect_fst :
    ∀ (rs : List Record) (acc : List Record × GoMap String (List Record)),
      (rs.foldl collectRecord acc).1 = acc.1 ++ rs.filter (fun r => !r.AliasTarget)
  | [], acc => by simp
  | r :: rs, acc => by
    rw [List.foldl_cons, collect_fst rs]
    cases h : r.AliasTarget <;> simp [collectRecord, h]

theorem collect_getD (name : String) :
    ∀ (rs : List Record) (acc : List Record × GoMap String (List Record)),
      (rs.foldl collectRecord acc).2.getD name = acc.2.getD name ++ targetsNamed rs name
  | [], acc => by simp [targetsNamed]
  | r :: rs, acc => by
    rw [List.foldl_cons, collect_getD name rs]
    cases h : r.AliasTarget
    · simp [collectRecord, h, targetsNamed]
    · by_cases hn : r.FQDN = name
      · subst hn
        simp [collectRecord, h, targetsNamed, GoMap.getD_set_self]
      · have hn' : name ≠ r.FQDN := fun e => hn e.symm
        simp [collectRecord, h, targetsNamed, GoMap.getD_set_other _ _ hn', hn]

theorem snapshot_contents (ord : RangeOrder) (c : DNSController) (s : snapshot)
    (h : snapshotIfChangedAndReady ord c = some s) :
    s.records = (visitedRecords ord c.scopes).filter (fun r => !r.AliasTarget) ∧
      ∀ name, s.aliasTargets.getD name = targetsNamed (visitedRecords ord c.scopes) name := by
  unfold snapshotIfChangedAndReady at h
  simp only at h
  split at h
  · cases h
  · split at h
    · cases h
    · cases h
      simp only [collectLoop_eq]
      refine ⟨by simp [collect_fst], fun name => ?_⟩
      rw [collect_getD]
      simp [GoMap.getD, GoMap.get?]

theorem visitedRecords_perm (ord : RangeOrder) (scopes : GoMap String scope) :
    (visitedRecords ord scopes).Perm (allRecords scopes) := by
  unfold visitedRecords allRecords
  refine ((ord.collectScopes scopes).2.flatMap_right _).trans ?_
  exact List.Perm.flatMap_left _ (fun sc _ =>
    (ord.collectRecords sc.2.ScopeName sc.2.Records).2.flatMap_right _)

/-! ## What the resolving loop computes -/

theorem get?_append_at (m : GoMap recordKey (List String)) (key k : recordKey) (v : String) :
    GoMap.get? (m.set key (m.getD key ++ [v])) k =
      if key = k then some (m.getD k ++ [v]) else m.get? k := by
  by_cases h : key = k
  · subst h
    simp [GoMap.get?_set_self]
  · have h' : k ≠ key := fun e => h e.symm
    simp [GoMap.get?_set_other _ _ h', h]

theorem aliasFold_get? (fqdn : String) (k : recordKey) :
    ∀ (ts : List Record) (m : GoMap recordKey (List String)),
      GoMap.get? (ts.foldl (fun m aliasRecord =>
          m.set { RecordType := aliasRecord.RecordType, FQDN := fqdn }
            (m.getD { RecordType := aliasRecord.RecordType, FQDN := fqdn } ++
              [aliasRecord.Value])) m) k =
        if (ts.filter (fun t =>
            decide (({ RecordType := t.RecordType, FQDN := fqdn } : recordKey) = k))).map
            Record.Value = [] then m.get? k
        else some (m.getD k ++ (ts.filter (fun t =>
            decide (({ RecordType := t.RecordType, FQDN := fqdn } : recordKey) = k))).map
            Record.Value)
  | [], m => by simp
  | t :: ts, m => by
    rw [List.foldl_cons, aliasFold_get? fqdn k ts]
    by_cases h : ({ RecordType := t.RecordType, FQDN := fqdn } : recordKey) = k
    · subst h
      simp [GoMap.get?_set_self, GoMap.getD_set_self]
    · have h' : k ≠ { RecordType := t.RecordType, FQDN := fqdn } := fun e => h e.symm
      simp [GoMap.get?_set_other _ _ h', GoMap.getD_set_other _ _ h', h]

theorem aliasFold_nodup (fqdn : String) :
    ∀ (ts : List Record) (m : GoMap recordKey (List String)), (GoMap.keys m).Nodup →
      (GoMap.keys (ts.foldl (fun m aliasRecord =>
          m.set { RecordType := aliasRecord.RecordType, FQDN := fqdn }
            (m.getD { RecordType := aliasRecord.RecordType, FQDN := fqdn } ++
              [aliasRecord.Value])) m)).Nodup
  | [], _, h => h
  | t :: ts, m, h => by
    rw [List.foldl_cons]
    exact aliasFold_nodup fqdn ts _ (GoMap.nodup_keys_set _ _ _ h)

theorem resolveRecord_get? (aliasTargets : GoMap String (List Record))
    (m : GoMap recordKey (List String)) (r : Record) (k : recordKey) :
    GoMap.get? (resolveRecord aliasTargets m r) k =
      if contribution aliasTargets.getD r k = [] then m.get? k
      else some (m.getD k ++ contribution aliasTargets.getD r k) := by
  unfold resolveRecord contribution
  by_cases h : r.RecordType = RecordTypeAlias
  · simp only [h, if_true]
    exact aliasFold_get? r.FQDN k _ m
  · simp only [h, if_false]
    rw [get?_append_at]
    by_cases hk : ({ RecordType := r.RecordType, FQDN := r.FQDN } : recordKey) = k <;>
      simp [hk]

theorem resolveRecord_nodup (aliasTargets : GoMap String (List Record))
    (m : GoMap recordKey (List String)) (r : Record) (h : (GoMap.keys m).Nodup) :
    (GoMap.keys (resolveRecord aliasTargets m r)).Nodup := by
  unfold resolveRecord
  split
  · exact aliasFold_nodup r.FQDN _ m h
  · exact GoMap.nodup_keys_set _ _ _ h

theorem getD_of_get? (m : GoMap recordKey (List String)) (k : recordKey) :
    m.getD k = (m.get? k).getD [] := rfl

theorem resolveFold_get? (aliasTargets : GoMap String (List Record)) (k : recordKey) :
    ∀ (rs : List Record) (m : GoMap recordKey (List String)),
      GoMap.get? (rs.foldl (resolveRecord aliasTargets) m) k =
        if rs.flatMap (fun r => contribution aliasTargets.getD r k) = [] then m.get? k
        else some (m.getD k ++ rs.flatMap (fun r => contribution aliasTargets.getD r k))
  | [], m => by simp
  | r :: rs, m => by
    rw [List.foldl_cons, resolveFold_get? aliasTargets k rs, getD_of_get?,
      resolveRecord_get?]
    by_cases h : contribution aliasTargets.getD r k = []
    · simp [h, getD_of_get?]
    · simp [h, getD_of_get?]

theorem resolveFold_nodup (aliasTargets : GoMap String (List Record)) :
    ∀ (rs : List Record) (m : GoMap recordKey (List String)), (GoMap.keys m).Nodup →
      (GoMap.keys (rs.foldl (resolveRecord aliasTargets) m)).Nodup
  | [], _, h => h
  | r :: rs, m, h => by
    rw [List.foldl_cons]
    exact resolveFold_nodup aliasTargets rs _ (resolveRecord_nodup aliasTargets m r h)

theorem resolveLoop_get? (s : snapshot) (k : recordKey) :
    GoMap.get? (resolveLoop s) k =
      if s.records.flatMap (fun r => contribution s.aliasTargets.getD r k) = [] then none
      else some (s.records.flatMap (fun r => contribution s.aliasTargets.getD r k)) := by
  unfold resolveLoop
  rw [resolveFold_get?]
  simp [GoMap.get?, GoMap.getD]

theorem resolveLoop_nodup (s : snapshot) : (GoMap.keys (resolveLoop s)).Nodup :=
  resolveFold_nodup s.aliasTargets s.records [] (by simp [GoMap.keys])

/-! ## What the normalising loop computes -/

theorem normalizeFold_get? (m₀ : GoMap recordKey (List String)) (k : recordKey) :
    ∀ (visit : List (recordKey × List String)) (m : GoMap recordKey (List String)),
      (∀ e ∈ visit, GoMap.get? m₀ e.1 = some e.2) →
      GoMap.get? (normalizeLoop visit m) k =
        if k ∈ GoMap.keys visit then (GoMap.get? m₀ k).map sortStrings else GoMap.get? m k
  | [], m, _ => by simp [normalizeLoop, GoMap.keys]
  | e :: visit, m, h => by
    have ih := normalizeFold_get? m₀ k visit (m.set e.1 (sortStrings e.2))
      (fun e' he' => h e' (List.mem_cons_of_mem _ he'))
    have he := h e (List.mem_cons_self _ _)
    simp only [normalizeLoop, List.foldl_cons] at ih ⊢
    rw [ih]
    by_cases hk : k ∈ GoMap.keys visit
    · have hk' : k ∈ GoMap.keys (e :: visit) := by
        simp only [GoMap.keys, List.map_cons, List.mem_cons]
        exact Or.inr hk
      simp [hk, hk']
    · by_cases hke : k = e.1
      · subst hke
        simp [GoMap.keys, GoMap.get?_set_self, he]
      · have hk' : k ∉ GoMap.keys (e :: visit) := by
          simp only [GoMap.keys, List.map_cons, List.mem_cons, not_or]
          exact ⟨hke, hk⟩
        simp [hk, hk', GoMap.get?_set_other _ _ hke]

theorem computeRecordValues_get? (ord : RangeOrder) (s : snapshot) (k : recordKey) :
    GoMap.get? (computeRecordValues ord s) k =
      if s.records.flatMap (fun r => contribution s.aliasTargets.getD r k) = [] then none
      else some (sortStrings
        (s.records.flatMap (fun r => contribution s.aliasTargets.getD r k))) := by
  unfold computeRecordValues
  simp only
  have hperm := (ord.normalize (resolveLoop s)).2
  rw [normalizeFold_get? (resolveLoop s) k _ _ (fun e he =>
    GoMap.get?_of_mem _ (resolveLoop_nodup s) e.1 e.2 (hperm.mem_iff.1 he))]
  have hkeys : k ∈ GoMap.keys (ord.normalize (resolveLoop s)).1 ↔
      k ∈ GoMap.keys (resolveLoop s) := (hperm.map Prod.fst).mem_iff
  by_cases hk : k ∈ GoMap.keys (resolveLoop s)
  · rw [if_pos (hkeys.2 hk), resolveLoop_get?]
    split <;> rfl
  · rw [if_neg (fun h => hk (hkeys.1 h))]
    have hnone := (GoMap.get?_eq_none_iff _ _).2 hk
    rw [hnone]
    rw [resolveLoop_get?] at hnone
    split at hnone
    · rename_i h
      rw [if_pos h]
    · cases hnone

/-! ## Alias expansion -/

theorem getD_computeRecordValues_perm (ord : RangeOrder) (s : snapshot) (k : recordKey) :
    ((computeRecordValues ord s).getD k).Perm
      (s.records.flatMap (fun r => contribution s.aliasTargets.getD r k)) := by
  rw [GoMap.getD, computeRecordValues_get?]
  split
  · rename_i h
    rw [h]
    exact List.Perm.refl _
  · exact sortStrings_perm _

theorem contribution_of_alias (s : snapshot) (r : Record) (k : recordKey)
    (halias : r.RecordType = RecordTypeAlias) :
    contribution s.aliasTargets.getD r k = expansion s r k := by
  unfold contribution expansion
  rw [if_pos halias]

theorem contributions_split (s : snapshot) (r : Record) (k : recordKey)
    (hr : r ∈ s.records) :
    (s.records.flatMap (fun r' => contribution s.aliasTargets.getD r' k)).Perm
      (contribution s.aliasTargets.getD r k ++
        (withoutRecord s r).records.flatMap (fun r' =>
          contribution (withoutRecord s r).aliasTargets.getD r' k)) := by
  have hperm := (List.perm_cons_erase hr).flatMap_right
    (fun r' => contribution s.aliasTargets.getD r' k)
  rw [List.flatMap_cons] at hperm
  exact hperm

/-- C7. For a snapshot and a record `r` of type ALIAS with value `X`: `aliasTargets[X]`
is the list of the registry's records with `AliasTarget` set whose FQDN is `X`, in the
order the collecting loop visits them; processing `r` appends to the entry of each key
`k` exactly the values of the targets `t` in `aliasTargets[X]` with
`{t.RecordType, r.FQDN} = k`, and leaves every other key as it was; when `aliasTargets[X]`
is empty the value map is unchanged. For `r` among `snapshot.records`, in the record
values that `runOnce` computes: the entry of every key `k` is, up to order, the entry
computed without `r` together with exactly those values; the value of every target in
`aliasTargets[X]` is in the entry of `{t.RecordType, r.FQDN}`; and when `aliasTargets[X]`
is empty every key has the entry it has without `r`. -/
theorem C7_alias_expansion (ord ord' : RangeOrder) (c : DNSController) (s : snapshot)
    (r : Record) (m : GoMap recordKey (List String)) (k : recordKey)
    (hs : snapshotIfChangedAndReady ord c = some s)
    (halias : r.RecordType = RecordTypeAlias) :
    s.aliasTargets.getD r.Value =
      (visitedRecords ord c.scopes).filter
        (fun t => t.AliasTarget && decide (t.FQDN = r.Value)) ∧
    GoMap.get? (resolveRecord s.aliasTargets m r) k =
      (if ((s.aliasTargets.getD r.Value).filter (fun t =>
          decide (({ RecordType := t.RecordType, FQDN := r.FQDN } : recordKey) = k))).map
          Record.Value = [] then m.get? k
       else some (m.getD k ++ ((s.aliasTargets.getD r.Value).filter (fun t =>
          decide (({ RecordType := t.RecordType, FQDN := r.FQDN } : recordKey) = k))).map
          Record.Value)) ∧
    (s.aliasTargets.getD r.Value = [] → resolveRecord s.aliasTargets m r = m) ∧
    (r ∈ s.records →
      ((computeRecordValues ord s).getD k).Perm
        ((computeRecordValues ord' (withoutRecord s r)).getD k ++
          ((s.aliasTargets.getD r.Value).filter (fun t =>
            decide (({ RecordType := t.RecordType, FQDN := r.FQDN } : recordKey) = k))).map
            Record.Value)) ∧
    (r ∈ s.records → ∀ t ∈ s.aliasTargets.getD r.Value,
      t.Value ∈ (computeRecordValues ord s).getD
        { RecordType := t.RecordType, FQDN := r.FQDN }) ∧
    (r ∈ s.records → s.aliasTargets.getD r.Value = [] →
      ∀ k', GoMap.get? (computeRecordValues ord s) k' =
        GoMap.get? (computeRecordValues ord' (withoutRecord s r)) k') := by
  refine ⟨(snapshot_contents ord c s hs).2 r.Value, ?_, ?_, fun hr => ?_, fun hr t ht => ?_,
    fun hr hempty k' => ?_⟩
  · have h := resolveRecord_get? s.aliasTargets m r k
    simp only [contribution, halias, if_true] at h
    exact h
  · intro hempty
    simp [resolveRecord, halias, hempty]
  · have h₁ := getD_computeRecordValues_perm ord s k
    have h₂ := getD_computeRecordValues_perm ord' (withoutRecord s r) k
    have h₃ := contributions_split s r k hr
    rw [contribution_of_alias s r k halias] at h₃
    exact ((h₁.trans h₃).trans List.perm_append_comm).trans (h₂.symm.append_right _)
  · have hmem : t.Value ∈ contribution s.aliasTargets.getD r
        { RecordType := t.RecordType, FQDN := r.FQDN } := by
      rw [contribution_of_alias s r _ halias]
      exact List.mem_map_of_mem _ (List.mem_filter.2 ⟨ht, by simp⟩)
    exact (getD_computeRecordValues_perm ord s _).mem_iff.2
      (List.mem_flatMap.2 ⟨r, hr, hmem⟩)
  · have h₃ := contributions_split s r k' hr
    have hnil : contribution s.aliasTargets.getD r k' = [] := by
      rw [contribution_of_alias s r k' halias]
      unfold expansion
      rw [hempty]
      rfl
    rw [hnil, List.nil_append] at h₃
    rw [computeRecordValues_get?, computeRecordValues_get?]
    by_cases h : s.records.flatMap (fun r' => contribution s.aliasTargets.getD r' k') = []
    · rw [if_pos h, if_pos]
      rw [h] at h₃
      exact h₃.symm.eq_nil
    · rw [if_neg h, if_neg, sortStrings_eq_of_perm h₃]
      intro h'
      rw [h'] at h₃
      exact h h₃.eq_nil

theorem C7_alias_expansion_witness :
    snapshotIfChangedAndReady RangeOrder.stored aliasScenario = some aliasSnapshot ∧
    aliasRec.RecordType = RecordTypeAlias ∧
    GoMap.get? (resolveRecord aliasSnapshot.aliasTargets [] aliasRec)
      { RecordType := "A", FQDN := "api.ex.com" } = some ["10.0.0.2", "10.0.0.1"] ∧
    aliasRec ∈ aliasSnapshot.records ∧
    ((computeRecordValues RangeOrder.stored aliasSnapshot).getD
        { RecordType := "A", FQDN := "api.ex.com" }).Perm
      ((computeRecordValues RangeOrder.reversed (withoutRecord aliasSnapshot aliasRec)).getD
          { RecordType := "A", FQDN := "api.ex.com" } ++
        ((aliasSnapshot.aliasTargets.getD aliasRec.Value).filter (fun t =>
          decide (({ RecordType := t.RecordType, FQDN := aliasRec.FQDN } : recordKey) =
            { RecordType := "A", FQDN := "api.ex.com" }))).map Record.Value) ∧
    computeRecordValues RangeOrder.stored aliasSnapshot =
      [({ RecordType := "A", FQDN := "api.ex.com" }, ["10.0.0.1", "10.0.0.2"])] ∧
    computeRecordValues RangeOrder.reversed (withoutRecord aliasSnapshot aliasRec) = [] :=
  ⟨by decide, rfl,
   (C7_alias_expansion RangeOrder.stored RangeOrder.reversed aliasScenario aliasSnapshot
      aliasRec [] { RecordType := "A", FQDN := "api.ex.com" } (by decide) rfl).2.1.trans
      (by decide),
   by decide,
   (C7_alias_expansion RangeOrder.stored RangeOrder.reversed aliasScenario aliasSnapshot
      aliasRec [] { RecordType := "A", FQDN := "api.ex.com" } (by decide) rfl).2.2.2.1
      (by decide),
   by decide, by decide⟩

/-- C8 (failing input). When an alias points at an alias target whose own type is the
alias type, the value map gets a key of the alias type and `runOnce` submits an `add`
of a record set of that type. -/
theorem C8_alias_typed_key_emitted :
    (snapshotIfChangedAndReady RangeOrder.stored aliasOfAlias).map
        (computeRecordValues RangeOrder.stored) =
      some [({ RecordType := RecordTypeAlias, FQDN := "api.ex.com" }, ["other.ex.com"])] ∧
    (runOnce quietEnv RangeOrder.stored aliasOfAlias emptyWorld).world.calls =
      [Call.listZones,
       Call.add { id := 0, name := "ex.com", supportsRecordSets := true }
         { name := "api.ex.com", rrdatas := ["other.ex.com"], ttl := 60,
           type := RecordTypeAlias }] := by
  decide

/-! ## The calls of the apply phase -/

theorem updateRecords_calls {β : Type} (env : Env β) (o : dnsOp) (k : recordKey)
    (newRecords : List String) (ttl : Int) (w : World β) :
    ∀ call ∈ (updateRecords env o k newRecords ttl w).2.calls,
      call ∈ w.calls ∨ ∃ zone, call = Call.add zone
        { name := k.FQDN, rrdatas := newRecords, ttl := ttl, type := k.RecordType } := by
  intro call hcall
  unfold updateRecords at hcall
  split at hcall
  · exact Or.inl hcall
  · rename_i zone _
    split at hcall
    · exact Or.inl hcall
    · have hadd : (env.callAdd zone
          { name := k.FQDN, rrdatas := newRecords, ttl := ttl, type := k.RecordType } w).2.calls
          = w.calls ++ [Call.add zone
            { name := k.FQDN, rrdatas := newRecords, ttl := ttl, type := k.RecordType }] := rfl
      have hmem : call ∈ (env.callAdd zone
          { name := k.FQDN, rrdatas := newRecords, ttl := ttl, type := k.RecordType }
          w).2.calls := by
        simp only at hcall
        split at hcall <;> rename_i heq <;> simp only [heq] <;> exact hcall
      rw [hadd] at hmem
      rcases List.mem_append.1 hmem with h | h
      · exact Or.inl h
      · exact Or.inr ⟨zone, by simpa using h⟩

theorem deleteRecordsLoop_calls {β : Type} (env : Env β) (zone : Zone) (k : recordKey) :
    ∀ (rrs : List ResourceRecordSet) (errors : List Err) (w : World β),
      ∀ call ∈ (deleteRecordsLoop env zone k rrs errors w).2.calls,
        call ∈ w.calls ∨ call.isAdd = false
  | [], _, _, call, hcall => Or.inl hcall
  | rr :: rrs, errors, w, call, hcall => by
    unfold deleteRecordsLoop at hcall
    simp only at hcall
    split at hcall
    · exact deleteRecordsLoop_calls env zone k rrs _ _ call hcall
    · split at hcall
      · exact deleteRecordsLoop_calls env zone k rrs _ _ call hcall
      · have hrem : (env.callRemove zone rr w).2.calls = w.calls ++ [Call.remove zone rr] := rfl
        have hstep : ∀ call ∈ (env.callRemove zone rr w).2.calls,
            call ∈ w.calls ∨ call.isAdd = false := by
          intro call' h'
          rw [hrem] at h'
          rcases List.mem_append.1 h' with h | h
          · exact Or.inl h
          · have : call' = Call.remove zone rr := by simpa using h
            exact Or.inr (by rw [this]; rfl)
        split at hcall <;> rename_i heq <;> simp only [heq] at hstep
        all_goals
          rcases deleteRecordsLoop_calls env zone k rrs _ _ call hcall with h | h
          · exact hstep call h
          · exact Or.inr h

theorem deleteRecords_calls {β : Type} (env : Env β) (o : dnsOp) (k : recordKey)
    (w : World β) :
    ∀ call ∈ (deleteRecords env o k w).2.calls, call ∈ w.calls ∨ call.isAdd = false := by
  intro call hcall
  unfold deleteRecords at hcall
  split at hcall
  · exact Or.inl hcall
  · rename_i zone _
    split at hcall
    · exact Or.inl hcall
    · have hlist : (env.callRrsList zone w).2.calls = w.calls ++ [Call.listRecordSets zone] :=
        rfl
      have hstep : ∀ call ∈ (env.callRrsList zone w).2.calls,
          call ∈ w.calls ∨ call.isAdd = false := by
        intro call' h'
        rw [hlist] at h'
        rcases List.mem_append.1 h' with h | h
        · exact Or.inl h
        · have : call' = Call.listRecordSets zone := by simpa using h
          exact Or.inr (by rw [this]; rfl)
      split at hcall <;> rename_i heq <;> simp only [heq] at hstep
      · exact hstep call hcall
      · split at hcall
        rename_i heq'
        have hloop := deleteRecordsLoop_calls env zone k _ [] _ call
          (by rw [heq']; exact hcall)
        rcases hloop with h | h
        · exact hstep call h
        · exact Or.inr h

theorem updateLoop_calls {β : Type} (env : Env β) (op : dnsOp)
    (oldValueMap : GoMap recordKey (List String)) :
    ∀ (visit : List (recordKey × List String)) (errors : List Err) (w : World β),
      ∀ call ∈ (updateLoop env op oldValueMap visit errors w).2.calls,
        call ∈ w.calls ∨ call.addsFrom visit
  | [], _, _, call, hcall => Or.inl hcall
  | (k, newValues) :: rest, errors, w, call, hcall => by
    have hweak : ∀ call : Call, call.addsFrom rest → call.addsFrom ((k, newValues) :: rest) := by
      intro call' h'
      cases call' with
      | add zone rr =>
        obtain ⟨e, he, hrr⟩ := h'
        exact ⟨e, List.mem_cons_of_mem _ he, hrr⟩
      | listZones => trivial
      | listRecordSets zone => trivial
      | remove zone rr => trivial
    unfold updateLoop at hcall
    have hpoll : (env.pollStop w).2.calls = w.calls := rfl
    split at hcall
    · rename_i w' heq
      rw [heq] at hpoll
      exact Or.inl (hpoll ▸ hcall)
    · rename_i w' heq
      rw [heq] at hpoll
      simp only at hcall hpoll
      split at hcall
      · rcases updateLoop_calls env op oldValueMap rest _ _ call hcall with h | h
        · exact Or.inl (hpoll ▸ h)
        · exact Or.inr (hweak call h)
      · have hupd := updateRecords_calls env op k newValues 60 w'
        have hrest : call ∈ (updateRecords env op k newValues 60 w').2.calls ∨
            call.addsFrom rest := by
          split at hcall <;> rename_i heq' <;> simp only [heq'] <;>
            exact updateLoop_calls env op oldValueMap rest _ _ call hcall
        rcases hrest with h | h
        · rcases hupd call h with h' | ⟨zone, h'⟩
          · exact Or.inl (hpoll ▸ h')
          · rw [h']
            exact Or.inr ⟨(k, newValues), List.mem_cons_self _ _, rfl⟩
        · exact Or.inr (hweak call h)

theorem deleteLoop_calls {β : Type} (env : Env β) (op : dnsOp)
    (newValueMap : GoMap recordKey (List String)) :
    ∀ (visit : List (recordKey × List String)) (errors : List Err) (w : World β),
      ∀ call ∈ (deleteLoop env op newValueMap visit errors w).2.calls,
        call ∈ w.calls ∨ call.isAdd = false
  | [], _, _, call, hcall => Or.inl hcall
  | (k, oldValues) :: rest, errors, w, call, hcall => by
    unfold deleteLoop at hcall
    have hpoll : (env.pollStop w).2.calls = w.calls := rfl
    split at hcall
    · rename_i w' heq
      rw [heq] at hpoll
      exact Or.inl (hpoll ▸ hcall)
    · rename_i w' heq
      rw [heq] at hpoll
      simp only at hcall hpoll
      split at hcall
      · have hdel := deleteRecords_calls env op k w'
        have hrest : call ∈ (deleteRecords env op k w').2.calls ∨ call.isAdd = false := by
          split at hcall <;> rename_i heq' <;> simp only [heq'] <;>
            exact deleteLoop_calls env op newValueMap rest _ _ call hcall
        rcases hrest with h | h
        · rcases hdel call h with h' | h'
          · exact Or.inl (hpoll ▸ h')
          · exact Or.inr h'
        · exact Or.inr h
      · rcases deleteLoop_calls env op newValueMap rest _ _ call hcall with h | h
        · exact Or.inl (hpoll ▸ h)
        · exact Or.inr h

theorem addsFrom_of_not_add (m : GoMap recordKey (List String)) (call : Call)
    (h : call.isAdd = false) : call.addsFrom m := by
  cases call with
  | add zone rr => cases h
  | listZones => trivial
  | listRecordSets zone => trivial
  | remove zone rr => trivial

theorem addsFrom_of_subset (m m' : GoMap recordKey (List String)) (call : Call)
    (hsub : ∀ e ∈ m, e ∈ m') (h : call.addsFrom m) : call.addsFrom m' := by
  cases call with
  | add zone rr =>
    obtain ⟨e, he, hrr⟩ := h
    exact ⟨e, hsub e he, hrr⟩
  | listZones => trivial
  | listRecordSets zone => trivial
  | remove zone rr => trivial

theorem runOnce_adds {β : Type} (env : Env β) (ord : RangeOrder) (c : DNSController)
    (w : World β) (s : snapshot) (hs : snapshotIfChangedAndReady ord c = some s) :
    ∀ call ∈ (runOnce env ord c w).world.calls,
      call ∈ w.calls ∨ call.addsFrom (computeRecordValues ord s) := by
  intro call hcall
  have hzones := newDNSOp_calls env w
  have hfromZones : ∀ call ∈ (newDNSOp env w).2.calls,
      call ∈ w.calls ∨ call.addsFrom (computeRecordValues ord s) := by
    intro call' h'
    rw [hzones] at h'
    rcases List.mem_append.1 h' with h | h
    · exact Or.inl h
    · have : call' = Call.listZones := by simpa using h
      rw [this]
      exact Or.inr trivial
  unfold runOnce at hcall
  simp only [hs] at hcall
  split at hcall
  · rename_i heq
    rw [heq] at hfromZones
    exact hfromZones call hcall
  · rename_i op w₁ heq
    rw [heq] at hfromZones
    have hupdate : ∀ (errors : List Err),
        ∀ call ∈ (updateLoop env op
            (match c.lastSuccessfulSnapshot with
              | some last => last.recordValues
              | none => [])
            (ord.update (computeRecordValues ord s)).1 errors w₁).2.calls,
          call ∈ w.calls ∨ call.addsFrom (computeRecordValues ord s) := by
      intro errors call' h'
      rcases updateLoop_calls env op _ _ errors w₁ call' h' with h | h
      · exact hfromZones call' h
      · exact Or.inr (addsFrom_of_subset _ _ call'
          (fun e he => (ord.update (computeRecordValues ord s)).2.mem_iff.1 he) h)
    split at hcall
    · rename_i heq₂
      exact hupdate [] call (by rw [heq₂]; exact hcall)
    · rename_i errors w₂ heq₂
      have hupdate₂ : ∀ call ∈ w₂.calls,
          call ∈ w.calls ∨ call.addsFrom (computeRecordValues ord s) := by
        intro call' h'
        exact hupdate [] call' (by rw [heq₂]; exact h')
      have hdelete : ∀ call ∈ (deleteLoop env op (computeRecordValues ord s)
            (ord.delete (match c.lastSuccessfulSnapshot with
              | some last => last.recordValues
              | none => [])).1 errors w₂).2.calls,
          call ∈ w.calls ∨ call.addsFrom (computeRecordValues ord s) := by
        intro call' h'
        rcases deleteLoop_calls env op _ _ errors w₂ call' h' with h | h
        · exact hupdate₂ call' h
        · exact Or.inr (addsFrom_of_not_add _ call' h)
      split at hcall
      · rename_i heq₃
        exact hdelete call (by rw [heq₃]; exact hcall)
      · rename_i heq₃
        split at hcall <;> exact hdelete call (by rw [heq₃]; exact hcall)

/-! ## Alias targets are not emitted directly -/

theorem resolveRecord_congr (aliasTargets aliasTargets' : GoMap String (List Record))
    (m : GoMap recordKey (List String)) (r : Record)
    (h : r.RecordType = RecordTypeAlias → aliasTargets.getD r.Value = aliasTargets'.getD r.Value) :
    resolveRecord aliasTargets m r = resolveRecord aliasTargets' m r := by
  unfold resolveRecord
  by_cases hr : r.RecordType = RecordTypeAlias
  · simp only [hr, if_true, h hr]
  · simp only [hr, if_false]

theorem resolveFold_congr (aliasTargets aliasTargets' : GoMap String (List Record)) :
    ∀ (rs : List Record) (m : GoMap recordKey (List String)),
      (∀ r ∈ rs, r.RecordType = RecordTypeAlias →
        aliasTargets.getD r.Value = aliasTargets'.getD r.Value) →
      rs.foldl (resolveRecord aliasTargets) m = rs.foldl (resolveRecord aliasTargets') m
  | [], _, _ => rfl
  | r :: rs, m, h => by
    rw [List.foldl_cons, List.foldl_cons,
      resolveRecord_congr aliasTargets aliasTargets' m r (h r (List.mem_cons_self _ _))]
    exact resolveFold_congr aliasTargets aliasTargets' rs _
      (fun r' hr' => h r' (List.mem_cons_of_mem _ hr'))

theorem contribution_fqdn (targets : String → List Record) (r : Record) (k : recordKey)
    (h : contribution targets r k ≠ []) : r.FQDN = k.FQDN := by
  unfold contribution at h
  split at h
  · obtain ⟨v, hv⟩ := List.exists_mem_of_ne_nil _ h
    obtain ⟨t, ht, _⟩ := List.mem_map.1 hv
    have hk := (List.mem_filter.1 ht).2
    have hk' : ({ RecordType := t.RecordType, FQDN := r.FQDN } : recordKey) = k := by
      simpa using hk
    rw [← hk']
  · split at h
    · rename_i hk
      rw [← hk]
    · exact absurd rfl h

/-- C9. A record `t` with `AliasTarget = true` is never among `snapshot.records`, the
records that are emitted under their own name; every key of the value map has the FQDN
of a record of the registry that is not an alias target; and when no alias (a record of
type ALIAS that is not itself an alias target) has `t.FQDN` as its value, the value map
is the one computed without any alias target named `t.FQDN`, and every `add` that
`runOnce` issues submits an entry of that map. -/
theorem C9_alias_target_not_emitted {β : Type} (env : Env β) (ord : RangeOrder)
    (c : DNSController) (w : World β) (s : snapshot) (t : Record)
    (hs : snapshotIfChangedAndReady ord c = some s) (ht : t.AliasTarget = true)
    (hno : ∀ r ∈ allRecords c.scopes, r.AliasTarget = false →
      r.RecordType = RecordTypeAlias → r.Value ≠ t.FQDN) :
    t ∉ s.records ∧
    (∀ k, GoMap.get? (computeRecordValues ord s) k ≠ none →
      ∃ r ∈ allRecords c.scopes, r.AliasTarget = false ∧ r.FQDN = k.FQDN) ∧
    computeRecordValues ord s =
      computeRecordValues ord { s with aliasTargets := s.aliasTargets.delete t.FQDN } ∧
    ∀ call ∈ (runOnce env ord c w).world.calls,
      call ∈ w.calls ∨
        call.addsFrom
          (computeRecordValues ord { s with aliasTargets := s.aliasTargets.delete t.FQDN }) := by
  have hrec := (snapshot_contents ord c s hs).1
  have hmem : ∀ r ∈ s.records, r ∈ allRecords c.scopes ∧ r.AliasTarget = false := by
    intro r hr
    rw [hrec] at hr
    have h := List.mem_filter.1 hr
    exact ⟨(visitedRecords_perm ord c.scopes).mem_iff.1 h.1, by simpa using h.2⟩
  have heq : computeRecordValues ord s =
      computeRecordValues ord { s with aliasTargets := s.aliasTargets.delete t.FQDN } := by
    have hloop : resolveLoop s =
        resolveLoop { s with aliasTargets := s.aliasTargets.delete t.FQDN } := by
      unfold resolveLoop
      exact resolveFold_congr _ _ s.records [] (fun r hr halias =>
        (GoMap.getD_delete_other _ (hno r (hmem r hr).1 (hmem r hr).2 halias)).symm)
    unfold computeRecordValues
    simp only
    rw [hloop]
  refine ⟨?_, ?_, heq, ?_⟩
  · intro htmem
    have := (hmem t htmem).2
    rw [ht] at this
    cases this
  · intro k hk
    rw [computeRecordValues_get?] at hk
    split at hk
    · exact absurd rfl hk
    · rename_i hne
      obtain ⟨v, hv⟩ := List.exists_mem_of_ne_nil _ hne
      obtain ⟨r, hr, hvr⟩ := List.mem_flatMap.1 hv
      exact ⟨r, (hmem r hr).1, (hmem r hr).2,
        contribution_fqdn _ r k (List.ne_nil_of_mem hvr)⟩
  · rw [← heq]
    exact runOnce_adds env ord c w s hs

theorem C9_alias_target_not_emitted_witness :
    snapshotIfChangedAndReady RangeOrder.stored unusedTarget = some unusedTargetSnapshot ∧
    target1.AliasTarget = true ∧
    (∀ r ∈ allRecords unusedTarget.scopes, r.AliasTarget = false →
      r.RecordType = RecordTypeAlias → r.Value ≠ target1.FQDN) ∧
    target1 ∉ unusedTargetSnapshot.records ∧
    computeRecordValues RangeOrder.stored unusedTargetSnapshot =
      computeRecordValues RangeOrder.stored
        { unusedTargetSnapshot with
          aliasTargets := unusedTargetSnapshot.aliasTargets.delete target1.FQDN } :=
  ⟨by decide, rfl, by decide,
   (C9_alias_target_not_emitted quietEnv RangeOrder.stored unusedTarget emptyWorld
      unusedTargetSnapshot target1 (by decide) rfl (by decide)).1,
   (C9_alias_target_not_emitted quietEnv RangeOrder.stored unusedTarget emptyWorld
      unusedTargetSnapshot target1 (by decide) rfl (by decide)).2.2.1⟩

/-! ## Sort canonicalisation -/

theorem contribution_perm (targets targets' : String → List Record) (r : Record)
    (k : recordKey) (h : ∀ name, (targets name).Perm (targets' name)) :
    (contribution targets r k).Perm (contribution targets' r k) := by
  unfold contribution
  split
  · exact ((h r.Value).filter _).map _
  · exact List.Perm.refl _

theorem snapshot_contributions_perm (ord : RangeOrder) (c : DNSController) (s : snapshot)
    (hs : snapshotIfChangedAndReady ord c = some s) (k : recordKey) :
    (s.records.flatMap (fun r => contribution s.aliasTargets.getD r k)).Perm
      (contributed c.scopes k) := by
  obtain ⟨hrec, htargets⟩ := snapshot_contents ord c s hs
  have hperm := visitedRecords_perm ord c.scopes
  unfold contributed
  rw [hrec]
  refine ((hperm.filter _).flatMap_right _).trans ?_
  refine List.Perm.flatMap_left _ (fun r _ => contribution_perm _ _ r k (fun name => ?_))
  rw [htargets name]
  exact hperm.filter _

theorem recordValues_of_registry (ord : RangeOrder) (c : DNSController) (s : snapshot)
    (hs : snapshotIfChangedAndReady ord c = some s) (k : recordKey) :
    GoMap.get? (computeRecordValues ord s) k =
      if contributed c.scopes k = [] then none
      else some (sortStrings (contributed c.scopes k)) := by
  have hperm := snapshot_contributions_perm ord c s hs k
  rw [computeRecordValues_get?]
  by_cases h : contributed c.scopes k = []
  · rw [if_pos h, if_pos]
    rw [h] at hperm
    exact hperm.eq_nil
  · rw [if_neg h, if_neg, sortStrings_eq_of_perm hperm]
    intro h'
    rw [h'] at hperm
    exact h hperm.symm.eq_nil

/-- C10. Two registries that contribute, to every key, the same values up to order
(whatever the record order inside the lists, the record names, the scopes and the
visiting orders of the maps) get the same entry for every key in the value map that
`runOnce` computes: absent in both, or the same sorted list. -/
theorem C10_sort_canonicalization (ord₁ ord₂ : RangeOrder) (c₁ c₂ : DNSController)
    (s₁ s₂ : snapshot) (k : recordKey)
    (h₁ : snapshotIfChangedAndReady ord₁ c₁ = some s₁)
    (h₂ : snapshotIfChangedAndReady ord₂ c₂ = some s₂)
    (hsame : ∀ k, (contributed c₁.scopes k).Perm (contributed c₂.scopes k)) :
    GoMap.get? (computeRecordValues ord₁ s₁) k =
      GoMap.get? (computeRecordValues ord₂ s₂) k := by
  rw [recordValues_of_registry ord₁ c₁ s₁ h₁ k, recordValues_of_registry ord₂ c₂ s₂ h₂ k]
  by_cases h : contributed c₁.scopes k = []
  · have h' : contributed c₂.scopes k = [] := by
      have hp := hsame k
      rw [h] at hp
      exact hp.symm.eq_nil
    rw [if_pos h, if_pos h']
  · have h' : contributed c₂.scopes k ≠ [] := by
      intro h'
      have hp := hsame k
      rw [h'] at hp
      exact h hp.eq_nil
    rw [if_neg h, if_neg h', sortStrings_eq_of_perm (hsame k)]

theorem C10_sort_canonicalization_witness :
    snapshotIfChangedAndReady RangeOrder.stored twoInOne = some twoInOneSnapshot ∧
    snapshotIfChangedAndReady RangeOrder.reversed twoInTwo = some twoInTwoSnapshot ∧
    (∀ k, (contributed twoInOne.scopes k).Perm (contributed twoInTwo.scopes k)) ∧
    GoMap.get? (computeRecordValues RangeOrder.stored twoInOneSnapshot)
        { RecordType := "A", FQDN := "a.ex.com" } =
      GoMap.get? (computeRecordValues RangeOrder.reversed twoInTwoSnapshot)
        { RecordType := "A", FQDN := "a.ex.com" } :=
  have hsame : ∀ k, (contributed twoInOne.scopes k).Perm (contributed twoInTwo.scopes k) := by
    intro k
    by_cases hk : ({ RecordType := "A", FQDN := "a.ex.com" } : recordKey) = k
    · subst hk
      decide
    · have h₁ : contributed twoInOne.scopes k = [] := by
        simp [contributed, allRecords, twoInOne, MarkReady, Replace, getScope, GoMap.get?,
          GoMap.set, DNSController.fresh, contribution, RecordTypeAlias, hk]
      have h₂ : contributed twoInTwo.scopes k = [] := by
        simp [contributed, allRecords, twoInTwo, MarkReady, Replace, getScope, GoMap.get?,
          GoMap.set, DNSController.fresh, contribution, RecordTypeAlias, hk]
      rw [h₁, h₂]
  ⟨by decide, by decide, hsame,
   C10_sort_canonicalization RangeOrder.stored RangeOrder.reversed twoInOne twoInTwo
     twoInOneSnapshot twoInTwoSnapshot { RecordType := "A", FQDN := "a.ex.com" }
     (by decide) (by decide) hsame⟩

/-! ## The apply phase when no stop is requested -/

theorem pollStop_of_NeverStops {β : Type} (env : Env β) (h : NeverStops env) (w : World β) :
    env.pollStop w = (false, w) := by
  unfold Env.pollStop
  rw [h w.backend]

theorem updateLoop_script {β : Type} (env : Env β) (op : dnsOp)
    (old : GoMap recordKey (List String)) (h : NeverStops env) :
    ∀ (visit : List (recordKey × List String)) (errors : List Err) (w : World β),
      updateLoop env op old visit errors w =
        (some ((toUpdate old visit).foldl (invokeUpdate env op) (errors, w)).1,
         ((toUpdate old visit).foldl (invokeUpdate env op) (errors, w)).2)
  | [], _, _ => rfl
  | (k, newValues) :: rest, errors, w => by
    unfold updateLoop
    rw [pollStop_of_NeverStops env h w]
    simp only
    by_cases heq : newValues = old.getD k
    · have hf : toUpdate old ((k, newValues) :: rest) = toUpdate old rest := by
        simp [toUpdate, List.filter, heq]
      rw [hf]
      simp only [StringSlicesEqual, heq, decide_True, if_true]
      exact updateLoop_script env op old h rest errors w
    · have hf : toUpdate old ((k, newValues) :: rest) = (k, newValues) :: toUpdate old rest := by
        simp [toUpdate, List.filter, heq]
      rw [hf, List.foldl_cons]
      simp only [StringSlicesEqual, heq, decide_False, Bool.false_eq_true, if_false]
      rw [show invokeUpdate env op (errors, w) (k, newValues) =
        (match updateRecords env op k newValues 60 w with
          | (some err, w') => (errors ++ [err], w')
          | (none, w') => (errors, w')) from rfl]
      cases hupd : updateRecords env op k newValues 60 w with
      | mk r w' =>
        cases r with
        | none => exact updateLoop_script env op old h rest _ _
        | some err => exact updateLoop_script env op old h rest _ _

theorem deleteLoop_script {β : Type} (env : Env β) (op : dnsOp)
    (new : GoMap recordKey (List String)) (h : NeverStops env) :
    ∀ (visit : List (recordKey × List String)) (errors : List Err) (w : World β),
      deleteLoop env op new visit errors w =
        (some ((toDelete new visit).foldl (invokeDelete env op) (errors, w)).1,
         ((toDelete new visit).foldl (invokeDelete env op) (errors, w)).2)
  | [], _, _ => rfl
  | (k, oldValues) :: rest, errors, w => by
    unfold deleteLoop
    rw [pollStop_of_NeverStops env h w]
    simp only
    cases hget : new.get? k with
    | none =>
      have hf : toDelete new ((k, oldValues) :: rest) = k :: toDelete new rest := by
        simp [toDelete, List.filter, hget]
      rw [hf, List.foldl_cons]
      simp only [Option.isNone_none, if_true]
      rw [show invokeDelete env op (errors, w) k =
        (match deleteRecords env op k w with
          | (some err, w') => (errors ++ [err], w')
          | (none, w') => (errors, w')) from rfl]
      cases hdel : deleteRecords env op k w with
      | mk r w' =>
        cases r with
        | none => exact deleteLoop_script env op new h rest _ _
        | some err => exact deleteLoop_script env op new h rest _ _
    | some v =>
      have hf : toDelete new ((k, oldValues) :: rest) = toDelete new rest := by
        simp [toDelete, List.filter, hget]
      rw [hf]
      simp only [Option.isNone_some, Bool.false_eq_true, if_false]
      exact deleteLoop_script env op new h rest errors w

theorem runOnce_script {β : Type} (env : Env β) (ord : RangeOrder) (c : DNSController)
    (w w₁ : World β) (s : snapshot) (op : dnsOp)
    (hs : snapshotIfChangedAndReady ord c = some s) (h : NeverStops env)
    (hop : newDNSOp env w = (.ok op, w₁)) :
    runOnce env ord c w =
      finish c (resolved ord s)
        (applyScript env op
          (toUpdate (oldValues c) (ord.update (computeRecordValues ord s)).1)
          (toDelete (computeRecordValues ord s) (ord.delete (oldValues c)).1) w₁) := by
  unfold runOnce applyScript finish
  simp only [hs, hop]
  rw [show (match c.lastSuccessfulSnapshot with
        | some last => last.recordValues
        | none => ([] : GoMap recordKey (List String))) = oldValues c from rfl]
  rw [updateLoop_script env op (oldValues c) h]
  simp only
  rw [deleteLoop_script env op (computeRecordValues ord s) h]
  simp only [Prod.mk.eta]
  split <;> rfl

theorem NeverStops_quietEnv : NeverStops quietEnv := fun _ => rfl

namespace GoMap

variable {κ ν : Type} [DecidableEq κ]

theorem mem_of_get? (m : GoMap κ ν) (k : κ) (v : ν) (h : get? m k = some v) : (k, v) ∈ m := by
  induction m with
  | nil => simp [get?] at h
  | cons e m ih =>
    obtain ⟨k', v'⟩ := e
    by_cases hk : k' = k
    · simp [get?, hk] at h
      simp [hk, h]
    · simp [get?, hk] at h
      exact List.mem_cons_of_mem _ (ih h)

theorem mem_iff_get? (m : GoMap κ ν) (h : (keys m).Nodup) (k : κ) (v : ν) :
    (k, v) ∈ m ↔ get? m k = some v :=
  ⟨get?_of_mem m h k v, mem_of_get? m k v⟩

theorem keys_set_of_mem (m : GoMap κ ν) (k : κ) (v : ν) (h : k ∈ keys m) :
    keys (set m k v) = keys m := by
  rw [keys_set, if_pos h]

end GoMap

theorem normalizeLoop_keys :
    ∀ (visit : List (recordKey × List String)) (m : GoMap recordKey (List String)),
      (∀ e ∈ visit, e.1 ∈ GoMap.keys m) → GoMap.keys (normalizeLoop visit m) = GoMap.keys m
  | [], _, _ => rfl
  | e :: visit, m, h => by
    have he := h e (List.mem_cons_self _ _)
    have hk := GoMap.keys_set_of_mem m e.1 (sortStrings e.2) he
    simp only [normalizeLoop, List.foldl_cons]
    have ih := normalizeLoop_keys visit (m.set e.1 (sortStrings e.2))
      (fun e' he' => by rw [hk]; exact h e' (List.mem_cons_of_mem _ he'))
    simp only [normalizeLoop] at ih
    rw [ih, hk]

theorem computeRecordValues_nodup (ord : RangeOrder) (s : snapshot) :
    (GoMap.keys (computeRecordValues ord s)).Nodup := by
  unfold computeRecordValues
  simp only
  rw [normalizeLoop_keys _ _ (fun e he =>
    List.mem_map_of_mem Prod.fst ((ord.normalize (resolveLoop s)).2.mem_iff.1 he))]
  exact resolveLoop_nodup s

theorem mem_toUpdate (old : GoMap recordKey (List String))
    (visit : List (recordKey × List String)) (e : recordKey × List String) :
    e ∈ toUpdate old visit ↔ e ∈ visit ∧ e.2 ≠ old.getD e.1 := by
  simp [toUpdate, List.mem_filter]

theorem mem_toDelete (new : GoMap recordKey (List String))
    (visit : List (recordKey × List String)) (k : recordKey) :
    k ∈ toDelete new visit ↔ k ∈ GoMap.keys visit ∧ new.get? k = none := by
  simp only [toDelete, GoMap.keys, List.mem_map, List.mem_filter, decide_eq_true_eq]
  constructor
  · rintro ⟨e, ⟨he, hn⟩, rfl⟩
    exact ⟨⟨e, he, rfl⟩, hn⟩
  · rintro ⟨⟨e, he, rfl⟩, hn⟩
    exact ⟨e, ⟨he, hn⟩, rfl⟩

theorem toUpdate_keys_nodup (old : GoMap recordKey (List String))
    (visit : List (recordKey × List String)) (h : (GoMap.keys visit).Nodup) :
    ((toUpdate old visit).map Prod.fst).Nodup :=
  List.Nodup.sublist ((List.filter_sublist _).map Prod.fst) h

theorem toDelete_nodup (new : GoMap recordKey (List String))
    (visit : List (recordKey × List String)) (h : (GoMap.keys visit).Nodup) :
    (toDelete new visit).Nodup :=
  List.Nodup.sublist ((List.filter_sublist _).map Prod.fst) h

theorem order_keys_nodup (o : Order (recordKey × List String))
    (m : GoMap recordKey (List String)) (h : (GoMap.keys m).Nodup) :
    (GoMap.keys (o m).1).Nodup :=
  (((o m).2.map Prod.fst).nodup_iff).2 h

theorem order_keys_mem (o : Order (recordKey × List String))
    (m : GoMap recordKey (List String)) (k : recordKey) :
    k ∈ GoMap.keys (o m).1 ↔ k ∈ GoMap.keys m :=
  ((o m).2.map Prod.fst).mem_iff

/-- C11 (amended). In a `runOnce` that builds a snapshot, lists the zones and is never
asked to stop, the loop over the new value map comes to invoking
`updateRecords(k, new[k], 60)` on the entries to update, one after the other in visiting order, and the whole call
comes to those invocations followed by the deletions; the entries to update are exactly
the entries `(k, new[k])` with `new[k]` different from `old[k]` (the nil list when `old`
has no such key), each key at most once. -/
theorem C11_updates_exactly_changed {β : Type} (env : Env β) (ord : RangeOrder)
    (c : DNSController) (w w₁ : World β) (s : snapshot) (op : dnsOp)
    (hs : snapshotIfChangedAndReady ord c = some s) (hquiet : NeverStops env)
    (hop : newDNSOp env w = (.ok op, w₁)) :
    updateLoop env op (oldValues c) (ord.update (computeRecordValues ord s)).1 [] w₁ =
      (some ((updatesOf ord c s).foldl (invokeUpdate env op) ([], w₁)).1,
        ((updatesOf ord c s).foldl (invokeUpdate env op) ([], w₁)).2) ∧
    runOnce env ord c w =
      finish c (resolved ord s)
        ((deletesOf ord c s).foldl (invokeDelete env op)
          ((updatesOf ord c s).foldl (invokeUpdate env op) ([], w₁))) ∧
    (∀ k v, (k, v) ∈ updatesOf ord c s ↔
      GoMap.get? (computeRecordValues ord s) k = some v ∧ v ≠ (oldValues c).getD k) ∧
    ((updatesOf ord c s).map Prod.fst).Nodup := by
  refine ⟨updateLoop_script env op (oldValues c) hquiet _ [] w₁,
    runOnce_script env ord c w w₁ s op hs hquiet hop, ?_, ?_⟩
  · intro k v
    rw [updatesOf, mem_toUpdate, (ord.update (computeRecordValues ord s)).2.mem_iff,
      GoMap.mem_iff_get? _ (computeRecordValues_nodup ord s)]
  · exact toUpdate_keys_nodup _ _ (order_keys_nodup _ _ (computeRecordValues_nodup ord s))

theorem C11_updates_exactly_changed_witness :
    snapshotIfChangedAndReady RangeOrder.stored readyOne = some readyOneSnapshot ∧
    NeverStops quietEnv ∧
    newDNSOp quietEnv emptyWorld = (.ok quietOp, listedWorld) ∧
    (keyA, ["1.2.3.4"]) ∈ updatesOf RangeOrder.stored readyOne readyOneSnapshot :=
  ⟨by decide, NeverStops_quietEnv, rfl,
   ((C11_updates_exactly_changed quietEnv RangeOrder.stored readyOne emptyWorld listedWorld
      readyOneSnapshot quietOp (by decide) NeverStops_quietEnv rfl).2.2.1 keyA
      ["1.2.3.4"]).2 ⟨by decide, by decide⟩⟩

/-- C11 (counterexample). A `runOnce` that builds a snapshot and is never asked to stop,
with a key whose new values differ from the old ones, and yet no `updateRecords` is
invoked: the zone listing fails, `runOnce` returns that error before its loops, and the
only call made is the listing. -/
theorem C11_no_update_when_zones_fail :
    snapshotIfChangedAndReady RangeOrder.stored readyOne = some readyOneSnapshot ∧
    NeverStops zonesDownEnv ∧
    updatesOf RangeOrder.stored readyOne readyOneSnapshot = [(keyA, ["1.2.3.4"])] ∧
    (runOnce zonesDownEnv RangeOrder.stored readyOne emptyWorld).world.calls =
      [Call.listZones] ∧
    (runOnce zonesDownEnv RangeOrder.stored readyOne emptyWorld).err =
      some (Err.queryingZones (Err.provider "zones down")) :=
  ⟨by decide, fun _ => rfl, by decide, by decide, by decide⟩

/-! ## Reachable controllers -/

theorem BaselineNodup_step {β : Type} (env : Env β) (c : DNSController) (w : World β)
    (st : Step) (h : BaselineNodup c) : BaselineNodup (step env (c, w) st).1 := by
  intro last hl
  cases st with
  | markReady sName ready =>
    exact h last (by rw [← MarkReady_last c sName ready]; exact hl)
  | replace sName rName rs =>
    exact h last (by rw [← Replace_last c sName rName rs]; exact hl)
  | runOnce ord =>
    rcases runOnce_controller env ord c w with h' | ⟨s, _, h'⟩
    · exact h last (by rw [← h']; exact hl)
    · have hl' : (runOnce env ord c w).controller.lastSuccessfulSnapshot = some last := hl
      rw [h'] at hl'
      cases hl'
      exact computeRecordValues_nodup ord s

theorem BaselineNodup_run {β : Type} (env : Env β) :
    ∀ (steps : List Step) (c : DNSController) (w : World β), BaselineNodup c →
      BaselineNodup (run env (c, w) steps).1
  | [], _, _, h => h
  | st :: steps, c, w, h => by
    rw [run_cons]
    exact BaselineNodup_run env steps _ _ (BaselineNodup_step env c w st h)

theorem oldValues_nodup (c : DNSController) (h : BaselineNodup c) :
    (GoMap.keys (oldValues c)).Nodup := by
  unfold oldValues
  cases hl : c.lastSuccessfulSnapshot with
  | none => simp [GoMap.keys]
  | some last => exact h last hl

/-- C12 (amended). For a controller reached by any history from the fresh one: in a
`runOnce` that builds a snapshot, lists the zones and is never asked to stop, the loop over the
old value map comes to invoking `deleteRecords(k)` on the keys to delete, one after the
other in visiting order, from the state the updates left, and that gives the world the
call ends in; the keys to delete are exactly the keys of `old` (the record values of
the baseline) without an entry in `new`, so no key with an entry in `new` is deleted,
and each occurs once. -/
theorem C12_deletes_exactly_vanished {β : Type} (env : Env β) (w₀ w₁ : World β)
    (steps : List Step) (ord : RangeOrder) (s : snapshot) (op : dnsOp)
    (hs : snapshotIfChangedAndReady ord (run env (DNSController.fresh, w₀) steps).1 = some s)
    (hquiet : NeverStops env)
    (hop : newDNSOp env (run env (DNSController.fresh, w₀) steps).2 = (.ok op, w₁)) :
    deleteLoop env op (computeRecordValues ord s)
        (ord.delete (oldValues (run env (DNSController.fresh, w₀) steps).1)).1
        ((updatesOf ord (run env (DNSController.fresh, w₀) steps).1 s).foldl
          (invokeUpdate env op) ([], w₁)).1
        ((updatesOf ord (run env (DNSController.fresh, w₀) steps).1 s).foldl
          (invokeUpdate env op) ([], w₁)).2 =
      (some ((deletesOf ord (run env (DNSController.fresh, w₀) steps).1 s).foldl
          (invokeDelete env op)
          ((updatesOf ord (run env (DNSController.fresh, w₀) steps).1 s).foldl
            (invokeUpdate env op) ([], w₁))).1,
        ((deletesOf ord (run env (DNSController.fresh, w₀) steps).1 s).foldl
          (invokeDelete env op)
          ((updatesOf ord (run env (DNSController.fresh, w₀) steps).1 s).foldl
            (invokeUpdate env op) ([], w₁))).2) ∧
    (runOnce env ord (run env (DNSController.fresh, w₀) steps).1
        (run env (DNSController.fresh, w₀) steps).2).world =
      ((deletesOf ord (run env (DNSController.fresh, w₀) steps).1 s).foldl
        (invokeDelete env op)
        ((updatesOf ord (run env (DNSController.fresh, w₀) steps).1 s).foldl
          (invokeUpdate env op) ([], w₁))).2 ∧
    (∀ k, k ∈ deletesOf ord (run env (DNSController.fresh, w₀) steps).1 s ↔
      k ∈ GoMap.keys (oldValues (run env (DNSController.fresh, w₀) steps).1) ∧
        GoMap.get? (computeRecordValues ord s) k = none) ∧
    (deletesOf ord (run env (DNSController.fresh, w₀) steps).1 s).Nodup := by
  have hnodup : BaselineNodup (run env (DNSController.fresh, w₀) steps).1 :=
    BaselineNodup_run env steps _ _ (by intro last hl; cases hl)
  refine ⟨?_, ?_, ?_, ?_⟩
  · rw [deleteLoop_script env op _ hquiet, Prod.mk.eta]
    rfl
  · rw [runOnce_script env ord _ _ w₁ s op hs hquiet hop]
    unfold finish applyScript
    split <;> rfl
  · intro k
    rw [deletesOf, mem_toDelete, order_keys_mem]
  · exact toDelete_nodup _ _ (order_keys_nodup _ _ (oldValues_nodup _ hnodup))

theorem C12_deletes_exactly_vanished_witness :
    snapshotIfChangedAndReady RangeOrder.stored
        (run quietEnv (DNSController.fresh, emptyWorld) emptiedHistory).1 =
      some { version := 2, records := [], aliasTargets := [], recordValues := [] } ∧
    NeverStops quietEnv ∧
    newDNSOp quietEnv (run quietEnv (DNSController.fresh, emptyWorld) emptiedHistory).2 =
      (.ok quietOp,
        { backend := (),
          calls := [Call.listZones,
                    Call.add quietZone
                      { name := "a.ex.com", rrdatas := ["1.2.3.4"], ttl := 60, type := "A" },
                    Call.listZones] }) ∧
    keyA ∈ deletesOf RangeOrder.stored
      (run quietEnv (DNSController.fresh, emptyWorld) emptiedHistory).1
      { version := 2, records := [], aliasTargets := [], recordValues := [] } :=
  ⟨by decide, NeverStops_quietEnv, rfl,
   ((C12_deletes_exactly_vanished quietEnv emptyWorld
      { backend := (),
        calls := [Call.listZones,
                  Call.add quietZone
                    { name := "a.ex.com", rrdatas := ["1.2.3.4"], ttl := 60, type := "A" },
                  Call.listZones] }
      emptiedHistory RangeOrder.stored
      { version := 2, records := [], aliasTargets := [], recordValues := [] } quietOp
      (by decide) NeverStops_quietEnv rfl).2.2.1 keyA).2 ⟨by decide, by decide⟩⟩

/-- C12 (counterexample). After the basic scenario and the emptying of its entry, the
baseline holds the key of `recA` and the new record values do not; the next `runOnce`
builds a snapshot and is never asked to stop, and yet no `deleteRecords` is invoked: the
zone listing fails, `runOnce` returns that error before its loops, and the listing is
the only call it makes. -/
theorem C12_no_delete_when_zones_fail :
    snapshotIfChangedAndReady RangeOrder.stored
        (run flakyEnv (DNSController.fresh, flakyWorld) emptiedHistory).1 =
      some { version := 2, records := [], aliasTargets := [], recordValues := [] } ∧
    NeverStops flakyEnv ∧
    deletesOf RangeOrder.stored (run flakyEnv (DNSController.fresh, flakyWorld) emptiedHistory).1
        { version := 2, records := [], aliasTargets := [], recordValues := [] } = [keyA] ∧
    (run flakyEnv (DNSController.fresh, flakyWorld) emptiedHistory).2.calls =
      [Call.listZones,
       Call.add quietZone
         { name := "a.ex.com", rrdatas := ["1.2.3.4"], ttl := 60, type := "A" }] ∧
    (runOnce flakyEnv RangeOrder.stored
        (run flakyEnv (DNSController.fresh, flakyWorld) emptiedHistory).1
        (run flakyEnv (DNSController.fresh, flakyWorld) emptiedHistory).2).world.calls =
      [Call.listZones,
       Call.add quietZone
         { name := "a.ex.com", rrdatas := ["1.2.3.4"], ttl := 60, type := "A" },
       Call.listZones] ∧
    (runOnce flakyEnv RangeOrder.stored
        (run flakyEnv (DNSController.fresh, flakyWorld) emptiedHistory).1
        (run flakyEnv (DNSController.fresh, flakyWorld) emptiedHistory).2).err =
      some (Err.queryingZones (Err.provider "zones down")) :=
  ⟨by decide, fun _ => rfl, by decide, by decide, by decide, by decide⟩

/-! ## Error isolation -/

theorem updateRecords_mono {β : Type} (env : Env β) (o : dnsOp) (k : recordKey)
    (newRecords : List String) (ttl : Int) (w : World β) :
    ∀ call ∈ w.calls, call ∈ (updateRecords env o k newRecords ttl w).2.calls := by
  intro call hcall
  unfold updateRecords
  split
  · exact hcall
  · split
    · exact hcall
    · rename_i zone _ _
      have hadd : ∀ rr, call ∈ (env.callAdd zone rr w).2.calls := fun rr =>
        List.mem_append_left _ hcall
      simp only
      split <;> rename_i heq
      · have := hadd { name := k.FQDN, rrdatas := newRecords, ttl := ttl, type := k.RecordType }
        rw [heq] at this
        exact this
      · have := hadd { name := k.FQDN, rrdatas := newRecords, ttl := ttl, type := k.RecordType }
        rw [heq] at this
        exact this

theorem deleteRecordsLoop_mono {β : Type} (env : Env β) (zone : Zone) (k : recordKey) :
    ∀ (rrs : List ResourceRecordSet) (errors : List Err) (w : World β),
      ∀ call ∈ w.calls, call ∈ (deleteRecordsLoop env zone k rrs errors w).2.calls
  | [], _, _, _, hcall => hcall
  | rr :: rrs, errors, w, call, hcall => by
    unfold deleteRecordsLoop
    simp only
    split
    · exact deleteRecordsLoop_mono env zone k rrs _ _ call hcall
    · split
      · exact deleteRecordsLoop_mono env zone k rrs _ _ call hcall
      · have hrem : call ∈ (env.callRemove zone rr w).2.calls := List.mem_append_left _ hcall
        split <;> rename_i heq <;> rw [heq] at hrem <;>
          exact deleteRecordsLoop_mono env zone k rrs _ _ call hrem

theorem deleteRecords_mono {β : Type} (env : Env β) (o : dnsOp) (k : recordKey)
    (w : World β) : ∀ call ∈ w.calls, call ∈ (deleteRecords env o k w).2.calls := by
  intro call hcall
  unfold deleteRecords
  split
  · exact hcall
  · split
    · exact hcall
    · rename_i zone _ _
      have hlist : call ∈ (env.callRrsList zone w).2.calls := List.mem_append_left _ hcall
      cases hres : env.callRrsList zone w with
      | mk r w' =>
        rw [hres] at hlist
        cases r with
        | error err => exact hlist
        | ok rrs =>
          have hloop := deleteRecordsLoop_mono env zone k rrs [] w' call hlist
          simp only
          cases hl : deleteRecordsLoop env zone k rrs [] w' with
          | mk errs w'' =>
            rw [hl] at hloop
            exact hloop

theorem invokeUpdate_mono {β : Type} (env : Env β) (op : dnsOp) (acc : List Err × World β)
    (e : recordKey × List String) :
    (∀ err ∈ acc.1, err ∈ (invokeUpdate env op acc e).1) ∧
      ∀ call ∈ acc.2.calls, call ∈ (invokeUpdate env op acc e).2.calls := by
  have hmono := updateRecords_mono env op e.1 e.2 60 acc.2
  unfold invokeUpdate
  split <;> rename_i heq <;> rw [heq] at hmono
  · exact ⟨fun err h => List.mem_append_left _ h, hmono⟩
  · exact ⟨fun err h => h, hmono⟩

theorem invokeDelete_mono {β : Type} (env : Env β) (op : dnsOp) (acc : List Err × World β)
    (k : recordKey) :
    (∀ err ∈ acc.1, err ∈ (invokeDelete env op acc k).1) ∧
      ∀ call ∈ acc.2.calls, call ∈ (invokeDelete env op acc k).2.calls := by
  have hmono := deleteRecords_mono env op k acc.2
  unfold invokeDelete
  split <;> rename_i heq <;> rw [heq] at hmono
  · exact ⟨fun err h => List.mem_append_left _ h, hmono⟩
  · exact ⟨fun err h => h, hmono⟩

theorem foldUpdate_mono {β : Type} (env : Env β) (op : dnsOp) :
    ∀ (l : List (recordKey × List String)) (acc : List Err × World β),
      (∀ err ∈ acc.1, err ∈ (l.foldl (invokeUpdate env op) acc).1) ∧
        ∀ call ∈ acc.2.calls, call ∈ (l.foldl (invokeUpdate env op) acc).2.calls
  | [], _ => ⟨fun _ h => h, fun _ h => h⟩
  | e :: l, acc => by
    have h₁ := invokeUpdate_mono env op acc e
    have h₂ := foldUpdate_mono env op l (invokeUpdate env op acc e)
    exact ⟨fun err h => h₂.1 err (h₁.1 err h), fun call h => h₂.2 call (h₁.2 call h)⟩

theorem foldDelete_mono {β : Type} (env : Env β) (op : dnsOp) :
    ∀ (l : List recordKey) (acc : List Err × World β),
      (∀ err ∈ acc.1, err ∈ (l.foldl (invokeDelete env op) acc).1) ∧
        ∀ call ∈ acc.2.calls, call ∈ (l.foldl (invokeDelete env op) acc).2.calls
  | [], _ => ⟨fun _ h => h, fun _ h => h⟩
  | k :: l, acc => by
    have h₁ := invokeDelete_mono env op acc k
    have h₂ := foldDelete_mono env op l (invokeDelete env op acc k)
    exact ⟨fun err h => h₂.1 err (h₁.1 err h), fun call h => h₂.2 call (h₁.2 call h)⟩

theorem updateAttempted_mono (op : dnsOp) (e : recordKey × List String)
    (errors errors' : List Err) (calls calls' : List Call)
    (herr : ∀ err ∈ errors, err ∈ errors') (hcalls : ∀ call ∈ calls, call ∈ calls')
    (h : updateAttempted op e errors calls) : updateAttempted op e errors' calls' := by
  rcases h with ⟨zone, hz, hc⟩ | ⟨hz, he⟩ | ⟨zone, hz, he⟩
  · exact Or.inl ⟨zone, hz, hcalls _ hc⟩
  · exact Or.inr (Or.inl ⟨hz, herr _ he⟩)
  · exact Or.inr (Or.inr ⟨zone, hz, herr _ he⟩)

theorem deleteAttempted_mono (op : dnsOp) (k : recordKey)
    (errors errors' : List Err) (calls calls' : List Call)
    (herr : ∀ err ∈ errors, err ∈ errors') (hcalls : ∀ call ∈ calls, call ∈ calls')
    (h : deleteAttempted op k errors calls) : deleteAttempted op k errors' calls' := by
  rcases h with ⟨zone, hz, hc⟩ | ⟨hz, he⟩ | ⟨zone, hz, he⟩
  · exact Or.inl ⟨zone, hz, hcalls _ hc⟩
  · exact Or.inr (Or.inl ⟨hz, herr _ he⟩)
  · exact Or.inr (Or.inr ⟨zone, hz, herr _ he⟩)

theorem invokeUpdate_attempted {β : Type} (env : Env β) (op : dnsOp)
    (acc : List Err × World β) (e : recordKey × List String) :
    updateAttempted op e (invokeUpdate env op acc e).1 (invokeUpdate env op acc e).2.calls := by
  unfold invokeUpdate updateRecords
  cases hz : findZone op e.1.FQDN with
  | none => exact Or.inr (Or.inl ⟨hz, by simp⟩)
  | some zone =>
    cases hsup : zone.supportsRecordSets with
    | false => exact Or.inr (Or.inr ⟨zone, hz, by simp [hsup]⟩)
    | true =>
      refine Or.inl ⟨zone, hz, ?_⟩
      have hadd : Call.add zone
          { name := e.1.FQDN, rrdatas := e.2, ttl := 60, type := e.1.RecordType } ∈
          (env.callAdd zone
            { name := e.1.FQDN, rrdatas := e.2, ttl := 60, type := e.1.RecordType }
            acc.2).2.calls := List.mem_append_right _ (List.mem_singleton_self _)
      simp only [hsup, Bool.not_true, Bool.false_eq_true, if_false]
      cases hcall : env.callAdd zone
          { name := e.1.FQDN, rrdatas := e.2, ttl := 60, type := e.1.RecordType } acc.2 with
      | mk r w' =>
        rw [hcall] at hadd
        cases r <;> exact hadd

theorem invokeDelete_attempted {β : Type} (env : Env β) (op : dnsOp)
    (acc : List Err × World β) (k : recordKey) :
    deleteAttempted op k (invokeDelete env op acc k).1 (invokeDelete env op acc k).2.calls := by
  unfold invokeDelete deleteRecords
  cases hz : findZone op k.FQDN with
  | none => exact Or.inr (Or.inl ⟨hz, by simp⟩)
  | some zone =>
    cases hsup : zone.supportsRecordSets with
    | false => exact Or.inr (Or.inr ⟨zone, hz, by simp [hsup]⟩)
    | true =>
      refine Or.inl ⟨zone, hz, ?_⟩
      have hlist : Call.listRecordSets zone ∈ (env.callRrsList zone acc.2).2.calls :=
        List.mem_append_right _ (List.mem_singleton_self _)
      simp only [hsup, Bool.not_true, Bool.false_eq_true, if_false]
      cases hcall : env.callRrsList zone acc.2 with
      | mk r w' =>
        rw [hcall] at hlist
        cases r with
        | error err => exact hlist
        | ok rrs =>
          have hloop := deleteRecordsLoop_mono env zone k rrs [] w' _ hlist
          simp only
          cases hl : deleteRecordsLoop env zone k rrs [] w' with
          | mk errs w'' =>
            rw [hl] at hloop
            cases hh : errs.head? <;> exact hloop

theorem foldUpdate_attempted {β : Type} (env : Env β) (op : dnsOp) :
    ∀ (l : List (recordKey × List String)) (acc : List Err × World β),
      ∀ e ∈ l, updateAttempted op e (l.foldl (invokeUpdate env op) acc).1
        (l.foldl (invokeUpdate env op) acc).2.calls
  | [], _, _, he => by cases he
  | e' :: l, acc, e, he => by
    rw [List.foldl_cons]
    rcases List.mem_cons.1 he with rfl | he'
    · have hmono := foldUpdate_mono env op l (invokeUpdate env op acc e)
      exact updateAttempted_mono op e _ _ _ _ hmono.1 hmono.2
        (invokeUpdate_attempted env op acc e)
    · exact foldUpdate_attempted env op l _ e he'

theorem foldDelete_attempted {β : Type} (env : Env β) (op : dnsOp) :
    ∀ (l : List recordKey) (acc : List Err × World β),
      ∀ k ∈ l, deleteAttempted op k (l.foldl (invokeDelete env op) acc).1
        (l.foldl (invokeDelete env op) acc).2.calls
  | [], _, _, hk => by cases hk
  | k' :: l, acc, k, hk => by
    rw [List.foldl_cons]
    rcases List.mem_cons.1 hk with rfl | hk'
    · have hmono := foldDelete_mono env op l (invokeDelete env op acc k)
      exact deleteAttempted_mono op k _ _ _ _ hmono.1 hmono.2
        (invokeDelete_attempted env op acc k)
    · exact foldDelete_attempted env op l _ k hk'

theorem finish_world {β : Type} (c : DNSController) (snap : snapshot)
    (r : List Err × World β) : (finish c snap r).world = r.2 := by
  unfold finish
  split <;> rfl

theorem finish_err {β : Type} (c : DNSController) (snap : snapshot)
    (r : List Err × World β) : (finish c snap r).err = r.1.head? := by
  unfold finish
  split <;> rename_i heq <;> rw [heq] <;> rfl

theorem invokeUpdate_eq {β : Type} (env : Env β) (op : dnsOp) (acc : List Err × World β)
    (e : recordKey × List String) :
    invokeUpdate env op acc e =
      (acc.1 ++ (updateRecords env op e.1 e.2 60 acc.2).1.toList,
        (updateRecords env op e.1 e.2 60 acc.2).2) := by
  unfold invokeUpdate
  cases h : updateRecords env op e.1 e.2 60 acc.2 with
  | mk r w' =>
    cases r with
    | none => simp
    | some err => simp

theorem invokeDelete_eq {β : Type} (env : Env β) (op : dnsOp) (acc : List Err × World β)
    (k : recordKey) :
    invokeDelete env op acc k =
      (acc.1 ++ (deleteRecords env op k acc.2).1.toList, (deleteRecords env op k acc.2).2) := by
  unfold invokeDelete
  cases h : deleteRecords env op k acc.2 with
  | mk r w' =>
    cases r with
    | none => simp
    | some err => simp

/-- C13. In a `runOnce` that builds a snapshot, lists the zones and is never asked to
stop, whatever the backend answers to any call and whatever the visiting orders: every
entry to update and every key to delete is attempted. Each entry to update leaves its
footprint, the `add` of its record set among the calls of the iteration or its zone
error among the collected errors, and so does each key to delete, with the listing of
its zone's record sets; the error returned is the first collected one. More precisely,
the call comes to invoking `updateRecords` on every entry to update and then
`deleteRecords` on every key to delete, one after the other: at whatever position an
entry or a key stands, `updateRecords` or `deleteRecords` is called for it in the world
its predecessors left, whatever errors they returned; its own error, if any, is appended
to those; and the entries and keys after it are served from the world it leaves. -/
theorem C13_error_isolation {β : Type} (env : Env β) (ord : RangeOrder)
    (c : DNSController) (w w₁ : World β) (s : snapshot) (op : dnsOp)
    (hs : snapshotIfChangedAndReady ord c = some s) (hquiet : NeverStops env)
    (hop : newDNSOp env w = (.ok op, w₁)) :
    (∀ e ∈ updatesOf ord c s,
      updateAttempted op e
        (applyScript env op (updatesOf ord c s) (deletesOf ord c s) w₁).1
        (runOnce env ord c w).world.calls) ∧
    (∀ k ∈ deletesOf ord c s,
      deleteAttempted op k
        (applyScript env op (updatesOf ord c s) (deletesOf ord c s) w₁).1
        (runOnce env ord c w).world.calls) ∧
    (runOnce env ord c w).err =
      (applyScript env op (updatesOf ord c s) (deletesOf ord c s) w₁).1.head? ∧
    runOnce env ord c w =
      finish c (resolved ord s)
        (applyScript env op (updatesOf ord c s) (deletesOf ord c s) w₁) ∧
    (∀ U₁ e U₂, updatesOf ord c s = U₁ ++ e :: U₂ →
      applyScript env op (updatesOf ord c s) (deletesOf ord c s) w₁ =
        (deletesOf ord c s).foldl (invokeDelete env op)
          (U₂.foldl (invokeUpdate env op)
            ((U₁.foldl (invokeUpdate env op) ([], w₁)).1 ++
                (updateRecords env op e.1 e.2 60
                  (U₁.foldl (invokeUpdate env op) ([], w₁)).2).1.toList,
              (updateRecords env op e.1 e.2 60
                (U₁.foldl (invokeUpdate env op) ([], w₁)).2).2))) ∧
    (∀ D₁ k D₂, deletesOf ord c s = D₁ ++ k :: D₂ →
      applyScript env op (updatesOf ord c s) (deletesOf ord c s) w₁ =
        D₂.foldl (invokeDelete env op)
          ((D₁.foldl (invokeDelete env op)
                ((updatesOf ord c s).foldl (invokeUpdate env op) ([], w₁))).1 ++
              (deleteRecords env op k
                (D₁.foldl (invokeDelete env op)
                  ((updatesOf ord c s).foldl (invokeUpdate env op) ([], w₁))).2).1.toList,
            (deleteRecords env op k
              (D₁.foldl (invokeDelete env op)
                ((updatesOf ord c s).foldl (invokeUpdate env op) ([], w₁))).2).2)) := by
  have hrun := runOnce_script env ord c w w₁ s op hs hquiet hop
  have hworld : (runOnce env ord c w).world =
      (applyScript env op (updatesOf ord c s) (deletesOf ord c s) w₁).2 := by
    rw [hrun]
    exact finish_world _ _ _
  refine ⟨fun e he => ?_, fun k hk => ?_, ?_, hrun, fun U₁ e U₂ hU => ?_,
    fun D₁ k D₂ hD => ?_⟩
  · rw [hworld]
    have hmono := foldDelete_mono env op (deletesOf ord c s)
      ((updatesOf ord c s).foldl (invokeUpdate env op) ([], w₁))
    exact updateAttempted_mono op e _ _ _ _ hmono.1 hmono.2
      (foldUpdate_attempted env op (updatesOf ord c s) ([], w₁) e he)
  · rw [hworld]
    exact foldDelete_attempted env op (deletesOf ord c s) _ k hk
  · rw [hrun]
    exact finish_err _ _ _
  · unfold applyScript
    rw [hU, List.foldl_append, List.foldl_cons, invokeUpdate_eq]
  · unfold applyScript
    rw [hD, List.foldl_append, List.foldl_cons, invokeDelete_eq]

theorem C13_error_isolation_witness :
    snapshotIfChangedAndReady RangeOrder.stored
        (run quietEnv (DNSController.fresh, emptyWorld) isolationHistory).1 =
      some { version := 4, records := [recC], aliasTargets := [], recordValues := [] } ∧
    NeverStops failingEnv ∧
    newDNSOp failingEnv (run quietEnv (DNSController.fresh, emptyWorld) isolationHistory).2 =
      (.ok quietOp,
        { backend := (),
          calls := (run quietEnv (DNSController.fresh, emptyWorld) isolationHistory).2.calls ++
            [Call.listZones] }) ∧
    updatesOf RangeOrder.stored
        (run quietEnv (DNSController.fresh, emptyWorld) isolationHistory).1
        { version := 4, records := [recC], aliasTargets := [], recordValues := [] } =
      [({ RecordType := "A", FQDN := "c.ex.com" }, ["9.9.9.9"])] ∧
    deletesOf RangeOrder.stored
        (run quietEnv (DNSController.fresh, emptyWorld) isolationHistory).1
        { version := 4, records := [recC], aliasTargets := [], recordValues := [] } =
      [keyA, { RecordType := "A", FQDN := "b.ex.com" }] ∧
    (runOnce failingEnv RangeOrder.stored
        (run quietEnv (DNSController.fresh, emptyWorld) isolationHistory).1
        (run quietEnv (DNSController.fresh, emptyWorld) isolationHistory).2).err =
      (applyScript failingEnv quietOp
        (updatesOf RangeOrder.stored
          (run quietEnv (DNSController.fresh, emptyWorld) isolationHistory).1
          { version := 4, records := [recC], aliasTargets := [], recordValues := [] })
        (deletesOf RangeOrder.stored
          (run quietEnv (DNSController.fresh, emptyWorld) isolationHistory).1
          { version := 4, records := [recC], aliasTargets := [], recordValues := [] })
        { backend := (),
          calls := (run quietEnv (DNSController.fresh, emptyWorld) isolationHistory).2.calls ++
            [Call.listZones] }).1.head? ∧
    (runOnce failingEnv RangeOrder.stored
        (run quietEnv (DNSController.fresh, emptyWorld) isolationHistory).1
        (run quietEnv (DNSController.fresh, emptyWorld) isolationHistory).2).err =
      some (Err.creatingRecord "c.ex.com" "A" (Err.provider "add failed")) ∧
    (runOnce failingEnv RangeOrder.stored
        (run quietEnv (DNSController.fresh, emptyWorld) isolationHistory).1
        (run quietEnv (DNSController.fresh, emptyWorld) isolationHistory).2).world.calls =
      (run quietEnv (DNSController.fresh, emptyWorld) isolationHistory).2.calls ++
        [Call.listZones,
         Call.add quietZone
           { name := "c.ex.com", rrdatas := ["9.9.9.9"], ttl := 60, type := "A" },
         Call.listRecordSets quietZone, Call.listRecordSets quietZone] :=
  ⟨by decide, fun _ => rfl, rfl, by decide, by decide,
   (C13_error_isolation failingEnv RangeOrder.stored
      (run quietEnv (DNSController.fresh, emptyWorld) isolationHistory).1
      (run quietEnv (DNSController.fresh, emptyWorld) isolationHistory).2
      { backend := (),
        calls := (run quietEnv (DNSController.fresh, emptyWorld) isolationHistory).2.calls ++
          [Call.listZones] }
      { version := 4, records := [recC], aliasTargets := [], recordValues := [] } quietOp
      (by decide) (fun _ => rfl) rfl).2.2.1,
   by decide, by decide⟩

/-! ## Commit if and only if success -/

theorem runOnce_of_zones_error {β : Type} (env : Env β) (ord : RangeOrder)
    (c : DNSController) (w w₁ : World β) (s : snapshot) (err : Err)
    (hs : snapshotIfChangedAndReady ord c = some s)
    (hop : newDNSOp env w = (.error err, w₁)) :
    runOnce env ord c w = { err := some err, controller := c, world := w₁ } := by
  unfold runOnce
  simp only [hs, hop]

/-- C14 (amended). When `runOnce` builds a snapshot and is never asked to stop: if the
zone listing fails, it returns that error and the controller is as before; otherwise it
invokes the updates and the deletions, and if they collect no error it returns nil and
the controller is as before except that the snapshot, with its record values, is the
baseline, while if they collect an error it returns the first one collected and the
controller (baseline, scopes, version) is exactly as before. -/
theorem C14_commit_iff_success {β : Type} (env : Env β) (ord : RangeOrder)
    (c : DNSController) (w w₁ : World β) (s : snapshot)
    (hs : snapshotIfChangedAndReady ord c = some s) (hquiet : NeverStops env) :
    (∀ err, newDNSOp env w = (.error err, w₁) →
      runOnce env ord c w = { err := some err, controller := c, world := w₁ }) ∧
    (∀ op, newDNSOp env w = (.ok op, w₁) →
      (applyScript env op (updatesOf ord c s) (deletesOf ord c s) w₁).1 = [] →
      runOnce env ord c w =
        { err := none,
          controller := { scopes := c.scopes, version := c.version,
                          lastSuccessfulSnapshot := some (resolved ord s) },
          world := (applyScript env op (updatesOf ord c s) (deletesOf ord c s) w₁).2 }) ∧
    (∀ op err errs, newDNSOp env w = (.ok op, w₁) →
      (applyScript env op (updatesOf ord c s) (deletesOf ord c s) w₁).1 = err :: errs →
      runOnce env ord c w =
        { err := some err, controller := c,
          world := (applyScript env op (updatesOf ord c s) (deletesOf ord c s) w₁).2 }) := by
  refine ⟨fun err hop => runOnce_of_zones_error env ord c w w₁ s err hs hop,
    fun op hop hnil => ?_, fun op err errs hop hcons => ?_⟩
  · rw [runOnce_script env ord c w w₁ s op hs hquiet hop]
    unfold finish
    rw [show (applyScript env op
        (toUpdate (oldValues c) (ord.update (computeRecordValues ord s)).1)
        (toDelete (computeRecordValues ord s) (ord.delete (oldValues c)).1) w₁) =
      applyScript env op (updatesOf ord c s) (deletesOf ord c s) w₁ from rfl, hnil]
  · rw [runOnce_script env ord c w w₁ s op hs hquiet hop]
    unfold finish
    rw [show (applyScript env op
        (toUpdate (oldValues c) (ord.update (computeRecordValues ord s)).1)
        (toDelete (computeRecordValues ord s) (ord.delete (oldValues c)).1) w₁) =
      applyScript env op (updatesOf ord c s) (deletesOf ord c s) w₁ from rfl, hcons]

theorem C14_commit_iff_success_witness :
    snapshotIfChangedAndReady RangeOrder.stored readyOne = some readyOneSnapshot ∧
    NeverStops failingEnv ∧
    newDNSOp failingEnv emptyWorld = (.ok quietOp, listedWorld) ∧
    (applyScript failingEnv quietOp (updatesOf RangeOrder.stored readyOne readyOneSnapshot)
        (deletesOf RangeOrder.stored readyOne readyOneSnapshot) listedWorld).1 =
      [Err.creatingRecord "a.ex.com" "A" (Err.provider "add failed")] ∧
    (runOnce failingEnv RangeOrder.stored readyOne emptyWorld).controller = readyOne :=
  ⟨by decide, fun _ => rfl, rfl, by decide,
   congrArg Outcome.controller
     ((C14_commit_iff_success failingEnv RangeOrder.stored readyOne emptyWorld listedWorld
        readyOneSnapshot (by decide) (fun _ => rfl)).2.2 quietOp
        (Err.creatingRecord "a.ex.com" "A" (Err.provider "add failed")) [] rfl (by decide))⟩

/-- C14 (counterexample). With the stop signal set, `runOnce` builds the snapshot and
lists the zones successfully, attempts no update and no deletion, so none fails, and
yet it returns an error and does not store the snapshot. -/
theorem C14_stop_prevents_commit :
    snapshotIfChangedAndReady RangeOrder.stored readyOne = some readyOneSnapshot ∧
    (runOnce stoppedEnv RangeOrder.stored readyOne emptyWorld).world.calls =
      [Call.listZones] ∧
    (runOnce stoppedEnv RangeOrder.stored readyOne emptyWorld).err =
      some Err.stopRequested ∧
    (runOnce stoppedEnv RangeOrder.stored readyOne emptyWorld).controller = readyOne := by
  decide

/-! ## Retry after failure -/

theorem readyLoop_some_of_all_ready (ord : RangeOrder) :
    ∀ (l : List (String × scope)) (n : Nat), (∀ e ∈ l, e.2.Ready = true) →
      ∃ m, readyLoop ord l n = some m
  | [], n, _ => ⟨n, rfl⟩
  | (name, sc) :: rest, n, h => by
    have hr : sc.Ready = true := h (name, sc) (List.mem_cons_self _ _)
    simp only [readyLoop, hr, Bool.not_true, Bool.false_eq_true, if_false]
    exact readyLoop_some_of_all_ready ord rest _
      (fun e he => h e (List.mem_cons_of_mem _ he))

theorem snapshot_some_of_some (ord ord' : RangeOrder) (c : DNSController) (s : snapshot)
    (hs : snapshotIfChangedAndReady ord c = some s) :
    ∃ s', snapshotIfChangedAndReady ord' c = some s' := by
  have hready : ∀ e ∈ c.scopes, e.2.Ready = true := by
    intro e he
    cases hr : e.2.Ready with
    | true => rfl
    | false =>
      rw [snapshot_none_of_not_ready ord c ⟨e, he, hr⟩] at hs
      cases hs
  obtain ⟨m, hm⟩ := readyLoop_some_of_all_ready ord' (ord'.readyScopes c.scopes).1 0
    (fun e he => hready e ((ord'.readyScopes c.scopes).2.mem_iff.1 he))
  unfold snapshotIfChangedAndReady at hs ⊢
  simp only at hs ⊢
  split at hs
  · cases hs
  · rename_i hunchanged
    simp only [hunchanged, hm]
    exact ⟨_, rfl⟩

theorem runOnce_controller_of_err {β : Type} (env : Env β) (ord : RangeOrder)
    (c : DNSController) (w : World β) (herr : (runOnce env ord c w).err ≠ none) :
    (runOnce env ord c w).controller = c := by
  cases hs : snapshotIfChangedAndReady ord c with
  | none => rw [runOnce_of_snapshot_none env ord c w hs]
  | some s =>
    unfold runOnce at herr ⊢
    simp only [hs] at herr ⊢
    split at herr
    · rfl
    · split at herr
      · rfl
      · split at herr
        · rfl
        · split at herr
          · rfl
          · exact absurd rfl herr

theorem mem_updatesOf (ord : RangeOrder) (c : DNSController) (s : snapshot)
    (e : recordKey × List String) :
    e ∈ updatesOf ord c s ↔
      GoMap.get? (computeRecordValues ord s) e.1 = some e.2 ∧ e.2 ≠ (oldValues c).getD e.1 := by
  rw [updatesOf, mem_toUpdate, (ord.update (computeRecordValues ord s)).2.mem_iff,
    GoMap.mem_iff_get? _ (computeRecordValues_nodup ord s)]

theorem mem_deletesOf (ord : RangeOrder) (c : DNSController) (s : snapshot) (k : recordKey) :
    k ∈ deletesOf ord c s ↔
      k ∈ GoMap.keys (oldValues c) ∧ GoMap.get? (computeRecordValues ord s) k = none := by
  rw [deletesOf, mem_toDelete, order_keys_mem]

/-- C15 (amended). If a `runOnce` that built a snapshot fails, the controller is exactly
as before; so, with no producer call in between, the next `runOnce`, with any visiting
orders, again builds a snapshot, computes the same entry for every key of the new value
map against the same old map, and therefore has exactly the same entries to update and
the same keys to delete as the failed iteration (whether that one reached them or not,
and including those whose update had succeeded); it has something to update or delete
whenever the failed iteration had, and the failed iteration had whenever it listed the
zones and was never asked to stop, that is, whenever it failed by the error of an update
or of a delete; when the next `runOnce` lists the zones and is never asked to stop, it
invokes `updateRecords` and `deleteRecords` on exactly those entries and keys. -/
theorem C15_retry_after_failure {β : Type} (env : Env β) (ord ord' : RangeOrder)
    (c : DNSController) (w w' w₁ : World β) (s : snapshot) (op : dnsOp)
    (hs : snapshotIfChangedAndReady ord c = some s)
    (herr : (runOnce env ord c w).err ≠ none) :
    (runOnce env ord c w).controller = c ∧
    ∃ s', snapshotIfChangedAndReady ord' (runOnce env ord c w).controller = some s' ∧
      (∀ k, GoMap.get? (computeRecordValues ord' s') k =
        GoMap.get? (computeRecordValues ord s) k) ∧
      (∀ e, e ∈ updatesOf ord' c s' ↔ e ∈ updatesOf ord c s) ∧
      (∀ k, k ∈ deletesOf ord' c s' ↔ k ∈ deletesOf ord c s) ∧
      ((updatesOf ord c s ≠ [] ∨ deletesOf ord c s ≠ []) →
        (updatesOf ord' c s' ≠ [] ∨ deletesOf ord' c s' ≠ [])) ∧
      (NeverStops env → newDNSOp env w' = (.ok op, w₁) →
        runOnce env ord' (runOnce env ord c w).controller w' =
          finish c (resolved ord' s')
            (applyScript env op (updatesOf ord' c s') (deletesOf ord' c s') w₁)) ∧
      (∀ op₀ w₀, NeverStops env → newDNSOp env w = (.ok op₀, w₀) →
        (updatesOf ord c s ≠ [] ∨ deletesOf ord c s ≠ []) ∧
          (updatesOf ord' c s' ≠ [] ∨ deletesOf ord' c s' ≠ [])) := by
  have hc := runOnce_controller_of_err env ord c w herr
  obtain ⟨s', hs'⟩ := snapshot_some_of_some ord ord' c s hs
  have hget : ∀ k, GoMap.get? (computeRecordValues ord' s') k =
      GoMap.get? (computeRecordValues ord s) k := fun k => by
    rw [recordValues_of_registry ord' c s' hs' k, recordValues_of_registry ord c s hs k]
  have hupd : ∀ e, e ∈ updatesOf ord' c s' ↔ e ∈ updatesOf ord c s := fun e => by
    rw [mem_updatesOf, mem_updatesOf, hget]
  have hdel : ∀ k, k ∈ deletesOf ord' c s' ↔ k ∈ deletesOf ord c s := fun k => by
    rw [mem_deletesOf, mem_deletesOf, hget]
  have hkeep : (updatesOf ord c s ≠ [] ∨ deletesOf ord c s ≠ []) →
      (updatesOf ord' c s' ≠ [] ∨ deletesOf ord' c s' ≠ []) := by
    rintro (h | h)
    · obtain ⟨e, he⟩ := List.exists_mem_of_ne_nil _ h
      exact Or.inl (List.ne_nil_of_mem ((hupd e).2 he))
    · obtain ⟨k, hk⟩ := List.exists_mem_of_ne_nil _ h
      exact Or.inr (List.ne_nil_of_mem ((hdel k).2 hk))
  refine ⟨hc, s', by rw [hc]; exact hs', hget, hupd, hdel, hkeep, ?_, ?_⟩
  · intro hquiet hop
    rw [hc]
    exact runOnce_script env ord' c w' w₁ s' op hs' hquiet hop
  · intro op₀ w₀ hquiet hop₀
    have hdiff : updatesOf ord c s ≠ [] ∨ deletesOf ord c s ≠ [] := by
      by_contra hnone
      have hU : updatesOf ord c s = [] := by
        by_contra h
        exact hnone (Or.inl h)
      have hD : deletesOf ord c s = [] := by
        by_contra h
        exact hnone (Or.inr h)
      have hrun : runOnce env ord c w =
          finish c (resolved ord s)
            (applyScript env op₀ (updatesOf ord c s) (deletesOf ord c s) w₀) :=
        runOnce_script env ord c w w₀ s op₀ hs hquiet hop₀
      rw [hrun, finish_err, hU, hD] at herr
      exact herr rfl
    exact ⟨hdiff, hkeep hdiff⟩

theorem C15_retry_after_failure_witness :
    snapshotIfChangedAndReady RangeOrder.stored readyOne = some readyOneSnapshot ∧
    (runOnce failingEnv RangeOrder.stored readyOne emptyWorld).err ≠ none ∧
    (runOnce failingEnv RangeOrder.stored readyOne emptyWorld).controller = readyOne ∧
    updatesOf RangeOrder.stored readyOne readyOneSnapshot = [(keyA, ["1.2.3.4"])] :=
  ⟨by decide, by decide,
   (C15_retry_after_failure failingEnv RangeOrder.stored RangeOrder.reversed readyOne
      emptyWorld emptyWorld listedWorld readyOneSnapshot quietOp (by decide)
      (by decide)).1,
   by decide⟩

/-- C15 (counterexample). After the basic scenario the same record is written again, so
the version changes and the record values do not; the next `runOnce` builds a snapshot
and fails on the zone listing. It had nothing to update and nothing to delete, the
controller is as before, and the `runOnce` after it again builds a snapshot whose record
values are the old ones: it does not see old != new and has no key to retry. -/
theorem C15_failure_without_difference :
    snapshotIfChangedAndReady RangeOrder.stored
        (run quietEnv (DNSController.fresh, emptyWorld) sameAgainHistory).1 =
      some { version := 2, records := [recA], aliasTargets := [], recordValues := [] } ∧
    (runOnce zonesDownEnv RangeOrder.stored
        (run quietEnv (DNSController.fresh, emptyWorld) sameAgainHistory).1 emptyWorld).err =
      some (Err.queryingZones (Err.provider "zones down")) ∧
    (runOnce zonesDownEnv RangeOrder.stored
        (run quietEnv (DNSController.fresh, emptyWorld) sameAgainHistory).1
        emptyWorld).controller =
      (run quietEnv (DNSController.fresh, emptyWorld) sameAgainHistory).1 ∧
    snapshotIfChangedAndReady RangeOrder.reversed
        (runOnce zonesDownEnv RangeOrder.stored
          (run quietEnv (DNSController.fresh, emptyWorld) sameAgainHistory).1
          emptyWorld).controller =
      some { version := 2, records := [recA], aliasTargets := [], recordValues := [] } ∧
    computeRecordValues RangeOrder.reversed
        { version := 2, records := [recA], aliasTargets := [], recordValues := [] } =
      oldValues (run quietEnv (DNSController.fresh, emptyWorld) sameAgainHistory).1 ∧
    updatesOf RangeOrder.reversed
        (run quietEnv (DNSController.fresh, emptyWorld) sameAgainHistory).1
        { version := 2, records := [recA], aliasTargets := [], recordValues := [] } = [] ∧
    deletesOf RangeOrder.reversed
        (run quietEnv (DNSController.fresh, emptyWorld) sameAgainHistory).1
        { version := 2, records := [recA], aliasTargets := [], recordValues := [] } = [] := by
  decide

/-! ## Zone resolution -/

theorem IndexByte_dot_none :
    ∀ s : List Char, IndexByte s '.' = none → afterDots s = []
  | [], _ => rfl
  | c :: cs, h => by
    by_cases hc : c = '.'
    · simp [IndexByte, hc] at h
    · simp only [IndexByte, hc, if_false, Option.map_eq_none'] at h
      simp only [afterDots, hc, if_false]
      exact IndexByte_dot_none cs h

theorem IndexByte_dot_some :
    ∀ (s : List Char) (i : Nat), IndexByte s '.' = some i →
      afterDots s = s.drop (i + 1) :: afterDots (s.drop (i + 1)) ∧
        (s.drop (i + 1)).length < s.length
  | [], _, h => by simp [IndexByte] at h
  | c :: cs, i, h => by
    by_cases hc : c = '.'
    · simp only [IndexByte, hc, if_true, Option.some.injEq] at h
      subst h
      simp [afterDots, hc]
    · simp only [IndexByte, hc, if_false, Option.map_eq_some'] at h
      obtain ⟨j, hj, hi⟩ := h
      subst hi
      have ih := IndexByte_dot_some cs j hj
      simp only [afterDots, hc, if_false, List.drop_succ_cons, List.length_cons]
      exact ⟨ih.1, by omega⟩

theorem findZoneLoop_eq (zones : GoMap String Zone) :
    ∀ (fuel : Nat) (name : String), name.data.length < fuel →
      findZoneLoop zones fuel name =
        ((name.data :: afterDots name.data).map String.mk).findSome?
          (fun n => zones.get? n)
  | 0, _, h => by omega
  | fuel + 1, name, h => by
    unfold findZoneLoop
    simp only [List.map_cons, List.findSome?_cons]
    cases hget : zones.get? name with
    | some zone => simp [hget]
    | none =>
      simp only [hget]
      cases hidx : IndexByte name.data '.' with
      | none => simp [IndexByte_dot_none name.data hidx]
      | some dot =>
        obtain ⟨hafter, hlen⟩ := IndexByte_dot_some name.data dot hidx
        simp only
        rw [findZoneLoop_eq zones fuel (String.mk (name.data.drop (dot + 1)))
          (by simp only; omega), hafter]

theorem findZone_eq (o : dnsOp) (fqdn : String) :
    findZone o fqdn =
      (labelSuffixes (EnsureDotSuffix fqdn)).findSome? (fun name => o.zones.get? name) := by
  unfold findZone labelSuffixes
  exact findZoneLoop_eq o.zones _ _ (Nat.lt_succ_self _)

theorem mem_afterDots (t : List Char) :
    ∀ s : List Char, t ∈ afterDots s ↔ ∃ pre, s = pre ++ '.' :: t
  | [] => by simp [afterDots]
  | c :: cs => by
    have ih := mem_afterDots t cs
    by_cases hc : c = '.'
    · simp only [afterDots, hc, if_true, List.mem_cons, ih]
      constructor
      · rintro (rfl | ⟨pre, rfl⟩)
        · exact ⟨[], rfl⟩
        · exact ⟨'.' :: pre, rfl⟩
      · rintro ⟨pre, hpre⟩
        cases pre with
        | nil =>
          simp only [List.nil_append, List.cons.injEq, true_and] at hpre
          exact Or.inl hpre.symm
        | cons p pre =>
          simp only [List.cons_append, List.cons.injEq] at hpre
          exact Or.inr ⟨pre, hpre.2⟩
    · simp only [afterDots, hc, if_false, ih]
      constructor
      · rintro ⟨pre, rfl⟩
        exact ⟨c :: pre, rfl⟩
      · rintro ⟨pre, hpre⟩
        cases pre with
        | nil =>
          simp only [List.nil_append, List.cons.injEq] at hpre
          exact absurd hpre.1 hc
        | cons p pre =>
          simp only [List.cons_append, List.cons.injEq] at hpre
          exact ⟨pre, hpre.2⟩

theorem afterDots_length (s t : List Char) (h : t ∈ afterDots s) : t.length < s.length := by
  obtain ⟨pre, rfl⟩ := (mem_afterDots t s).1 h
  simp only [List.length_append, List.length_cons]
  omega

theorem afterDots_pairwise :
    ∀ s : List Char, (afterDots s).Pairwise (fun a b => b.length < a.length)
  | [] => List.Pairwise.nil
  | c :: cs => by
    by_cases hc : c = '.'
    · simp only [afterDots, hc, if_true, List.pairwise_cons]
      exact ⟨fun t ht => afterDots_length cs t ht, afterDots_pairwise cs⟩
    · simp only [afterDots, hc, if_false]
      exact afterDots_pairwise cs

theorem labelSuffixes_pairwise (name : String) :
    (labelSuffixes name).Pairwise (fun a b => b.length < a.length) := by
  unfold labelSuffixes
  rw [List.pairwise_map]
  exact List.pairwise_cons.2
    ⟨fun t ht => afterDots_length name.data t ht, afterDots_pairwise name.data⟩

theorem mem_labelSuffixes (name suffix : String) :
    suffix ∈ labelSuffixes name ↔
      suffix = name ∨ ∃ pre, name.data = pre ++ '.' :: suffix.data := by
  unfold labelSuffixes
  simp only [List.map_cons, List.mem_cons, List.mem_map]
  constructor
  · rintro (h | ⟨t, ht, rfl⟩)
    · exact Or.inl h
    · exact Or.inr ((mem_afterDots t name.data).1 ht)
  · rintro (h | h)
    · exact Or.inl h
    · exact Or.inr ⟨suffix.data, (mem_afterDots suffix.data name.data).2 h, rfl⟩

theorem eq_of_length_eq_of_pairwise :
    ∀ l : List String, l.Pairwise (fun a b => b.length < a.length) →
      ∀ a ∈ l, ∀ b ∈ l, a.length = b.length → a = b
  | [], _, _, ha, _, _, _ => by cases ha
  | x :: l, hp, a, ha, b, hb, hlen => by
    rw [List.pairwise_cons] at hp
    rcases List.mem_cons.1 ha with rfl | ha' <;> rcases List.mem_cons.1 hb with rfl | hb'
    · rfl
    · have := hp.1 b hb'
      omega
    · have := hp.1 a ha'
      omega
    · exact eq_of_length_eq_of_pairwise l hp.2 a ha' b hb' hlen

theorem findSome?_longest {ζ : Type} (f : String → Option ζ) :
    ∀ (l : List String) (z : ζ), l.Pairwise (fun a b => b.length < a.length) →
      l.findSome? f = some z →
      ∃ a ∈ l, f a = some z ∧ ∀ b ∈ l, f b ≠ none → b.length ≤ a.length
  | [], _, _, h => by simp at h
  | a :: l, z, hp, h => by
    rw [List.pairwise_cons] at hp
    rw [List.findSome?_cons] at h
    cases hfa : f a with
    | some z' =>
      rw [hfa] at h
      cases h
      refine ⟨a, List.mem_cons_self _ _, hfa, fun b hb _ => ?_⟩
      rcases List.mem_cons.1 hb with rfl | hb'
      · exact Nat.le_refl _
      · exact Nat.le_of_lt (hp.1 b hb')
    | none =>
      rw [hfa] at h
      obtain ⟨a', ha', hfa', hmax⟩ := findSome?_longest f l z hp.2 h
      refine ⟨a', List.mem_cons_of_mem _ ha', hfa', fun b hb hne => ?_⟩
      rcases List.mem_cons.1 hb with rfl | hb'
      · exact absurd hfa hne
      · exact hmax b hb' hne

theorem zoneMap_keys :
    ∀ (zones : List Zone) (m : GoMap String Zone),
      (∀ name zone, m.get? name = some zone → EnsureDotSuffix zone.name = name) →
      ∀ name zone,
        (zones.foldl (fun zoneMap zone => zoneMap.set (EnsureDotSuffix zone.name) zone)
          m).get? name = some zone → EnsureDotSuffix zone.name = name
  | [], _, h => h
  | z :: zones, m, h => by
    rw [List.foldl_cons]
    refine zoneMap_keys zones _ (fun name zone hget => ?_)
    by_cases hn : name = EnsureDotSuffix z.name
    · subst hn
      rw [GoMap.get?_set_self] at hget
      cases hget
      rfl
    · rw [GoMap.get?_set_other _ _ hn] at hget
      exact h name zone hget

theorem newDNSOp_keys {β : Type} (env : Env β) (w w₁ : World β) (op : dnsOp)
    (hop : newDNSOp env w = (.ok op, w₁)) (name : String) (zone : Zone)
    (hget : op.zones.get? name = some zone) : EnsureDotSuffix zone.name = name := by
  unfold newDNSOp at hop
  split at hop
  · cases hop
  · cases hop
    exact zoneMap_keys _ [] (fun _ _ h => by simp [GoMap.get?] at h) name zone hget

/-- C16. For every zone map and FQDN: the candidates are the dot-terminated FQDN and
what is left of it after stripping one or more whole leftmost labels (a suffix that
follows a dot); `findZone` returns the zone keyed by the longest candidate that is a key
of the zone map, and returns none exactly when no candidate is a key; in the zone map
built by `newDNSOp` every zone is keyed by its dot-terminated name. With the zones
`ex.com.` and `sub.ex.com.`, `host.sub.ex.com` resolves to `sub.ex.com.`. -/
theorem C16_zone_resolution {β : Type} (env : Env β) (w w₁ : World β) (op o : dnsOp)
    (fqdn : String) :
    (∀ suffix, suffix ∈ labelSuffixes (EnsureDotSuffix fqdn) ↔
      suffix = EnsureDotSuffix fqdn ∨
        ∃ pre, (EnsureDotSuffix fqdn).data = pre ++ '.' :: suffix.data) ∧
    (∀ zone, findZone o fqdn = some zone ↔
      ∃ name ∈ labelSuffixes (EnsureDotSuffix fqdn), o.zones.get? name = some zone ∧
        ∀ other ∈ labelSuffixes (EnsureDotSuffix fqdn), o.zones.get? other ≠ none →
          other.length ≤ name.length) ∧
    (findZone o fqdn = none ↔
      ∀ name ∈ labelSuffixes (EnsureDotSuffix fqdn), o.zones.get? name = none) ∧
    (newDNSOp env w = (.ok op, w₁) →
      ∀ name zone, op.zones.get? name = some zone → EnsureDotSuffix zone.name = name) ∧
    findZone twoZones "host.sub.ex.com" = some zoneSub := by
  refine ⟨mem_labelSuffixes _, fun zone => ⟨fun h => ?_, fun h => ?_⟩, ?_,
    fun hop name zone hget => newDNSOp_keys env w w₁ op hop name zone hget, by decide⟩
  · rw [findZone_eq] at h
    exact findSome?_longest _ _ zone (labelSuffixes_pairwise _) h
  · obtain ⟨name, hname, hget, hmax⟩ := h
    cases hfind : findZone o fqdn with
    | none =>
      rw [findZone_eq, List.findSome?_eq_none_iff] at hfind
      rw [hfind name hname] at hget
      cases hget
    | some zone' =>
      rw [findZone_eq] at hfind
      obtain ⟨name', hname', hget', hmax'⟩ :=
        findSome?_longest _ _ zone' (labelSuffixes_pairwise _) hfind
      have h₁ := hmax name' hname' (by rw [hget']; exact Option.some_ne_none _)
      have h₂ := hmax' name hname (by rw [hget]; exact Option.some_ne_none _)
      have hlen : name.length = name'.length := Nat.le_antisymm h₂ h₁
      have hsame : name = name' :=
        eq_of_length_eq_of_pairwise _ (labelSuffixes_pairwise _) name hname name' hname' hlen
      rw [hsame, hget'] at hget
      exact hget.symm ▸ rfl
  · rw [findZone_eq, List.findSome?_eq_none_iff]

theorem C16_zone_resolution_witness :
    newDNSOp (storeEnv [zoneEx, zoneSub]) emptyStore =
      (.ok twoZones, { backend := [], calls := [Call.listZones] }) ∧
    findZone twoZones "other.org" = none ∧
    ∀ name zone, twoZones.zones.get? name = some zone → EnsureDotSuffix zone.name = name :=
  ⟨rfl,
   (C16_zone_resolution (storeEnv [zoneEx, zoneSub]) emptyStore
      { backend := [], calls := [Call.listZones] } twoZones twoZones "other.org").2.2.1.2
      (by decide),
   (C16_zone_resolution (storeEnv [zoneEx, zoneSub]) emptyStore
      { backend := [], calls := [Call.listZones] } twoZones twoZones "other.org").2.2.2.1
      rfl⟩

/-! ## FQDNs without a trailing dot -/

/-- C17 (counterexample). In the basic scenario the record set submitted by `add` has the
name `a.ex.com`, the FQDN as the producer wrote it, not its dot-terminated form
`a.ex.com.`. -/
theorem C17_name_submitted_as_written :
    (run (storeEnv [zoneEx]) (DNSController.fresh, emptyStore) basicHistory).2.calls =
      [Call.listZones,
       Call.add zoneEx { name := "a.ex.com", rrdatas := ["1.2.3.4"], ttl := 60, type := "A" }] ∧
    EnsureDotSuffix "a.ex.com" = "a.ex.com." ∧
    ("a.ex.com" : String) ≠ "a.ex.com." := by
  decide

theorem hasDotSuffix_EnsureDotSuffix (s : String) : hasDotSuffix (EnsureDotSuffix s) = true := by
  unfold EnsureDotSuffix
  cases h : hasDotSuffix s with
  | true => simpa using h
  | false => simp [hasDotSuffix]

theorem deleteRecordsLoop_of_no_dot {β : Type} (env : Env β) (zone : Zone) (k : recordKey)
    (hk : hasDotSuffix k.FQDN = false) :
    ∀ (rrs : List ResourceRecordSet) (errors : List Err) (w : World β),
      deleteRecordsLoop env zone k rrs errors w = (errors, w)
  | [], _, _ => rfl
  | rr :: rrs, errors, w => by
    have hne : EnsureDotSuffix rr.name ≠ k.FQDN := by
      intro h
      have := hasDotSuffix_EnsureDotSuffix rr.name
      rw [h, hk] at this
      cases this
    unfold deleteRecordsLoop
    simp only [hne, ne_eq, not_false_eq_true, if_true]
    exact deleteRecordsLoop_of_no_dot env zone k hk rrs errors w

/-- C18 (failing input). In the deletion scenario the second iteration lists the zones
and the record sets of `ex.com.` and makes no `remove` call: the record set `a.ex.com`
that the first iteration added is skipped, since its dot-terminated name is compared
with the key's FQDN as written; the iteration returns nil and stores the snapshot.
Whatever the backend lists, the loop of `deleteRecords` removes nothing for a key whose
FQDN has no trailing dot. -/
theorem C18_vanished_key_not_removed :
    (run (storeEnv [zoneEx]) (DNSController.fresh, emptyStore) deletionHistory).2.calls =
      [Call.listZones,
       Call.add zoneEx { name := "a.ex.com", rrdatas := ["1.2.3.4"], ttl := 60, type := "A" },
       Call.listZones,
       Call.listRecordSets zoneEx] ∧
    (runOnce (storeEnv [zoneEx]) RangeOrder.stored
        (run (storeEnv [zoneEx]) (DNSController.fresh, emptyStore) emptiedHistory).1
        (run (storeEnv [zoneEx]) (DNSController.fresh, emptyStore) emptiedHistory).2).err =
      none ∧
    deletesOf RangeOrder.stored
        (run (storeEnv [zoneEx]) (DNSController.fresh, emptyStore) emptiedHistory).1
        { version := 2, records := [], aliasTargets := [], recordValues := [] } =
      [keyA] ∧
    ∀ (rrs : List ResourceRecordSet) (errors : List Err) (w : World Store),
      deleteRecordsLoop (storeEnv [zoneEx]) zoneEx keyA rrs errors w = (errors, w) :=
  ⟨by decide, by decide, by decide,
   deleteRecordsLoop_of_no_dot (storeEnv [zoneEx]) zoneEx keyA (by decide)⟩

/-- C20 (counterexample). Two records of type A whose FQDNs are `a.ex.com` and
`a.ex.com.` get two keys in the value map, and two record sets are submitted. -/
theorem C20_dot_twins_not_unioned :
    (snapshotIfChangedAndReady RangeOrder.stored dotTwins).map
        (computeRecordValues RangeOrder.stored) =
      some [({ RecordType := "A", FQDN := "a.ex.com" }, ["1.2.3.4"]),
            ({ RecordType := "A", FQDN := "a.ex.com." }, ["5.6.7.8"])] ∧
    (runOnce (storeEnv [zoneEx]) RangeOrder.stored dotTwins emptyStore).world.calls =
      [Call.listZones,
       Call.add zoneEx { name := "a.ex.com", rrdatas := ["1.2.3.4"], ttl := 60, type := "A" },
       Call.add zoneEx { name := "a.ex.com.", rrdatas := ["5.6.7.8"], ttl := 60, type := "A" }] := by
  decide

/-! ## The record sets submitted -/

theorem addFor_isAdd (op : dnsOp) (e : recordKey × List String) :
    (addFor op e).filter Call.isAdd = addFor op e := by
  unfold addFor
  split
  · split <;> rfl
  · rfl

theorem updateRecords_calls_eq {β : Type} (env : Env β) (op : dnsOp) (k : recordKey)
    (v : List String) (w : World β) :
    (updateRecords env op k v 60 w).2.calls = w.calls ++ addFor op (k, v) := by
  unfold updateRecords addFor
  cases hz : findZone op k.FQDN with
  | none => simp
  | some zone =>
    cases hsup : zone.supportsRecordSets with
    | false => simp [hsup]
    | true =>
      simp only [hsup, Bool.not_true, Bool.false_eq_true, if_false, if_true]
      cases hcall : env.callAdd zone
          { name := k.FQDN, rrdatas := v, ttl := 60, type := k.RecordType } w with
      | mk r w' =>
        have hw : w'.calls = w.calls ++ [Call.add zone
            { name := k.FQDN, rrdatas := v, ttl := 60, type := k.RecordType }] := by
          have : (env.callAdd zone
              { name := k.FQDN, rrdatas := v, ttl := 60, type := k.RecordType } w).2.calls =
              w.calls ++ [Call.add zone
                { name := k.FQDN, rrdatas := v, ttl := 60, type := k.RecordType }] := rfl
          rw [hcall] at this
          exact this
        cases r <;> exact hw

theorem deleteRecordsLoop_adds {β : Type} (env : Env β) (zone : Zone) (k : recordKey) :
    ∀ (rrs : List ResourceRecordSet) (errors : List Err) (w : World β),
      (deleteRecordsLoop env zone k rrs errors w).2.calls.filter Call.isAdd =
        w.calls.filter Call.isAdd
  | [], _, _ => rfl
  | rr :: rrs, errors, w => by
    unfold deleteRecordsLoop
    simp only
    split
    · exact deleteRecordsLoop_adds env zone k rrs _ _
    · split
      · exact deleteRecordsLoop_adds env zone k rrs _ _
      · have hrem : (env.callRemove zone rr w).2.calls.filter Call.isAdd =
            w.calls.filter Call.isAdd := by
          simp [Env.callRemove, List.filter_append, Call.isAdd]
        cases hcall : env.callRemove zone rr w with
        | mk r w' =>
          rw [hcall] at hrem
          cases r with
          | none => rw [deleteRecordsLoop_adds env zone k rrs _ _]; exact hrem
          | some err => rw [deleteRecordsLoop_adds env zone k rrs _ _]; exact hrem

theorem deleteRecords_adds {β : Type} (env : Env β) (op : dnsOp) (k : recordKey)
    (w : World β) :
    (deleteRecords env op k w).2.calls.filter Call.isAdd = w.calls.filter Call.isAdd := by
  unfold deleteRecords
  split
  · rfl
  · split
    · rfl
    · rename_i zone _ _
      have hlist : (env.callRrsList zone w).2.calls.filter Call.isAdd =
          w.calls.filter Call.isAdd := by
        simp [Env.callRrsList, List.filter_append, Call.isAdd]
      cases hcall : env.callRrsList zone w with
      | mk r w' =>
        rw [hcall] at hlist
        cases r with
        | error err => exact hlist
        | ok rrs =>
          have hloop := deleteRecordsLoop_adds env zone k rrs [] w'
          simp only
          cases hl : deleteRecordsLoop env zone k rrs [] w' with
          | mk errs w'' =>
            rw [hl] at hloop
            exact hloop.trans hlist

theorem invokeUpdate_adds {β : Type} (env : Env β) (op : dnsOp) (acc : List Err × World β)
    (e : recordKey × List String) :
    (invokeUpdate env op acc e).2.calls.filter Call.isAdd =
      acc.2.calls.filter Call.isAdd ++ addFor op e := by
  have h := updateRecords_calls_eq env op e.1 e.2 acc.2
  unfold invokeUpdate
  cases hcall : updateRecords env op e.1 e.2 60 acc.2 with
  | mk r w' =>
    rw [hcall] at h
    have hw : w'.calls.filter Call.isAdd = acc.2.calls.filter Call.isAdd ++ addFor op e := by
      have h' : w'.calls = acc.2.calls ++ addFor op e := h
      rw [h', List.filter_append, addFor_isAdd]
    cases r <;> exact hw

theorem invokeDelete_adds {β : Type} (env : Env β) (op : dnsOp) (acc : List Err × World β)
    (k : recordKey) :
    (invokeDelete env op acc k).2.calls.filter Call.isAdd =
      acc.2.calls.filter Call.isAdd := by
  have h := deleteRecords_adds env op k acc.2
  unfold invokeDelete
  cases hcall : deleteRecords env op k acc.2 with
  | mk r w' =>
    rw [hcall] at h
    cases r <;> exact h

theorem foldUpdate_adds {β : Type} (env : Env β) (op : dnsOp) :
    ∀ (l : List (recordKey × List String)) (acc : List Err × World β),
      (l.foldl (invokeUpdate env op) acc).2.calls.filter Call.isAdd =
        acc.2.calls.filter Call.isAdd ++ l.flatMap (addFor op)
  | [], _ => by simp
  | e :: l, acc => by
    rw [List.foldl_cons, foldUpdate_adds env op l, invokeUpdate_adds, List.flatMap_cons,
      List.append_assoc]

theorem foldDelete_adds {β : Type} (env : Env β) (op : dnsOp) :
    ∀ (l : List recordKey) (acc : List Err × World β),
      (l.foldl (invokeDelete env op) acc).2.calls.filter Call.isAdd =
        acc.2.calls.filter Call.isAdd
  | [], _ => rfl
  | k :: l, acc => by
    rw [List.foldl_cons, foldDelete_adds env op l, invokeDelete_adds]

theorem updatesOf_values (ord : RangeOrder) (c : DNSController) (s : snapshot)
    (hs : snapshotIfChangedAndReady ord c = some s) (k : recordKey) (v : List String)
    (h : (k, v) ∈ updatesOf ord c s) :
    v = sortStrings (contributed c.scopes k) ∧ contributed c.scopes k ≠ [] := by
  have hget := ((mem_updatesOf ord c s (k, v)).1 h).1
  rw [recordValues_of_registry ord c s hs k] at hget
  split at hget
  · cases hget
  · rename_i hne
    cases hget
    exact ⟨rfl, hne⟩

/-- C17 (amended). In a `runOnce` that builds a snapshot, lists the zones and is never
asked to stop, the `add` calls issued are exactly one for each key to update whose FQDN
has a zone with record sets, in visiting order, each key once; the record set submitted
for the key `{T, f}` has the name `f` as it is written in the key (it is not given a
trailing dot), the type `T`, TTL 60 and as rdata the sorted list of the key's values. -/
theorem C17_record_emission {β : Type} (env : Env β) (ord : RangeOrder)
    (c : DNSController) (w w₁ : World β) (s : snapshot) (op : dnsOp)
    (hs : snapshotIfChangedAndReady ord c = some s) (hquiet : NeverStops env)
    (hop : newDNSOp env w = (.ok op, w₁)) :
    (runOnce env ord c w).world.calls.filter Call.isAdd =
      w.calls.filter Call.isAdd ++ (updatesOf ord c s).flatMap (addFor op) ∧
    ((updatesOf ord c s).map Prod.fst).Nodup ∧
    (∀ k v, (k, v) ∈ updatesOf ord c s →
      v = sortStrings (contributed c.scopes k) ∧ v.Sorted strLe) ∧
    (∀ k v zone, findZone op k.FQDN = some zone → zone.supportsRecordSets = true →
      addFor op (k, v) =
        [Call.add zone { name := k.FQDN, rrdatas := v, ttl := 60, type := k.RecordType }]) := by
  refine ⟨?_, ?_, fun k v h => ?_, fun k v zone hz hsup => ?_⟩
  · rw [runOnce_script env ord c w w₁ s op hs hquiet hop, finish_world]
    unfold applyScript
    rw [foldDelete_adds, foldUpdate_adds]
    have hw₁ : w₁.calls = w.calls ++ [Call.listZones] := by
      have := newDNSOp_calls env w
      rw [hop] at this
      exact this
    rw [hw₁, List.filter_append,
      show List.filter Call.isAdd [Call.listZones] = [] from rfl, List.append_nil]
    rfl
  · exact toUpdate_keys_nodup _ _ (order_keys_nodup _ _ (computeRecordValues_nodup ord s))
  · have hv := (updatesOf_values ord c s hs k v h).1
    exact ⟨hv, hv ▸ sortStrings_sorted _⟩
  · simp [addFor, hz, hsup]

theorem C17_record_emission_witness :
    snapshotIfChangedAndReady RangeOrder.stored readyOne = some readyOneSnapshot ∧
    NeverStops quietEnv ∧
    newDNSOp quietEnv emptyWorld = (.ok quietOp, listedWorld) ∧
    (runOnce quietEnv RangeOrder.stored readyOne emptyWorld).world.calls.filter Call.isAdd =
      [Call.add quietZone
        { name := "a.ex.com", rrdatas := ["1.2.3.4"], ttl := 60, type := "A" }] :=
  ⟨by decide, NeverStops_quietEnv, rfl,
   (C17_record_emission quietEnv RangeOrder.stored readyOne emptyWorld listedWorld
      readyOneSnapshot quietOp (by decide) NeverStops_quietEnv rfl).1.trans (by decide)⟩

/-! ## Keys are FQDNs as written -/

/-- C20 (amended). The FQDN of a key is the FQDN of the contributing record exactly as
written: every record that is neither an alias nor an alias target has its value in the
entry of the key made of its type and its FQDN as written; every key of the value map
has the FQDN, as written, of a record of the registry that is not an alias target; the
entry of a key is the sorted list of the values contributed to that very key; a record
contributes only to keys with its own FQDN string, a plain record to the one key of its
type and FQDN, an alias to the keys of its targets' types and its own FQDN; so records
whose FQDNs differ, be it only by a trailing dot, never contribute to the same key. In a
`runOnce` that lists the zones and is never asked to stop, the `add` calls are one for
each key to update with a zone with record sets, each key once, and each submits a
record set named by the key's FQDN as written. -/
theorem C20_keys_as_written {β : Type} (env : Env β) (ord : RangeOrder)
    (c : DNSController) (w w₁ : World β) (s : snapshot) (op : dnsOp)
    (hs : snapshotIfChangedAndReady ord c = some s) :
    (∀ r ∈ allRecords c.scopes, r.AliasTarget = false → r.RecordType ≠ RecordTypeAlias →
      r.Value ∈ (computeRecordValues ord s).getD
        { RecordType := r.RecordType, FQDN := r.FQDN }) ∧
    (∀ k, GoMap.get? (computeRecordValues ord s) k ≠ none →
      ∃ r ∈ allRecords c.scopes, r.AliasTarget = false ∧ r.FQDN = k.FQDN) ∧
    (∀ k, GoMap.get? (computeRecordValues ord s) k =
      if contributed c.scopes k = [] then none
      else some (sortStrings (contributed c.scopes k))) ∧
    (∀ r k, contribution (targetsNamed (allRecords c.scopes)) r k ≠ [] →
      k.FQDN = r.FQDN) ∧
    (∀ r k, r.RecordType ≠ RecordTypeAlias →
      (contribution (targetsNamed (allRecords c.scopes)) r k ≠ [] ↔
        k = { RecordType := r.RecordType, FQDN := r.FQDN })) ∧
    (∀ r k, r.RecordType = RecordTypeAlias →
      (contribution (targetsNamed (allRecords c.scopes)) r k ≠ [] ↔
        k.FQDN = r.FQDN ∧
          ∃ t ∈ targetsNamed (allRecords c.scopes) r.Value, t.RecordType = k.RecordType)) ∧
    (∀ r₁ r₂ k, r₁.FQDN ≠ r₂.FQDN →
      ¬ (contribution (targetsNamed (allRecords c.scopes)) r₁ k ≠ [] ∧
          contribution (targetsNamed (allRecords c.scopes)) r₂ k ≠ [])) ∧
    (NeverStops env → newDNSOp env w = (.ok op, w₁) →
      (runOnce env ord c w).world.calls.filter Call.isAdd =
          w.calls.filter Call.isAdd ++ (updatesOf ord c s).flatMap (addFor op) ∧
        ((updatesOf ord c s).map Prod.fst).Nodup ∧
        (∀ e ∈ updatesOf ord c s, ∀ call ∈ addFor op e, ∃ zone,
          addFor op e = [call] ∧
          call = Call.add zone
            { name := e.1.FQDN, rrdatas := e.2, ttl := 60, type := e.1.RecordType }) ∧
        ∀ k v zone, findZone op k.FQDN = some zone → zone.supportsRecordSets = true →
          addFor op (k, v) =
            [Call.add zone
              { name := k.FQDN, rrdatas := v, ttl := 60, type := k.RecordType }]) := by
  refine ⟨fun r hr htarget halias => ?_, fun k hk => ?_,
    fun k => recordValues_of_registry ord c s hs k,
    fun r k h => (contribution_fqdn _ r k h).symm, fun r k halias => ?_,
    fun r k halias => ?_, fun r₁ r₂ k hne hboth => ?_,
    fun hquiet hop => ⟨?_, ?_, ?_, fun k v zone hz hsup => by simp [addFor, hz, hsup]⟩⟩
  · have hmem : r.Value ∈ contributed c.scopes
        { RecordType := r.RecordType, FQDN := r.FQDN } := by
      unfold contributed
      refine List.mem_flatMap.2 ⟨r, List.mem_filter.2 ⟨hr, by simp [htarget]⟩, ?_⟩
      simp [contribution, halias]
    rw [GoMap.getD, recordValues_of_registry ord c s hs, if_neg (List.ne_nil_of_mem hmem)]
    exact (sortStrings_perm _).mem_iff.2 hmem
  · have hrec := (snapshot_contents ord c s hs).1
    rw [computeRecordValues_get?] at hk
    split at hk
    · exact absurd rfl hk
    · rename_i hne
      obtain ⟨v, hv⟩ := List.exists_mem_of_ne_nil _ hne
      obtain ⟨r, hr, hvr⟩ := List.mem_flatMap.1 hv
      rw [hrec] at hr
      have h := List.mem_filter.1 hr
      exact ⟨r, (visitedRecords_perm ord c.scopes).mem_iff.1 h.1, by simpa using h.2,
        contribution_fqdn _ r k (List.ne_nil_of_mem hvr)⟩
  · unfold contribution
    rw [if_neg halias]
    by_cases hk : ({ RecordType := r.RecordType, FQDN := r.FQDN } : recordKey) = k
    · rw [if_pos hk]
      exact ⟨fun _ => hk.symm, fun _ => List.cons_ne_nil _ _⟩
    · rw [if_neg hk]
      exact ⟨fun h => absurd rfl h, fun h => absurd h.symm hk⟩
  · unfold contribution
    rw [if_pos halias]
    constructor
    · intro h
      obtain ⟨v, hv⟩ := List.exists_mem_of_ne_nil _ h
      obtain ⟨t, ht, _⟩ := List.mem_map.1 hv
      obtain ⟨ht₁, ht₂⟩ := List.mem_filter.1 ht
      have hk : ({ RecordType := t.RecordType, FQDN := r.FQDN } : recordKey) = k := by
        simpa using ht₂
      exact ⟨by rw [← hk], t, ht₁, by rw [← hk]⟩
    · rintro ⟨hf, t, ht, htype⟩
      have hk : ({ RecordType := t.RecordType, FQDN := r.FQDN } : recordKey) = k := by
        cases k
        simp only at hf htype
        rw [hf, htype]
      exact List.ne_nil_of_mem
        (List.mem_map_of_mem _ (List.mem_filter.2 ⟨ht, by simp [hk]⟩))
  · exact hne ((contribution_fqdn _ r₁ k hboth.1).trans
      (contribution_fqdn _ r₂ k hboth.2).symm)
  · rw [runOnce_script env ord c w w₁ s op hs hquiet hop, finish_world]
    unfold applyScript
    rw [foldDelete_adds, foldUpdate_adds]
    have hw₁ : w₁.calls = w.calls ++ [Call.listZones] := by
      have := newDNSOp_calls env w
      rw [hop] at this
      exact this
    rw [hw₁, List.filter_append,
      show List.filter Call.isAdd [Call.listZones] = [] from rfl, List.append_nil]
    rfl
  · exact toUpdate_keys_nodup _ _ (order_keys_nodup _ _ (computeRecordValues_nodup ord s))
  · intro e _ call hcall
    unfold addFor at hcall ⊢
    cases hz : findZone op e.1.FQDN with
    | none =>
      rw [hz] at hcall
      cases hcall
    | some zone =>
      rw [hz] at hcall
      cases hsup : zone.supportsRecordSets with
      | false =>
        simp [hsup] at hcall
      | true =>
        simp only [hsup, if_true, List.mem_singleton] at hcall
        exact ⟨zone, by simp [hsup, hcall], hcall⟩

theorem C20_keys_as_written_witness :
    snapshotIfChangedAndReady RangeOrder.stored dotTwins =
      some { version := 2, records := [recA, recADot], aliasTargets := [],
             recordValues := [] } ∧
    recADot.Value ∈ (computeRecordValues RangeOrder.stored
      { version := 2, records := [recA, recADot], aliasTargets := [],
        recordValues := [] }).getD { RecordType := "A", FQDN := "a.ex.com." } ∧
    NeverStops quietEnv ∧
    newDNSOp quietEnv emptyWorld = (.ok quietOp, listedWorld) ∧
    (runOnce quietEnv RangeOrder.stored dotTwins emptyWorld).world.calls.filter Call.isAdd =
      emptyWorld.calls.filter Call.isAdd ++
        (updatesOf RangeOrder.stored dotTwins
          { version := 2, records := [recA, recADot], aliasTargets := [],
            recordValues := [] }).flatMap (addFor quietOp) ∧
    (runOnce quietEnv RangeOrder.stored dotTwins emptyWorld).world.calls =
      [Call.listZones,
       Call.add quietZone
         { name := "a.ex.com", rrdatas := ["1.2.3.4"], ttl := 60, type := "A" },
       Call.add quietZone
         { name := "a.ex.com.", rrdatas := ["5.6.7.8"], ttl := 60, type := "A" }] :=
  ⟨by decide,
   (C20_keys_as_written quietEnv RangeOrder.stored dotTwins emptyWorld listedWorld
      { version := 2, records := [recA, recADot], aliasTargets := [], recordValues := [] }
      quietOp (by decide)).1 recADot (by decide) rfl (by decide),
   NeverStops_quietEnv, rfl,
   ((C20_keys_as_written quietEnv RangeOrder.stored dotTwins emptyWorld listedWorld
      { version := 2, records := [recA, recADot], aliasTargets := [], recordValues := [] }
      quietOp (by decide)).2.2.2.2.2.2.2 NeverStops_quietEnv rfl).1,
   by decide⟩

/-! ## Convergence on an upsert backend -/

theorem EnsureDotSuffix_of_dot (s : String) (h : hasDotSuffix s = true) :
    EnsureDotSuffix s = s := by
  simp [EnsureDotSuffix, h]

theorem storeEnv_update (zones : List Zone) (op : dnsOp) (k : recordKey) (v : List String)
    (w : World Store) (z : Zone) (hz : findZone op k.FQDN = some z)
    (hsup : z.supportsRecordSets = true) :
    updateRecords (storeEnv zones) op k v 60 w =
      (none,
        { backend := w.backend.filter (fun e => !Store.holds z (entryOf z k v).2 e) ++
            [entryOf z k v],
          calls := w.calls ++ [Call.add z (entryOf z k v).2] }) := by
  unfold updateRecords
  simp only [hz, hsup, Bool.not_true, Bool.false_eq_true, if_false]
  rfl

theorem storeEnv_update_error (zones : List Zone) (op : dnsOp) (k : recordKey)
    (v : List String) (w : World Store)
    (h : ∀ z, findZone op k.FQDN = some z → z.supportsRecordSets = false) :
    ∃ err, (updateRecords (storeEnv zones) op k v 60 w).1 = some err := by
  unfold updateRecords
  cases hz : findZone op k.FQDN with
  | none => exact ⟨_, rfl⟩
  | some z =>
    simp only [h z hz, Bool.not_false, if_true]
    exact ⟨_, rfl⟩

theorem recordKey_eq_of (k k' : recordKey) (hf : k'.FQDN = k.FQDN)
    (ht : k'.RecordType = k.RecordType) : k' = k := by
  cases k
  cases k'
  simp only at hf ht
  rw [hf, ht]

theorem holds_entryOf (z z' : Zone) (k k' : recordKey) (v v' : List String)
    (h : Store.holds z (entryOf z k v).2 (entryOf z' k' v') = true) : k' = k := by
  simp only [Store.holds, entryOf, Bool.and_eq_true, decide_eq_true_eq] at h
  exact recordKey_eq_of k k' h.1.2 h.2

theorem Reflects_update (op : dnsOp) (M : recordKey → Option (List String)) (b : Store)
    (k : recordKey) (v : List String) (z : Zone) (h : Reflects op M b)
    (hz : findZone op k.FQDN = some z) (hsup : z.supportsRecordSets = true)
    (hdot : hasDotSuffix k.FQDN = true) :
    Reflects op (Function.update M k (some v))
      (b.filter (fun e => !Store.holds z (entryOf z k v).2 e) ++ [entryOf z k v]) := by
  refine ⟨fun k' v' hk' => ?_, fun e => ⟨fun he => ?_, fun he => ?_⟩⟩
  · by_cases hkk : k' = k
    · subst hkk
      exact ⟨hdot, z, hz, hsup⟩
    · rw [Function.update_noteq hkk] at hk'
      exact h.1 k' v' hk'
  · rcases List.mem_append.1 he with he' | he'
    · obtain ⟨heb, hnh⟩ := List.mem_filter.1 he'
      obtain ⟨k', v', z', hM, hz', rfl⟩ := (h.2 e).1 heb
      have hkk : k' ≠ k := by
        intro hkk
        subst hkk
        rw [hz] at hz'
        cases hz'
        simp [Store.holds, entryOf] at hnh
      exact ⟨k', v', z', by rw [Function.update_noteq hkk]; exact hM, hz', rfl⟩
    · rw [List.mem_singleton] at he'
      exact ⟨k, v, z, by rw [Function.update_same], hz, he'⟩
  · obtain ⟨k', v', z', hM, hz', rfl⟩ := he
    by_cases hkk : k' = k
    · subst hkk
      rw [Function.update_same] at hM
      cases hM
      rw [hz] at hz'
      cases hz'
      exact List.mem_append_right _ (List.mem_singleton_self _)
    · rw [Function.update_noteq hkk] at hM
      refine List.mem_append_left _ (List.mem_filter.2 ⟨(h.2 _).2 ⟨k', v', z', hM, hz', rfl⟩, ?_⟩)
      cases hh : Store.holds z (entryOf z k v).2 (entryOf z' k' v') with
      | false => rfl
      | true => exact absurd (holds_entryOf z z' k k' v v' hh) hkk

theorem storeEnv_deleteLoop (zones : List Zone) (z : Zone) (k : recordKey) :
    ∀ (rrs : List ResourceRecordSet) (errors : List Err) (w : World Store),
      (deleteRecordsLoop (storeEnv zones) z k rrs errors w).1 = errors ∧
      ∀ e, e ∈ (deleteRecordsLoop (storeEnv zones) z k rrs errors w).2.backend ↔
        e ∈ w.backend ∧ ∀ rr ∈ rrs, EnsureDotSuffix rr.name = k.FQDN →
          rr.type = k.RecordType → Store.holds z rr e = false
  | [], errors, w => ⟨rfl, fun e => by simp [deleteRecordsLoop]⟩
  | rr :: rrs, errors, w => by
    unfold deleteRecordsLoop
    simp only
    by_cases hn : EnsureDotSuffix rr.name = k.FQDN
    · by_cases ht : rr.type = k.RecordType
      · simp only [hn, ht, ne_eq, not_true_eq_false, if_false]
        have hrem : (storeEnv zones).callRemove z rr w =
            (none, { backend := w.backend.filter (fun e => !Store.holds z rr e),
                     calls := w.calls ++ [Call.remove z rr] }) := rfl
        rw [hrem]
        simp only
        have ih := storeEnv_deleteLoop zones z k rrs errors
          { backend := w.backend.filter (fun e => !Store.holds z rr e),
            calls := w.calls ++ [Call.remove z rr] }
        refine ⟨ih.1, fun e => ?_⟩
        rw [ih.2 e]
        simp only [List.mem_filter, Bool.not_eq_true', List.mem_cons, forall_eq_or_imp]
        constructor
        · rintro ⟨⟨heb, hh⟩, hrest⟩
          exact ⟨heb, fun _ _ => hh, hrest⟩
        · rintro ⟨heb, hh, hrest⟩
          exact ⟨⟨heb, hh hn ht⟩, hrest⟩
      · simp only [hn, ht, ne_eq, not_true_eq_false, not_false_eq_true, if_false, if_true]
        have ih := storeEnv_deleteLoop zones z k rrs errors w
        refine ⟨ih.1, fun e => ?_⟩
        rw [ih.2 e]
        simp only [List.mem_cons, forall_eq_or_imp]
        constructor
        · rintro ⟨heb, hrest⟩
          exact ⟨heb, fun _ h => absurd h ht, hrest⟩
        · rintro ⟨heb, _, hrest⟩
          exact ⟨heb, hrest⟩
    · simp only [hn, ne_eq, not_false_eq_true, if_true]
      have ih := storeEnv_deleteLoop zones z k rrs errors w
      refine ⟨ih.1, fun e => ?_⟩
      rw [ih.2 e]
      simp only [List.mem_cons, forall_eq_or_imp]
      constructor
      · rintro ⟨heb, hrest⟩
        exact ⟨heb, fun h => absurd h hn, hrest⟩
      · rintro ⟨heb, _, hrest⟩
        exact ⟨heb, hrest⟩

theorem storeEnv_delete (zones : List Zone) (op : dnsOp) (k : recordKey) (w : World Store)
    (z : Zone) (hz : findZone op k.FQDN = some z) (hsup : z.supportsRecordSets = true) :
    (deleteRecords (storeEnv zones) op k w).1 = none ∧
    ∀ e, e ∈ (deleteRecords (storeEnv zones) op k w).2.backend ↔
      e ∈ w.backend ∧
        ∀ rr ∈ (w.backend.filter (fun e => decide (e.1 = z.id))).map Prod.snd,
          EnsureDotSuffix rr.name = k.FQDN → rr.type = k.RecordType →
            Store.holds z rr e = false := by
  unfold deleteRecords
  simp only [hz, hsup, Bool.not_true, Bool.false_eq_true, if_false]
  have hlist : (storeEnv zones).callRrsList z w =
      (.ok ((w.backend.filter (fun e => decide (e.1 = z.id))).map Prod.snd),
        { backend := w.backend, calls := w.calls ++ [Call.listRecordSets z] }) := rfl
  rw [hlist]
  simp only
  have hloop := storeEnv_deleteLoop zones z k
    ((w.backend.filter (fun e => decide (e.1 = z.id))).map Prod.snd) []
    { backend := w.backend, calls := w.calls ++ [Call.listRecordSets z] }
  cases hl : deleteRecordsLoop (storeEnv zones) z k
      ((w.backend.filter (fun e => decide (e.1 = z.id))).map Prod.snd) []
      { backend := w.backend, calls := w.calls ++ [Call.listRecordSets z] } with
  | mk errs w' =>
    rw [hl] at hloop
    simp only at hloop ⊢
    rw [hloop.1]
    exact ⟨rfl, hloop.2⟩

theorem Reflects_delete (zones : List Zone) (op : dnsOp)
    (M : recordKey → Option (List String)) (w : World Store) (k : recordKey)
    (v₀ : List String) (h : Reflects op M w.backend) (hk : M k = some v₀) :
    (deleteRecords (storeEnv zones) op k w).1 = none ∧
      Reflects op (Function.update M k none)
        (deleteRecords (storeEnv zones) op k w).2.backend := by
  obtain ⟨hdot, z, hz, hsup⟩ := h.1 k v₀ hk
  obtain ⟨hnone, hmem⟩ := storeEnv_delete zones op k w z hz hsup
  refine ⟨hnone, fun k' v' hk' => ?_, fun e => ⟨fun he => ?_, fun he => ?_⟩⟩
  · by_cases hkk : k' = k
    · subst hkk
      rw [Function.update_same] at hk'
      cases hk'
    · rw [Function.update_noteq hkk] at hk'
      exact h.1 k' v' hk'
  · obtain ⟨heb, hall⟩ := (hmem e).1 he
    obtain ⟨k', v', z', hM, hz', rfl⟩ := (h.2 e).1 heb
    have hkk : k' ≠ k := by
      intro hkk
      subst hkk
      rw [hz] at hz'
      cases hz'
      have hin : (entryOf z k' v').2 ∈
          (w.backend.filter (fun e => decide (e.1 = z.id))).map Prod.snd :=
        List.mem_map_of_mem Prod.snd (List.mem_filter.2 ⟨heb, by simp [entryOf]⟩)
      have := hall _ hin (EnsureDotSuffix_of_dot _ hdot) rfl
      simp [Store.holds, entryOf] at this
    exact ⟨k', v', z', by rw [Function.update_noteq hkk]; exact hM, hz', rfl⟩
  · obtain ⟨k', v', z', hM, hz', rfl⟩ := he
    have hkk : k' ≠ k := by
      intro hkk
      subst hkk
      rw [Function.update_same] at hM
      cases hM
    rw [Function.update_noteq hkk] at hM
    refine (hmem _).2 ⟨(h.2 _).2 ⟨k', v', z', hM, hz', rfl⟩, fun rr hrr hname htype => ?_⟩
    cases hh : Store.holds z rr (entryOf z' k' v') with
    | false => rfl
    | true =>
      exfalso
      obtain ⟨e'', he'', hsnd⟩ := List.mem_map.1 hrr
      obtain ⟨k'', v'', z'', hM'', _, rfl⟩ := (h.2 e'').1 (List.mem_filter.1 he'').1
      subst hsnd
      have hdot'' := (h.1 k'' v'' hM'').1
      have hk'' : k'' = k := by
        apply recordKey_eq_of
        · have : EnsureDotSuffix k''.FQDN = k.FQDN := hname
          rw [EnsureDotSuffix_of_dot _ hdot''] at this
          exact this
        · exact htype
      subst hk''
      simp only [Store.holds, entryOf, Bool.and_eq_true, decide_eq_true_eq] at hh
      exact hkk (recordKey_eq_of k'' k' hh.1.2 hh.2)

theorem foldUpdate_reflects (zones : List Zone) (op : dnsOp) :
    ∀ (U : List (recordKey × List String)) (M : recordKey → Option (List String))
      (acc : List Err × World Store),
      Reflects op M acc.2.backend → (∀ e ∈ U, hasDotSuffix e.1.FQDN = true) →
      (U.foldl (invokeUpdate (storeEnv zones) op) acc).1 = [] →
      Reflects op (U.foldl (fun (M : recordKey → Option (List String)) (e : recordKey × List String) => Function.update M e.1 (some e.2)) M)
        (U.foldl (invokeUpdate (storeEnv zones) op) acc).2.backend
  | [], _, _, h, _, _ => h
  | e :: U, M, acc, h, hdot, hnil => by
    rw [List.foldl_cons] at hnil ⊢
    rw [List.foldl_cons]
    have hacc : (invokeUpdate (storeEnv zones) op acc e).1 = [] := by
      cases hacc : (invokeUpdate (storeEnv zones) op acc e).1 with
      | nil => rfl
      | cons err errs =>
        have hmono := (foldUpdate_mono (storeEnv zones) op U
          (invokeUpdate (storeEnv zones) op acc e)).1 err
          (by rw [hacc]; exact List.mem_cons_self _ _)
        rw [hnil] at hmono
        cases hmono
    have hzone : ∃ z, findZone op e.1.FQDN = some z ∧ z.supportsRecordSets = true := by
      by_contra hno
      obtain ⟨err, herr⟩ := storeEnv_update_error zones op e.1 e.2 acc.2 (fun z hz => by
        cases hsup : z.supportsRecordSets with
        | false => rfl
        | true => exact absurd ⟨z, hz, hsup⟩ hno)
      unfold invokeUpdate at hacc
      cases hupd : updateRecords (storeEnv zones) op e.1 e.2 60 acc.2 with
      | mk r w' =>
        rw [hupd] at hacc herr
        simp only at herr
        subst herr
        simp at hacc
    obtain ⟨z, hz, hsup⟩ := hzone
    have hstep : invokeUpdate (storeEnv zones) op acc e =
        (acc.1,
          { backend := acc.2.backend.filter (fun e' => !Store.holds z (entryOf z e.1 e.2).2 e') ++
              [entryOf z e.1 e.2],
            calls := acc.2.calls ++ [Call.add z (entryOf z e.1 e.2).2] }) := by
      unfold invokeUpdate
      rw [storeEnv_update zones op e.1 e.2 acc.2 z hz hsup]
    rw [hstep] at hnil ⊢
    exact foldUpdate_reflects zones op U _ _
      (Reflects_update op M acc.2.backend e.1 e.2 z h hz hsup
        (hdot e (List.mem_cons_self _ _)))
      (fun e' he' => hdot e' (List.mem_cons_of_mem _ he')) hnil

theorem foldDelete_reflects (zones : List Zone) (op : dnsOp) :
    ∀ (D : List recordKey) (M : recordKey → Option (List String))
      (acc : List Err × World Store),
      Reflects op M acc.2.backend → D.Nodup → (∀ k ∈ D, M k ≠ none) → acc.1 = [] →
      (D.foldl (invokeDelete (storeEnv zones) op) acc).1 = [] ∧
      Reflects op (D.foldl (fun (M : recordKey → Option (List String)) (k : recordKey) => Function.update M k none) M)
        (D.foldl (invokeDelete (storeEnv zones) op) acc).2.backend
  | [], _, _, h, _, _, hnil => ⟨hnil, h⟩
  | k :: D, M, acc, h, hnd, hsome, hnil => by
    rw [List.foldl_cons, List.foldl_cons]
    rw [List.nodup_cons] at hnd
    obtain ⟨v₀, hv₀⟩ := Option.ne_none_iff_exists'.1 (hsome k (List.mem_cons_self _ _))
    obtain ⟨hnone, hrefl⟩ := Reflects_delete zones op M acc.2 k v₀ h hv₀
    have hstep : invokeDelete (storeEnv zones) op acc k =
        (acc.1, (deleteRecords (storeEnv zones) op k acc.2).2) := by
      unfold invokeDelete
      cases hdel : deleteRecords (storeEnv zones) op k acc.2 with
      | mk r w' =>
        rw [hdel] at hnone
        simp only at hnone
        subst hnone
        rfl
    rw [hstep]
    exact foldDelete_reflects zones op D _ _ hrefl hnd.2
      (fun k' hk' => by
        have hne : k' ≠ k := fun e => hnd.1 (e ▸ hk')
        rw [Function.update_noteq hne]
        exact hsome k' (List.mem_cons_of_mem _ hk'))
      hnil

theorem foldl_update_none (k : recordKey) :
    ∀ (D : List recordKey) (M : recordKey → Option (List String)),
      (D.foldl (fun (M : recordKey → Option (List String)) (k : recordKey) => Function.update M k none) M) k = if k ∈ D then none else M k
  | [], _ => by simp
  | k' :: D, M => by
    rw [List.foldl_cons, foldl_update_none k D]
    by_cases hD : k ∈ D
    · simp [hD]
    · by_cases hk : k = k'
      · subst hk
        simp [hD]
      · simp [hD, hk, Function.update_noteq hk]

theorem foldl_update_some_of_mem :
    ∀ (U : List (recordKey × List String)) (M : recordKey → Option (List String)),
      (GoMap.keys U).Nodup → ∀ k v, (k, v) ∈ U →
        (U.foldl (fun (M : recordKey → Option (List String)) (e : recordKey × List String) => Function.update M e.1 (some e.2)) M) k = some v
  | [], _, _, _, _, h => by cases h
  | e :: U, M, hnd, k, v, h => by
    rw [List.foldl_cons]
    have hnd' : e.1 ∉ GoMap.keys U ∧ (GoMap.keys U).Nodup := by
      simpa [GoMap.keys] using hnd
    rcases List.mem_cons.1 h with rfl | h'
    · have : ∀ (U : List (recordKey × List String)) (M : recordKey → Option (List String)),
          k ∉ GoMap.keys U →
          (U.foldl (fun (M : recordKey → Option (List String)) (e : recordKey × List String) => Function.update M e.1 (some e.2)) M) k = M k := by
        intro U
        induction U with
        | nil => intro M _; rfl
        | cons e' U ih =>
          intro M hk
          have hk' : k ≠ e'.1 ∧ k ∉ GoMap.keys U := by
            simpa [GoMap.keys] using hk
          rw [List.foldl_cons, ih _ hk'.2, Function.update_noteq hk'.1]
      rw [this U _ hnd'.1, Function.update_same]
    · exact foldl_update_some_of_mem U _ hnd'.2 k v h'

theorem foldl_update_some_of_not_mem (k : recordKey) :
    ∀ (U : List (recordKey × List String)) (M : recordKey → Option (List String)),
      k ∉ GoMap.keys U →
        (U.foldl (fun (M : recordKey → Option (List String)) (e : recordKey × List String) => Function.update M e.1 (some e.2)) M) k = M k
  | [], _, _ => rfl
  | e :: U, M, hk => by
    have hk' : k ≠ e.1 ∧ k ∉ GoMap.keys U := by
      simpa [GoMap.keys] using hk
    rw [List.foldl_cons, foldl_update_some_of_not_mem k U _ hk'.2,
      Function.update_noteq hk'.1]

theorem computeRecordValues_ne_nil (ord : RangeOrder) (s : snapshot) (k : recordKey)
    (v : List String) (h : GoMap.get? (computeRecordValues ord s) k = some v) : v ≠ [] := by
  rw [computeRecordValues_get?] at h
  split at h
  · cases h
  · rename_i hne
    cases h
    intro hnil
    have hp := sortStrings_perm
      (s.records.flatMap (fun r => contribution s.aliasTargets.getD r k))
    rw [hnil] at hp
    exact hne hp.symm.eq_nil

theorem applied_eq_new (ord : RangeOrder) (c : DNSController) (s : snapshot)
    (k : recordKey) :
    ((deletesOf ord c s).foldl (fun (M : recordKey → Option (List String)) (k : recordKey) => Function.update M k none)
      ((updatesOf ord c s).foldl (fun (M : recordKey → Option (List String)) (e : recordKey × List String) => Function.update M e.1 (some e.2))
        (fun k => GoMap.get? (oldValues c) k))) k =
      GoMap.get? (computeRecordValues ord s) k := by
  have hUnd : (GoMap.keys (updatesOf ord c s)).Nodup :=
    toUpdate_keys_nodup _ _ (order_keys_nodup _ _ (computeRecordValues_nodup ord s))
  rw [foldl_update_none]
  by_cases hD : k ∈ deletesOf ord c s
  · rw [if_pos hD, ((mem_deletesOf ord c s k).1 hD).2]
  · rw [if_neg hD]
    by_cases hU : k ∈ GoMap.keys (updatesOf ord c s)
    · obtain ⟨e, he, rfl⟩ := List.mem_map.1 hU
      rw [foldl_update_some_of_mem _ _ hUnd e.1 e.2 he,
        ((mem_updatesOf ord c s e).1 he).1]
    · rw [foldl_update_some_of_not_mem k _ _ hU]
      cases hnew : GoMap.get? (computeRecordValues ord s) k with
      | none =>
        have hk : k ∉ GoMap.keys (oldValues c) := fun hk =>
          hD ((mem_deletesOf ord c s k).2 ⟨hk, hnew⟩)
        exact (GoMap.get?_eq_none_iff _ _).2 hk
      | some v =>
        have hv : v = (oldValues c).getD k := by
          by_contra hne
          exact hU (List.mem_map_of_mem Prod.fst
            ((mem_updatesOf ord c s (k, v)).2 ⟨hnew, hne⟩))
        have hne := computeRecordValues_ne_nil ord s k v hnew
        cases hold : GoMap.get? (oldValues c) k with
        | none =>
          rw [GoMap.getD, hold] at hv
          exact absurd hv hne
        | some v' =>
          rw [GoMap.getD, hold] at hv
          rw [hv]
          rfl

theorem computeRecordValues_key_source (ord : RangeOrder) (c : DNSController) (s : snapshot)
    (k : recordKey) (v : List String) (hs : snapshotIfChangedAndReady ord c = some s)
    (h : GoMap.get? (computeRecordValues ord s) k = some v) :
    ∃ r ∈ allRecords c.scopes, r.FQDN = k.FQDN := by
  rw [computeRecordValues_get?] at h
  split at h
  · cases h
  · rename_i hne
    obtain ⟨x, hx⟩ := List.exists_mem_of_ne_nil _ hne
    obtain ⟨r, hr, hxr⟩ := List.mem_flatMap.1 hx
    refine ⟨r, ?_, contribution_fqdn _ r k (List.ne_nil_of_mem hxr)⟩
    rw [(snapshot_contents ord c s hs).1] at hr
    exact (visitedRecords_perm ord c.scopes).mem_iff.1 (List.mem_filter.1 hr).1

theorem AllDotted_iff (c : DNSController) :
    AllDotted c ↔
      ∀ sc ∈ c.scopes, ∀ e ∈ sc.2.Records, ∀ r ∈ e.2, hasDotSuffix r.FQDN = true := by
  unfold AllDotted allRecords
  constructor
  · intro h sc hsc e he r hr
    exact h r (List.mem_flatMap.2 ⟨sc, hsc, List.mem_flatMap.2 ⟨e, he, hr⟩⟩)
  · intro h r hr
    obtain ⟨sc, hsc, hr'⟩ := List.mem_flatMap.1 hr
    obtain ⟨e, he, hr''⟩ := List.mem_flatMap.1 hr'
    exact h sc hsc e he r hr''

theorem getScope_dotted (c : DNSController) (scopeName : String) (h : AllDotted c) :
    AllDotted (getScope c scopeName).1 ∧
      ∀ e ∈ (getScope c scopeName).2.Records, ∀ r ∈ e.2, hasDotSuffix r.FQDN = true := by
  rw [AllDotted_iff] at h ⊢
  unfold getScope
  cases hget : c.scopes.get? scopeName with
  | some s =>
    exact ⟨h, fun e he r hr => h (scopeName, s) (GoMap.mem_of_get? _ _ _ hget) e he r hr⟩
  | none =>
    refine ⟨fun sc hsc e he r hr => ?_, fun e he => by cases he⟩
    rcases GoMap.mem_set _ _ _ _ hsc with hsc' | hsc'
    · subst hsc'
      cases he
    · exact h sc hsc' e he r hr

theorem MarkReady_dotted (c : DNSController) (scopeName : String) (ready : Bool)
    (h : AllDotted c) : AllDotted (MarkReady c scopeName ready) := by
  obtain ⟨h₁, h₂⟩ := getScope_dotted c scopeName h
  rw [AllDotted_iff] at h₁ ⊢
  intro sc hsc e he r hr
  rcases GoMap.mem_set _ _ _ _ hsc with hsc' | hsc'
  · subst hsc'
    exact h₂ e he r hr
  · exact h₁ sc hsc' e he r hr

theorem Replace_dotted (c : DNSController) (scopeName recordName : String)
    (records : List Record) (h : AllDotted c)
    (hrec : records.all (fun r => hasDotSuffix r.FQDN) = true) :
    AllDotted (Replace c scopeName recordName records) := by
  obtain ⟨h₁, h₂⟩ := getScope_dotted c scopeName h
  rw [AllDotted_iff] at h₁ ⊢
  intro sc hsc e he r hr
  rcases GoMap.mem_set _ _ _ _ hsc with hsc' | hsc'
  · subst hsc'
    by_cases hlen : records.length = 0
    · simp only [hlen, if_true] at he
      exact h₂ e (List.mem_of_mem_filter he) r hr
    · simp only [hlen, if_false] at he
      rcases GoMap.mem_set _ _ _ _ he with he' | he'
      · subst he'
        exact List.all_eq_true.1 hrec r hr
      · exact h₂ e he' r hr
  · exact h₁ sc hsc' e he r hr

theorem runOnce_dotted {β : Type} (env : Env β) (ord : RangeOrder) (c : DNSController)
    (w : World β) (h : AllDotted c) : AllDotted (runOnce env ord c w).controller := by
  rcases runOnce_controller env ord c w with h' | ⟨s, _, h'⟩
  · rw [h']
    exact h
  · rw [h']
    exact h

theorem oldValues_MarkReady (c : DNSController) (scopeName : String) (ready : Bool) :
    oldValues (MarkReady c scopeName ready) = oldValues c := by
  unfold oldValues
  rw [MarkReady_last]

theorem oldValues_Replace (c : DNSController) (scopeName recordName : String)
    (records : List Record) :
    oldValues (Replace c scopeName recordName records) = oldValues c := by
  unfold oldValues
  rw [Replace_last]

theorem newDNSOp_storeEnv (zones : List Zone) (w : World Store) :
    newDNSOp (storeEnv zones) w =
      (.ok (opOf zones), { backend := w.backend, calls := w.calls ++ [Call.listZones] }) :=
  rfl

theorem runOnce_storeEnv (zones : List Zone) (ord : RangeOrder) (c : DNSController)
    (w : World Store) (s : snapshot) (hs : snapshotIfChangedAndReady ord c = some s) :
    runOnce (storeEnv zones) ord c w =
      finish c (resolved ord s)
        (applyScript (storeEnv zones) (opOf zones) (updatesOf ord c s) (deletesOf ord c s)
          { backend := w.backend, calls := w.calls ++ [Call.listZones] }) :=
  runOnce_script (storeEnv zones) ord c w _ s (opOf zones) hs (fun _ => rfl)
    (newDNSOp_storeEnv zones w)

theorem applyScript_reflects (zones : List Zone) (ord : RangeOrder) (c : DNSController)
    (w : World Store) (s : snapshot) (hs : snapshotIfChangedAndReady ord c = some s)
    (hinv : Reflects (opOf zones) (fun k => GoMap.get? (oldValues c) k) w.backend)
    (hdot : AllDotted c) (hnd : BaselineNodup c)
    (hok : (applyScript (storeEnv zones) (opOf zones) (updatesOf ord c s) (deletesOf ord c s)
      w).1 = []) :
    Reflects (opOf zones) (fun k => GoMap.get? (computeRecordValues ord s) k)
      (applyScript (storeEnv zones) (opOf zones) (updatesOf ord c s) (deletesOf ord c s)
        w).2.backend := by
  unfold applyScript at hok ⊢
  have hU : ((updatesOf ord c s).foldl (invokeUpdate (storeEnv zones) (opOf zones))
      ([], w)).1 = [] := by
    cases hU : ((updatesOf ord c s).foldl (invokeUpdate (storeEnv zones) (opOf zones))
      ([], w)).1 with
    | nil => rfl
    | cons err errs =>
      have hmono := (foldDelete_mono (storeEnv zones) (opOf zones) (deletesOf ord c s)
        ((updatesOf ord c s).foldl (invokeUpdate (storeEnv zones) (opOf zones)) ([], w))).1
        err (by rw [hU]; exact List.mem_cons_self _ _)
      rw [hok] at hmono
      cases hmono
  have h₁ := foldUpdate_reflects zones (opOf zones) (updatesOf ord c s)
    (fun k => GoMap.get? (oldValues c) k) ([], w) hinv
    (fun e he => by
      obtain ⟨r, hr, hfq⟩ := computeRecordValues_key_source ord c s e.1 e.2 hs
        ((mem_updatesOf ord c s e).1 he).1
      rw [← hfq]
      exact hdot r hr)
    hU
  have h₂ := (foldDelete_reflects zones (opOf zones) (deletesOf ord c s) _ _ h₁
    (toDelete_nodup _ _ (order_keys_nodup _ _ (oldValues_nodup c hnd)))
    (fun k hk => by
      obtain ⟨hold, hnew⟩ := (mem_deletesOf ord c s k).1 hk
      have hkU : k ∉ GoMap.keys (updatesOf ord c s) := by
        intro hmem
        obtain ⟨e, he, hek⟩ := List.mem_map.1 hmem
        have := ((mem_updatesOf ord c s e).1 he).1
        rw [hek, hnew] at this
        cases this
      rw [foldl_update_some_of_not_mem k _ _ hkU]
      exact fun hnone => (GoMap.get?_eq_none_iff _ _).1 hnone hold)
    hU).2
  have hfun : (deletesOf ord c s).foldl
      (fun (M : recordKey → Option (List String)) (k : recordKey) => Function.update M k none)
      ((updatesOf ord c s).foldl
        (fun (M : recordKey → Option (List String)) (e : recordKey × List String) =>
          Function.update M e.1 (some e.2))
        (fun k => GoMap.get? (oldValues c) k)) =
      fun k => GoMap.get? (computeRecordValues ord s) k :=
    funext (applied_eq_new ord c s)
  rw [hfun] at h₂
  exact h₂

theorem runOnce_reflects (zones : List Zone) (ord : RangeOrder) (c : DNSController)
    (w : World Store)
    (hinv : Reflects (opOf zones) (fun k => GoMap.get? (oldValues c) k) w.backend)
    (hdot : AllDotted c) (hnd : BaselineNodup c)
    (hok : (runOnce (storeEnv zones) ord c w).err = none) :
    Reflects (opOf zones)
      (fun k => GoMap.get? (oldValues (runOnce (storeEnv zones) ord c w).controller) k)
      (runOnce (storeEnv zones) ord c w).world.backend := by
  cases hs : snapshotIfChangedAndReady ord c with
  | none =>
    rw [runOnce_of_snapshot_none _ ord c w hs]
    exact hinv
  | some s =>
    rw [runOnce_storeEnv zones ord c w s hs] at hok ⊢
    rw [finish_err] at hok
    have hnil : (applyScript (storeEnv zones) (opOf zones) (updatesOf ord c s)
        (deletesOf ord c s)
        { backend := w.backend, calls := w.calls ++ [Call.listZones] }).1 = [] := by
      cases hl : (applyScript (storeEnv zones) (opOf zones) (updatesOf ord c s)
        (deletesOf ord c s)
        { backend := w.backend, calls := w.calls ++ [Call.listZones] }).1 with
      | nil => rfl
      | cons err errs =>
        rw [hl] at hok
        cases hok
    have h := applyScript_reflects zones ord c
      { backend := w.backend, calls := w.calls ++ [Call.listZones] } s hs hinv hdot hnd hnil
    unfold finish
    rw [hnil]
    exact h

theorem run_reflects (zones : List Zone) :
    ∀ (steps : List Step) (c : DNSController) (w : World Store),
      Reflects (opOf zones) (fun k => GoMap.get? (oldValues c) k) w.backend →
      AllDotted c → BaselineNodup c → steps.all Step.dotted = true →
      allSucceed (storeEnv zones) (c, w) steps = true →
      Reflects (opOf zones)
          (fun k => GoMap.get? (oldValues (run (storeEnv zones) (c, w) steps).1) k)
          (run (storeEnv zones) (c, w) steps).2.backend ∧
        AllDotted (run (storeEnv zones) (c, w) steps).1 ∧
        BaselineNodup (run (storeEnv zones) (c, w) steps).1
  | [], _, _, hinv, hdot, hnd, _, _ => ⟨hinv, hdot, hnd⟩
  | st :: steps, c, w, hinv, hdot, hnd, hdots, hok => by
    rw [run_cons]
    rw [List.all_cons, Bool.and_eq_true] at hdots
    unfold allSucceed at hok
    rw [Bool.and_eq_true] at hok
    have hnd' := BaselineNodup_step (storeEnv zones) c w st hnd
    cases st with
    | markReady scopeName ready =>
      refine run_reflects zones steps _ _ ?_ (MarkReady_dotted c scopeName ready hdot) hnd'
        hdots.2 hok.2
      show Reflects (opOf zones)
        (fun k => GoMap.get? (oldValues (MarkReady c scopeName ready)) k) w.backend
      rw [oldValues_MarkReady]
      exact hinv
    | replace scopeName recordName records =>
      refine run_reflects zones steps _ _ ?_
        (Replace_dotted c scopeName recordName records hdot hdots.1) hnd' hdots.2 hok.2
      show Reflects (opOf zones)
        (fun k => GoMap.get? (oldValues (Replace c scopeName recordName records)) k) w.backend
      rw [oldValues_Replace]
      exact hinv
    | runOnce ord =>
      have herr : (runOnce (storeEnv zones) ord c w).err = none :=
        Option.isNone_iff_eq_none.1 hok.1
      exact run_reflects zones steps _ _
        (runOnce_reflects zones ord c w hinv hdot hnd herr)
        (runOnce_dotted (storeEnv zones) ord c w hdot) hnd' hdots.2 hok.2

theorem Reflects_empty (op : dnsOp) :
    Reflects op (fun k => GoMap.get? (oldValues DNSController.fresh) k) emptyStore.backend := by
  refine ⟨fun k v h => ?_, fun e => ⟨fun he => ?_, fun he => ?_⟩⟩
  · cases h
  · cases he
  · obtain ⟨k, v, z, h, _⟩ := he
    cases h

theorem allSucceed_append {β : Type} (env : Env β) :
    ∀ (steps : List Step) (cw : DNSController × World β) (steps' : List Step),
      allSucceed env cw (steps ++ steps') =
        (allSucceed env cw steps && allSucceed env (run env cw steps) steps')
  | [], _, _ => rfl
  | st :: steps, cw, steps' => by
    have ih := allSucceed_append env steps (step env cw st) steps'
    rw [List.cons_append, run_cons]
    show (_ && allSucceed env (step env cw st) (steps ++ steps')) =
      ((_ && allSucceed env (step env cw st) steps) && _)
    rw [ih, Bool.and_assoc]

/-- C19 (amended). Over the backend that is a store of record sets on which `add` is an
upsert and `remove` deletes the entry: for every history of `MarkReady`, `Replace` and
`runOnce` steps from the fresh controller and the empty store in which every record
given to `Replace` has a dot-terminated FQDN and no `runOnce` returns an error, when a
further `runOnce` builds a snapshot and returns nil, that snapshot becomes the baseline
and the store reflects it: for every key of its record values the store holds the
record set of that key, in the key's zone, with exactly those values, and every record
set of the store is the one of such a key; so a key that an earlier baseline held and
this one does not has no record set in the store. -/
theorem C19_convergence (zones : List Zone) (steps : List Step) (ord : RangeOrder)
    (s : snapshot) (hdots : steps.all Step.dotted = true)
    (hok : allSucceed (storeEnv zones) (DNSController.fresh, emptyStore)
      (steps ++ [Step.runOnce ord]) = true)
    (hs : snapshotIfChangedAndReady ord
      (run (storeEnv zones) (DNSController.fresh, emptyStore) steps).1 = some s) :
    (run (storeEnv zones) (DNSController.fresh, emptyStore)
        (steps ++ [Step.runOnce ord])).1.lastSuccessfulSnapshot = some (resolved ord s) ∧
    (∀ k v, GoMap.get? (resolved ord s).recordValues k = some v →
      ∃ z, findZone (opOf zones) k.FQDN = some z ∧
        (z.id, { name := k.FQDN, rrdatas := v, ttl := 60, type := k.RecordType }) ∈
          (run (storeEnv zones) (DNSController.fresh, emptyStore)
            (steps ++ [Step.runOnce ord])).2.backend) ∧
    (∀ zid rr, (zid, rr) ∈ (run (storeEnv zones) (DNSController.fresh, emptyStore)
        (steps ++ [Step.runOnce ord])).2.backend →
      GoMap.get? (resolved ord s).recordValues { RecordType := rr.type, FQDN := rr.name } =
        some rr.rrdatas) := by
  have hdots' : (steps ++ [Step.runOnce ord]).all Step.dotted = true := by
    rw [List.all_append, hdots]
    rfl
  obtain ⟨hrefl, _, _⟩ := run_reflects zones (steps ++ [Step.runOnce ord])
    DNSController.fresh emptyStore (Reflects_empty _)
    (fun r hr => by cases hr) (fun last hl => by cases hl) hdots' hok
  have hlast : (run (storeEnv zones) (DNSController.fresh, emptyStore)
      (steps ++ [Step.runOnce ord])).1.lastSuccessfulSnapshot = some (resolved ord s) := by
    rw [allSucceed_append, Bool.and_eq_true] at hok
    have herr := hok.2
    unfold allSucceed at herr
    simp only [allSucceed, Bool.and_true, Option.isNone_iff_eq_none] at herr
    rw [run_append]
    show (runOnce (storeEnv zones) ord _ _).controller.lastSuccessfulSnapshot = _
    rw [runOnce_storeEnv zones ord _ _ s hs] at herr ⊢
    rw [finish_err] at herr
    unfold finish
    cases hl : (applyScript (storeEnv zones) (opOf zones)
      (updatesOf ord (run (storeEnv zones) (DNSController.fresh, emptyStore) steps).1 s)
      (deletesOf ord (run (storeEnv zones) (DNSController.fresh, emptyStore) steps).1 s)
      { backend := (run (storeEnv zones) (DNSController.fresh, emptyStore) steps).2.backend,
        calls := (run (storeEnv zones) (DNSController.fresh, emptyStore) steps).2.calls ++
          [Call.listZones] }).1 with
    | nil => rfl
    | cons err errs =>
      rw [hl] at herr
      cases herr
  have hold : oldValues (run (storeEnv zones) (DNSController.fresh, emptyStore)
      (steps ++ [Step.runOnce ord])).1 = (resolved ord s).recordValues := by
    unfold oldValues
    rw [hlast]
  rw [hold] at hrefl
  refine ⟨hlast, fun k v hk => ?_, fun zid rr hmem => ?_⟩
  · obtain ⟨_, z, hz, _⟩ := hrefl.1 k v hk
    exact ⟨z, hz, (hrefl.2 _).2 ⟨k, v, z, hk, hz, rfl⟩⟩
  · obtain ⟨k, v, z, hk, _, he⟩ := (hrefl.2 _).1 hmem
    cases he
    exact hk

theorem C19_convergence_witness :
    convergingHistory.all Step.dotted = true ∧
    allSucceed (storeEnv [zoneEx]) (DNSController.fresh, emptyStore)
      (convergingHistory ++ [Step.runOnce RangeOrder.reversed]) = true ∧
    snapshotIfChangedAndReady RangeOrder.reversed
        (run (storeEnv [zoneEx]) (DNSController.fresh, emptyStore) convergingHistory).1 =
      some { version := 2, records := [recDot2], aliasTargets := [], recordValues := [] } ∧
    (∃ z, findZone (opOf [zoneEx]) "a.ex.com." = some z ∧
      (z.id, { name := "a.ex.com.", rrdatas := ["2.2.2.2"], ttl := 60, type := "A" }) ∈
        (run (storeEnv [zoneEx]) (DNSController.fresh, emptyStore)
          (convergingHistory ++ [Step.runOnce RangeOrder.reversed])).2.backend) :=
  ⟨by decide, by decide, by decide,
   (C19_convergence [zoneEx] convergingHistory RangeOrder.reversed
      { version := 2, records := [recDot2], aliasTargets := [], recordValues := [] }
      (by decide) (by decide) (by decide)).2.1
      { RecordType := "A", FQDN := "a.ex.com." } ["2.2.2.2"] (by decide)⟩

/-- C19 (counterexample). In the history `staleHistory` over the upsert store with
the zone `ex.com.`, the middle iteration updates `a.ex.com.` to `2.2.2.2` and then
fails on a record without zone, so no baseline is stored; the registry is put back and
the last iteration builds a snapshot, finds it equal to the old baseline, issues no
update and commits: the committed record values map `a.ex.com.` to `1.1.1.1` while the
store holds `2.2.2.2` for it. -/
theorem C19_stale_after_failed_iteration :
    snapshotIfChangedAndReady RangeOrder.stored
        (run (storeEnv [zoneEx]) (DNSController.fresh, emptyStore) stalePrefix).1 =
      some { version := 5, records := [recDot1], aliasTargets := [], recordValues := [] } ∧
    (runOnce (storeEnv [zoneEx]) RangeOrder.stored
        (run (storeEnv [zoneEx]) (DNSController.fresh, emptyStore) stalePrefix).1
        (run (storeEnv [zoneEx]) (DNSController.fresh, emptyStore) stalePrefix).2).err = none ∧
    (run (storeEnv [zoneEx]) (DNSController.fresh, emptyStore)
        staleHistory).1.lastSuccessfulSnapshot =
      some { version := 5, records := [recDot1], aliasTargets := [],
             recordValues := [({ RecordType := "A", FQDN := "a.ex.com." }, ["1.1.1.1"])] } ∧
    (run (storeEnv [zoneEx]) (DNSController.fresh, emptyStore) staleHistory).2.backend =
      [(0, { name := "a.ex.com.", rrdatas := ["2.2.2.2"], ttl := 60, type := "A" })] := by
  decide

/-! ## Cancellation -/

theorem pollStop_of_AlwaysStops {β : Type} (env : Env β) (h : AlwaysStops env) (w : World β) :
    env.pollStop w = (true, (env.pollStop w).2) :=
  Prod.ext (h w.backend) rfl

theorem updateLoop_of_AlwaysStops {β : Type} (env : Env β) (op : dnsOp)
    (old : GoMap recordKey (List String)) (h : AlwaysStops env)
    (e : recordKey × List String) (rest : List (recordKey × List String))
    (errors : List Err) (w : World β) :
    updateLoop env op old (e :: rest) errors w = (none, (env.pollStop w).2) := by
  obtain ⟨k, newValues⟩ := e
  unfold updateLoop
  rw [pollStop_of_AlwaysStops env h w]

theorem deleteLoop_of_AlwaysStops {β : Type} (env : Env β) (op : dnsOp)
    (new : GoMap recordKey (List String)) (h : AlwaysStops env)
    (e : recordKey × List String) (rest : List (recordKey × List String))
    (errors : List Err) (w : World β) :
    deleteLoop env op new (e :: rest) errors w = (none, (env.pollStop w).2) := by
  obtain ⟨k, oldValues⟩ := e
  unfold deleteLoop
  rw [pollStop_of_AlwaysStops env h w]

theorem order_nil_iff {α : Type} (o : Order α) (l : List α) : (o l).1 = [] ↔ l = [] := by
  constructor
  · intro h
    have hp := (o l).2
    rw [h] at hp
    exact hp.symm.eq_nil
  · exact order_eq_nil o l

theorem runOnce_of_AlwaysStops {β : Type} (env : Env β) (ord : RangeOrder)
    (c : DNSController) (w w₁ : World β) (s : snapshot) (op : dnsOp)
    (h : AlwaysStops env) (hs : snapshotIfChangedAndReady ord c = some s)
    (hop : newDNSOp env w = (.ok op, w₁)) :
    (runOnce env ord c w).world.calls = w₁.calls ∧
    ((computeRecordValues ord s ≠ [] ∨ oldValues c ≠ []) →
      (runOnce env ord c w).err = some Err.stopRequested ∧
        (runOnce env ord c w).controller = c) := by
  unfold runOnce
  simp only [hs, hop]
  rw [show (match c.lastSuccessfulSnapshot with
        | some last => last.recordValues
        | none => ([] : GoMap recordKey (List String))) = oldValues c from rfl]
  cases hU : (ord.update (computeRecordValues ord s)).1 with
  | cons e rest =>
    rw [updateLoop_of_AlwaysStops env op _ h]
    exact ⟨rfl, fun _ => ⟨rfl, rfl⟩⟩
  | nil =>
    simp only [updateLoop]
    cases hD : (ord.delete (oldValues c)).1 with
    | cons e rest =>
      rw [deleteLoop_of_AlwaysStops env op _ h]
      exact ⟨rfl, fun _ => ⟨rfl, rfl⟩⟩
    | nil =>
      refine ⟨by simp only [deleteLoop], fun hpending => ?_⟩
      rcases hpending with hne | hne
      · exact absurd ((order_nil_iff _ _).1 hU) hne
      · exact absurd ((order_nil_iff _ _).1 hD) hne

/-- C21. When every poll of the stop signal answers true, a `runOnce` issues no backend
write, whatever the visiting orders, the backend and the difference between the new and
the old record values: the calls of the iteration are none at all or the one listing of
the zones, so no `add` and no `remove` is among them; and when a snapshot is built, the
zones are listed and the new or the old value map has a key, the first poll ends the
iteration: it returns the stop-requested error and leaves the controller as it was. -/
theorem C21_cancellation {β : Type} (env : Env β) (ord : RangeOrder) (c : DNSController)
    (w : World β) (hstop : AlwaysStops env) :
    ((runOnce env ord c w).world.calls = w.calls ∨
      (runOnce env ord c w).world.calls = w.calls ++ [Call.listZones]) ∧
    (∀ call ∈ (runOnce env ord c w).world.calls, call ∈ w.calls ∨ call.isWrite = false) ∧
    (∀ s op w₁, snapshotIfChangedAndReady ord c = some s → newDNSOp env w = (.ok op, w₁) →
      (computeRecordValues ord s ≠ [] ∨ oldValues c ≠ []) →
      (runOnce env ord c w).err = some Err.stopRequested ∧
        (runOnce env ord c w).controller = c) := by
  have hcalls : (runOnce env ord c w).world.calls = w.calls ∨
      (runOnce env ord c w).world.calls = w.calls ++ [Call.listZones] := by
    cases hs : snapshotIfChangedAndReady ord c with
    | none =>
      rw [runOnce_of_snapshot_none env ord c w hs]
      exact Or.inl rfl
    | some s =>
      right
      cases hop : newDNSOp env w with
      | mk r w₁ =>
        have hw₁ : w₁.calls = w.calls ++ [Call.listZones] := by
          rw [← newDNSOp_calls env w, hop]
        cases r with
        | error err =>
          rw [runOnce_of_zones_error env ord c w w₁ s err hs hop]
          exact hw₁
        | ok op =>
          rw [(runOnce_of_AlwaysStops env ord c w w₁ s op hstop hs hop).1]
          exact hw₁
  refine ⟨hcalls, fun call hcall => ?_, fun s op w₁ hs hop hpending =>
    (runOnce_of_AlwaysStops env ord c w w₁ s op hstop hs hop).2 hpending⟩
  rcases hcalls with h | h
  · rw [h] at hcall
    exact Or.inl hcall
  · rw [h] at hcall
    rcases List.mem_append.1 hcall with h' | h'
    · exact Or.inl h'
    · rw [List.mem_singleton.1 h']
      exact Or.inr rfl

theorem C21_cancellation_witness :
    AlwaysStops stoppedEnv ∧
    (∀ call ∈ (runOnce stoppedEnv RangeOrder.stored
        (run quietEnv (DNSController.fresh, emptyWorld) pendingHistory).1
        (run quietEnv (DNSController.fresh, emptyWorld) pendingHistory).2).world.calls,
      call ∈ (run quietEnv (DNSController.fresh, emptyWorld) pendingHistory).2.calls ∨
        call.isWrite = false) ∧
    computeRecordValues RangeOrder.stored
        { version := 2, records := [recB], aliasTargets := [], recordValues := [] } ≠ [] ∧
    oldValues (run quietEnv (DNSController.fresh, emptyWorld) pendingHistory).1 ≠ [] ∧
    (runOnce stoppedEnv RangeOrder.stored
        (run quietEnv (DNSController.fresh, emptyWorld) pendingHistory).1
        (run quietEnv (DNSController.fresh, emptyWorld) pendingHistory).2).err =
      some Err.stopRequested :=
  ⟨fun _ => rfl,
   (C21_cancellation stoppedEnv RangeOrder.stored
      (run quietEnv (DNSController.fresh, emptyWorld) pendingHistory).1
      (run quietEnv (DNSController.fresh, emptyWorld) pendingHistory).2 (fun _ => rfl)).2.1,
   by decide, by decide, by decide⟩

/-! ## The computed value lists -/

/-- C22. For every snapshot, every visiting order and every key `k` of the record values
that `runOnce` computes: the list under `k` is sorted in non-decreasing order of the
strings, is not empty, and is a permutation of the values that the snapshot's records
contribute to `k` (a plain record its own value, an alias the values of its targets),
which are exactly the values the resolving loop appended under `k`; so every value
occurs in it as many times as it was contributed. -/
theorem C22_values_sorted_permutation (ord : RangeOrder) (s : snapshot) (k : recordKey)
    (v : List String) (h : GoMap.get? (computeRecordValues ord s) k = some v) :
    v.Sorted strLe ∧ v ≠ [] ∧
    v.Perm (s.records.flatMap (fun r => contribution s.aliasTargets.getD r k)) ∧
    GoMap.get? (resolveLoop s) k =
      some (s.records.flatMap (fun r => contribution s.aliasTargets.getD r k)) ∧
    ∀ x, v.count x =
      (s.records.flatMap (fun r => contribution s.aliasTargets.getD r k)).count x := by
  have hne := computeRecordValues_ne_nil ord s k v h
  rw [computeRecordValues_get?] at h
  split at h
  · cases h
  · rename_i hcontrib
    cases h
    refine ⟨sortStrings_sorted _, hne, sortStrings_perm _, ?_,
      fun x => (sortStrings_perm _).count_eq x⟩
    rw [resolveLoop_get?, if_neg hcontrib]

theorem C22_values_sorted_permutation_witness :
    GoMap.get? (computeRecordValues RangeOrder.reversed dupSnapshot)
        { RecordType := "A", FQDN := "api.ex.com" } =
      some ["10.0.0.1", "10.0.0.2", "10.0.0.2"] ∧
    GoMap.get? (resolveLoop dupSnapshot) { RecordType := "A", FQDN := "api.ex.com" } =
      some ((dupSnapshot.records.flatMap (fun r =>
        contribution dupSnapshot.aliasTargets.getD r
          { RecordType := "A", FQDN := "api.ex.com" }))) ∧
    dupSnapshot.records.flatMap (fun r =>
        contribution dupSnapshot.aliasTargets.getD r
          { RecordType := "A", FQDN := "api.ex.com" }) =
      ["10.0.0.2", "10.0.0.1", "10.0.0.2"] :=
  ⟨by decide,
   (C22_values_sorted_permutation RangeOrder.reversed dupSnapshot
      { RecordType := "A", FQDN := "api.ex.com" } ["10.0.0.1", "10.0.0.2", "10.0.0.2"]
      (by decide)).2.2.2.1,
   by decide⟩

/-! ## Deletion of the record sets of a key -/

theorem removeStep_calls {β : Type} (env : Env β) (zone : Zone) (acc : List Err × World β)
    (rr : ResourceRecordSet) :
    (removeStep env zone acc rr).2.calls = acc.2.calls ++ [Call.remove zone rr] := by
  have hrem : (env.callRemove zone rr acc.2).2.calls = acc.2.calls ++ [Call.remove zone rr] :=
    rfl
  unfold removeStep
  cases hr : env.callRemove zone rr acc.2 with
  | mk r w' =>
    rw [hr] at hrem
    cases r <;> exact hrem

theorem foldRemove_calls {β : Type} (env : Env β) (zone : Zone) :
    ∀ (rrs : List ResourceRecordSet) (acc : List Err × World β),
      (rrs.foldl (removeStep env zone) acc).2.calls =
        acc.2.calls ++ rrs.map (Call.remove zone)
  | [], _ => by simp
  | rr :: rrs, acc => by
    rw [List.foldl_cons, foldRemove_calls env zone rrs, removeStep_calls, List.map_cons,
      List.append_assoc, List.singleton_append]

theorem deleteRecordsLoop_eq_fold {β : Type} (env : Env β) (zone : Zone) (k : recordKey) :
    ∀ (rrs : List ResourceRecordSet) (errors : List Err) (w : World β),
      deleteRecordsLoop env zone k rrs errors w =
        (rrs.filter (matchesKey k)).foldl (removeStep env zone) (errors, w)
  | [], _, _ => rfl
  | rr :: rrs, errors, w => by
    unfold deleteRecordsLoop
    simp only
    by_cases hn : EnsureDotSuffix rr.name = k.FQDN
    · by_cases ht : rr.type = k.RecordType
      · have hm : matchesKey k rr = true := by simp [matchesKey, hn, ht]
        rw [List.filter_cons_of_pos hm, List.foldl_cons]
        simp only [hn, ht, ne_eq, not_true_eq_false, if_false]
        rw [show removeStep env zone (errors, w) rr =
          (match env.callRemove zone rr w with
            | (some err, w') => (errors ++ [err], w')
            | (none, w') => (errors, w')) from rfl]
        cases hr : env.callRemove zone rr w with
        | mk r w' =>
          cases r with
          | none => exact deleteRecordsLoop_eq_fold env zone k rrs errors w'
          | some err => exact deleteRecordsLoop_eq_fold env zone k rrs (errors ++ [err]) w'
      · have hm : matchesKey k rr = false := by simp [matchesKey, ht]
        rw [List.filter_cons_of_neg (by rw [hm]; exact Bool.false_ne_true)]
        simp only [hn, ht, ne_eq, not_true_eq_false, not_false_eq_true, if_false, if_true]
        exact deleteRecordsLoop_eq_fold env zone k rrs errors w
    · have hm : matchesKey k rr = false := by simp [matchesKey, hn]
      rw [List.filter_cons_of_neg (by rw [hm]; exact Bool.false_ne_true)]
      simp only [hn, ne_eq, not_false_eq_true, if_true]
      exact deleteRecordsLoop_eq_fold env zone k rrs errors w

/-- C23 (amended). `deleteRecords(key)`: when `findZone` finds no zone for `key.FQDN` it
fails with the no-suitable-zone error and makes no call; when the zone found does not
support record sets it fails with an error and makes no call; otherwise it lists the
record sets of that zone; when the listing fails it returns the listing error, wrapped,
and calls no `remove`; when the listing succeeds it calls `remove`, in listing order, on
exactly the listed record sets whose dot-terminated name is `key.FQDN` and whose type is
`key.RecordType`, whether or not an earlier removal failed, and returns the first error
of a failed removal, or nil when none failed. -/
theorem C23_deleteRecords {β : Type} (env : Env β) (o : dnsOp) (k : recordKey)
    (w : World β) :
    (findZone o k.FQDN = none →
      deleteRecords env o k w = (some (Err.noSuitableZone k.FQDN), w)) ∧
    (∀ zone, findZone o k.FQDN = some zone → zone.supportsRecordSets = false →
      deleteRecords env o k w = (some (Err.zoneWithoutRecordSets zone.name), w)) ∧
    (∀ zone err w₁, findZone o k.FQDN = some zone → zone.supportsRecordSets = true →
      env.callRrsList zone w = (.error err, w₁) →
      deleteRecords env o k w = (some (Err.queryingRecordSets zone.name err), w₁) ∧
        w₁.calls = w.calls ++ [Call.listRecordSets zone]) ∧
    (∀ zone rrs w₁, findZone o k.FQDN = some zone → zone.supportsRecordSets = true →
      env.callRrsList zone w = (.ok rrs, w₁) →
      deleteRecords env o k w =
        (((rrs.filter (matchesKey k)).foldl (removeStep env zone) ([], w₁)).1.head?,
          ((rrs.filter (matchesKey k)).foldl (removeStep env zone) ([], w₁)).2) ∧
      ((rrs.filter (matchesKey k)).foldl (removeStep env zone) ([], w₁)).2.calls =
        w.calls ++ [Call.listRecordSets zone] ++
          (rrs.filter (matchesKey k)).map (Call.remove zone)) := by
  have hlist : ∀ zone, (env.callRrsList zone w).2.calls =
      w.calls ++ [Call.listRecordSets zone] := fun _ => rfl
  refine ⟨fun hz => ?_, fun zone hz hsup => ?_, fun zone err w₁ hz hsup hl => ?_,
    fun zone rrs w₁ hz hsup hl => ?_⟩
  · unfold deleteRecords
    simp only [hz]
  · unfold deleteRecords
    simp only [hz, hsup, Bool.not_false, if_true]
  · have hc := hlist zone
    rw [hl] at hc
    refine ⟨?_, hc⟩
    unfold deleteRecords
    simp only [hz, hsup, Bool.not_true, Bool.false_eq_true, if_false, hl]
  · have hc := hlist zone
    rw [hl] at hc
    refine ⟨?_, ?_⟩
    · unfold deleteRecords
      simp only [hz, hsup, Bool.not_true, Bool.false_eq_true, if_false, hl]
      rw [deleteRecordsLoop_eq_fold]
    · rw [foldRemove_calls]
      exact congrArg (fun l => l ++ (rrs.filter (matchesKey k)).map (Call.remove zone)) hc

theorem C23_deleteRecords_witness :
    findZone twoZones keyADot.FQDN = some zoneEx ∧
    zoneEx.supportsRecordSets = true ∧
    brokenEnv.callRrsList zoneEx emptyWorld =
      (.ok listedSets, { backend := (), calls := [Call.listRecordSets zoneEx] }) ∧
    (deleteRecords brokenEnv twoZones keyADot emptyWorld =
      (((listedSets.filter (matchesKey keyADot)).foldl (removeStep brokenEnv zoneEx)
          ([], { backend := (), calls := [Call.listRecordSets zoneEx] })).1.head?,
        ((listedSets.filter (matchesKey keyADot)).foldl (removeStep brokenEnv zoneEx)
          ([], { backend := (), calls := [Call.listRecordSets zoneEx] })).2) ∧
      ((listedSets.filter (matchesKey keyADot)).foldl (removeStep brokenEnv zoneEx)
          ([], { backend := (), calls := [Call.listRecordSets zoneEx] })).2.calls =
        emptyWorld.calls ++ [Call.listRecordSets zoneEx] ++
          (listedSets.filter (matchesKey keyADot)).map (Call.remove zoneEx)) ∧
    (deleteRecords brokenEnv twoZones keyADot emptyWorld).1 = some (Err.provider "1.1.1.1") ∧
    (deleteRecords brokenEnv twoZones keyADot emptyWorld).2.calls =
      [Call.listRecordSets zoneEx,
       Call.remove zoneEx
         { name := "a.ex.com.", rrdatas := ["1.1.1.1"], ttl := 60, type := "A" },
       Call.remove zoneEx
         { name := "a.ex.com", rrdatas := ["3.3.3.3"], ttl := 60, type := "A" }] :=
  ⟨by decide, rfl, rfl,
   (C23_deleteRecords brokenEnv twoZones keyADot emptyWorld).2.2.2 zoneEx listedSets
     { backend := (), calls := [Call.listRecordSets zoneEx] } (by decide) rfl rfl,
   by decide, by decide⟩

/-- C23 (counterexample). A zone is found for the key in both cases, yet `deleteRecords`
neither removes anything nor succeeds: with a zone that does not support record sets it
returns an error without listing; with a backend whose listing fails it returns the
listing error, and no removal was attempted, let alone failed. -/
theorem C23_error_without_failed_removal :
    findZone opNoSets keyADot.FQDN = some zoneNoSets ∧
    (deleteRecords quietEnv opNoSets keyADot emptyWorld).1 =
      some (Err.zoneWithoutRecordSets "ex.com.") ∧
    (deleteRecords quietEnv opNoSets keyADot emptyWorld).2.calls = [] ∧
    findZone twoZones keyADot.FQDN = some zoneEx ∧
    (deleteRecords unlistableEnv twoZones keyADot emptyWorld).1 =
      some (Err.queryingRecordSets "ex.com." (Err.provider "list failed")) ∧
    (deleteRecords unlistableEnv twoZones keyADot emptyWorld).2.calls =
      [Call.listRecordSets zoneEx] := by
  decide

/-! ## Self-referencing aliases -/

/-- C24 (amended). An ALIAS record of the snapshot whose value is its own FQDN is
expanded like any other alias: what it contributes to a key are the values of the alias
targets registered under its FQDN whose type is the key's; for every such target `t` the
computed record values have the key `{t.RecordType, FQDN}` and `t.Value` among its
values; and processing the record leaves the value map unchanged exactly when no alias
target is registered under its FQDN. -/
theorem C24_self_alias_expanded (ord : RangeOrder) (s : snapshot) (r : Record)
    (hr : r ∈ s.records) (halias : r.RecordType = RecordTypeAlias)
    (hself : r.Value = r.FQDN) :
    (∀ k, contribution s.aliasTargets.getD r k =
      ((s.aliasTargets.getD r.FQDN).filter (fun t =>
        decide (({ RecordType := t.RecordType, FQDN := r.FQDN } : recordKey) = k))).map
        Record.Value) ∧
    (∀ t ∈ s.aliasTargets.getD r.FQDN,
      ∃ v, GoMap.get? (computeRecordValues ord s)
          { RecordType := t.RecordType, FQDN := r.FQDN } = some v ∧ t.Value ∈ v) ∧
    (∀ m, resolveRecord s.aliasTargets m r = m ↔ s.aliasTargets.getD r.FQDN = []) := by
  have hcontrib : ∀ k, contribution s.aliasTargets.getD r k =
      ((s.aliasTargets.getD r.FQDN).filter (fun t =>
        decide (({ RecordType := t.RecordType, FQDN := r.FQDN } : recordKey) = k))).map
        Record.Value := by
    intro k
    unfold contribution
    rw [if_pos halias, hself]
  have hmem : ∀ t ∈ s.aliasTargets.getD r.FQDN,
      t.Value ∈ contribution s.aliasTargets.getD r
        { RecordType := t.RecordType, FQDN := r.FQDN } := by
    intro t ht
    rw [hcontrib]
    exact List.mem_map_of_mem _ (List.mem_filter.2 ⟨ht, by simp⟩)
  refine ⟨hcontrib, fun t ht => ?_, fun m => ⟨fun hsame => ?_, fun hempty => ?_⟩⟩
  · have hin : t.Value ∈ s.records.flatMap (fun r' =>
        contribution s.aliasTargets.getD r'
          { RecordType := t.RecordType, FQDN := r.FQDN }) :=
      List.mem_flatMap.2 ⟨r, hr, hmem t ht⟩
    rw [computeRecordValues_get?, if_neg (List.ne_nil_of_mem hin)]
    exact ⟨_, rfl, (sortStrings_perm _).mem_iff.2 hin⟩
  · cases hts : s.aliasTargets.getD r.FQDN with
    | nil => rfl
    | cons t ts =>
      exfalso
      have ht : t ∈ s.aliasTargets.getD r.FQDN := by
        rw [hts]
        exact List.mem_cons_self _ _
      have hget := resolveRecord_get? s.aliasTargets m r
        { RecordType := t.RecordType, FQDN := r.FQDN }
      rw [hsame, if_neg (List.ne_nil_of_mem (hmem t ht))] at hget
      have hlen := congrArg List.length
        (show GoMap.getD m { RecordType := t.RecordType, FQDN := r.FQDN } = _ by
          rw [GoMap.getD, hget])
      simp only [Option.getD_some, List.length_append] at hlen
      have hpos := List.length_pos_of_mem (hmem t ht)
      omega
  · unfold resolveRecord
    rw [if_pos halias, hself, hempty]
    rfl

theorem C24_self_alias_expanded_witness :
    selfAlias ∈ selfSnapshot.records ∧ selfAlias.RecordType = RecordTypeAlias ∧
    selfAlias.Value = selfAlias.FQDN ∧
    ∃ v, GoMap.get? (computeRecordValues RangeOrder.stored selfSnapshot)
        { RecordType := selfTarget.RecordType, FQDN := selfAlias.FQDN } = some v ∧
      selfTarget.Value ∈ v :=
  ⟨by decide, rfl, rfl,
   (C24_self_alias_expanded RangeOrder.stored selfSnapshot selfAlias (by decide) rfl rfl).2.1
     selfTarget (by decide)⟩

/-- C24 (counterexample). With an alias target registered under the FQDN of an alias
record whose value is that same FQDN, the alias is expanded: the computed record values
hold the key `{A, self.ex.com}` with the value of the target. -/
theorem C24_self_alias_contributes :
    selfAlias.RecordType = RecordTypeAlias ∧ selfAlias.Value = selfAlias.FQDN ∧
    snapshotIfChangedAndReady RangeOrder.stored selfScenario = some selfSnapshot ∧
    computeRecordValues RangeOrder.stored selfSnapshot =
      [({ RecordType := "A", FQDN := "self.ex.com" }, ["10.0.0.9"])] := by
  decide

end DNS

namespace Kops

/-! ## The functions of package `net` on IPv4 values -/

theorem To4_length (ip ip4 : List (Fin 256)) (h : To4 ip = some ip4) : ip4.length = 4 := by
  unfold To4 at h
  split at h
  · cases h
    assumption
  · split at h
    · rename_i h16
      cases h
      rw [List.length_drop, h16.1]
    · cases h

theorem eq_four_of_length (l : List (Fin 256)) (h : l.length = 4) :
    ∃ b0 b1 b2 b3, l = [b0, b1, b2, b3] := by
  match l, h with
  | [b0, b1, b2, b3], _ => exact ⟨b0, b1, b2, b3, rfl⟩

theorem Uint32_lt (b0 b1 b2 b3 : Fin 256) :
    b3.val + b2.val * 2 ^ 8 + b1.val * 2 ^ 16 + b0.val * 2 ^ 24 < 2 ^ 32 := by
  have h0 := b0.isLt
  have h1 := b1.isLt
  have h2 := b2.isLt
  have h3 := b3.isLt
  norm_num
  omega

theorem To4_ipOf (v : Nat) : To4 (ipOf v) = some (ipOf v) := rfl

theorem Uint32_ipOf (v : Nat) (h : v < 2 ^ 32) : Uint32 (ipOf v) = some v := by
  unfold ipOf Uint32
  simp only [byteOf]
  norm_num at h ⊢
  omega

theorem PutUint32_zero (v : Nat) : PutUint32 (List.replicate 4 0) v = some (ipOf v) := rfl

theorem start_ipOf (v : Nat) (mask : List (Fin 256)) (h : v < 2 ^ 32) :
    IPNet.start { IP := ipOf v, Mask := mask } = v := by
  unfold IPNet.start
  simp only [To4_ipOf, Uint32_ipOf v h, Option.getD_some]

theorem Size_CIDRMask : ∀ m : Nat, m ≤ 32 → Size (CIDRMask (m : Int) 32) = (m, 32) := by
  decide

theorem uintOf_shift (p : Nat) (h : p ≤ 29) : uintOf (32 - ((p : Int) + 3)) = 29 - p := by
  unfold uintOf
  omega

theorem shl32_small (i p : Nat) (hi : i < 8) (hp : p ≤ 29) :
    shl32 (i % 2 ^ 32) (29 - p) = i * 2 ^ (29 - p) := by
  have hpow : 2 ^ (29 - p) ≤ 2 ^ 29 := Nat.pow_le_pow_right (by decide) (Nat.sub_le _ _)
  have hmul : i * 2 ^ (29 - p) ≤ 7 * 2 ^ 29 :=
    Nat.mul_le_mul (Nat.lt_succ_iff.1 hi) hpow
  have hi32 : i % 2 ^ 32 = i := Nat.mod_eq_of_lt (by norm_num; omega)
  unfold shl32
  rw [hi32, if_pos (by omega), Nat.mod_eq_of_lt]
  norm_num at hmul ⊢
  omega

/-! ## The split -/

theorem aligned_bound (n p : Nat) (hp : p ≤ 29) (hn : n < 2 ^ 32)
    (h : n % 2 ^ (32 - p) = 0) :
    2 ^ (32 - p) = 8 * 2 ^ (29 - p) ∧ n + 8 * 2 ^ (29 - p) ≤ 2 ^ 32 := by
  have h8 : 2 ^ (32 - p) = 8 * 2 ^ (29 - p) := by
    rw [show 32 - p = (29 - p) + 3 by omega, pow_add]
    ring
  have h32 : 2 ^ 32 = 2 ^ (32 - p) * 2 ^ p := by
    rw [← pow_add]
    congr 1
    omega
  refine ⟨h8, ?_⟩
  obtain ⟨m, hm⟩ := Nat.dvd_of_mod_eq_zero h
  have hm' : m < 2 ^ p := by
    by_contra hge
    have hle := Nat.mul_le_mul_left (2 ^ (32 - p)) (Nat.le_of_not_lt hge)
    rw [← h32, ← hm] at hle
    exact absurd hn (Nat.not_lt.2 hle)
  have hle := Nat.mul_le_mul_left (2 ^ (32 - p)) (Nat.succ_le_of_lt hm')
  rw [← h32, Nat.mul_succ, ← hm, h8] at hle
  exact hle

theorem subnetAt_ok (parent : IPNet) (ip4 : List (Fin 256)) (n p i : Nat)
    (hip : To4 parent.IP = some ip4) (hn : Uint32 ip4 = some n) (hp : p ≤ 29)
    (hfit : n + 7 * 2 ^ (29 - p) < 2 ^ 32) (hi : i < 8) :
    subnetAt parent ((p : Int) + 3) i =
      .ok { IP := ipOf (n + i * 2 ^ (29 - p)), Mask := CIDRMask ((p : Int) + 3) 32 } := by
  have hlt : n + i * 2 ^ (29 - p) < 2 ^ 32 := by
    have := Nat.mul_le_mul_right (2 ^ (29 - p)) (Nat.lt_succ_iff.1 hi)
    omega
  unfold subnetAt
  rw [hip]
  simp only [hn]
  rw [To4_length _ _ hip, uintOf_shift p hp, shl32_small i p hi hp, Nat.mod_eq_of_lt hlt,
    PutUint32_zero]

theorem splitInto8Subnets_ok (parent : IPNet) (ip4 : List (Fin 256)) (n p : Nat)
    (hip : To4 parent.IP = some ip4) (hn : Uint32 ip4 = some n)
    (hsize : (Size parent.Mask).1 = p) (hp : p ≤ 29)
    (hfit : n + 7 * 2 ^ (29 - p) < 2 ^ 32) :
    splitInto8Subnets parent =
      .ok ((List.range 8).map (fun i =>
        ({ IP := ipOf (n + i * 2 ^ (29 - p)), Mask := CIDRMask ((p : Int) + 3) 32 } : IPNet))) := by
  unfold splitInto8Subnets
  simp only [hsize, splitLoop]
  rw [subnetAt_ok parent ip4 n p 0 hip hn hp hfit (by decide)]
  simp only
  rw [subnetAt_ok parent ip4 n p 1 hip hn hp hfit (by decide)]
  simp only
  rw [subnetAt_ok parent ip4 n p 2 hip hn hp hfit (by decide)]
  simp only
  rw [subnetAt_ok parent ip4 n p 3 hip hn hp hfit (by decide)]
  simp only
  rw [subnetAt_ok parent ip4 n p 4 hip hn hp hfit (by decide)]
  simp only
  rw [subnetAt_ok parent ip4 n p 5 hip hn hp hfit (by decide)]
  simp only
  rw [subnetAt_ok parent ip4 n p 6 hip hn hp hfit (by decide)]
  simp only
  rw [subnetAt_ok parent ip4 n p 7 hip hn hp hfit (by decide)]
  rfl

theorem cover_index (n q a : Nat) (hq : 0 < q) (h₁ : n ≤ a) (h₂ : a < n + 8 * q) :
    ∃ i, i < 8 ∧ n + i * q ≤ a ∧ a < n + i * q + q := by
  have hdm := Nat.div_add_mod (a - n) q
  have hmod := Nat.mod_lt (a - n) hq
  rw [Nat.mul_comm] at hdm
  refine ⟨(a - n) / q, ?_, by omega, by omega⟩
  by_contra hge
  have := Nat.mul_le_mul_right q (Nat.le_of_not_lt hge)
  omega

theorem cover_unique (n q a i j : Nat) (hi₁ : n + i * q ≤ a) (hi₂ : a < n + i * q + q)
    (hj₁ : n + j * q ≤ a) (hj₂ : a < n + j * q + q) : i = j := by
  by_contra hne
  rcases Nat.lt_or_gt_of_ne hne with h | h
  · have := Nat.mul_le_mul_right q (Nat.succ_le_of_lt h)
    rw [Nat.succ_mul] at this
    omega
  · have := Nat.mul_le_mul_right q (Nat.succ_le_of_lt h)
    rw [Nat.succ_mul] at this
    omega

theorem getElem?_map_range {α : Type} (f : Nat → α) (m i : Nat) (x : α)
    (h : ((List.range m).map f)[i]? = some x) : i < m ∧ x = f i := by
  rw [List.getElem?_map] at h
  by_cases hi : i < m
  · rw [List.getElem?_range hi] at h
    cases h
    exact ⟨hi, rfl⟩
  · rw [List.getElem?_eq_none (by rw [List.length_range]; omega)] at h
    cases h

/-- C25 (amended). `splitInto8Subnets`: for a parent whose address is not IPv4 it returns
the unexpected-address-type error and no subnets. For a parent with an IPv4 address and
a mask of prefix length `p` (its number of leading ones) such that `p` is at most 29 and
the parent address plus `7 * 2 ^ (32 - (p + 3))` stays below `2 ^ 32`, it returns without
error exactly 8 networks; the `i`-th has an IPv4 address, the 4-byte mask of prefix
length `p + 3`, and starts at the parent address plus `i * 2 ^ (32 - (p + 3))`; an address
lies in the parent's range, the `2 ^ (32 - p)` addresses from the parent address on,
exactly when it lies in the range of one of the 8, and no address lies in the ranges of
two of them. The bound on the address holds for every parent whose address is a network
address, that is, has its last `32 - p` bits zero. -/
theorem C25_split_into_8_subnets (parent : IPNet) :
    (To4 parent.IP = none →
      splitInto8Subnets parent = .error (SplitErr.unexpectedIPType parent)) ∧
    (∀ p, To4 parent.IP ≠ none → parent.prefixLength = p → p ≤ 29 →
      parent.start + 7 * 2 ^ (32 - (p + 3)) < 2 ^ 32 →
      ∃ subnets, splitInto8Subnets parent = .ok subnets ∧ subnets.length = 8 ∧
        (∀ i, i < 8 → ∃ net, subnets[i]? = some net ∧ To4 net.IP ≠ none ∧
          Size net.Mask = (p + 3, 32) ∧
          net.start = parent.start + i * 2 ^ (32 - (p + 3))) ∧
        (∀ a, parent.covers a ↔ ∃ net ∈ subnets, net.covers a) ∧
        (∀ (i j : Nat) (x y : IPNet), subnets[i]? = some x → subnets[j]? = some y → i ≠ j →
          ∀ a, ¬ (x.covers a ∧ y.covers a))) ∧
    (∀ p, parent.prefixLength = p → p ≤ 29 → parent.start % 2 ^ (32 - p) = 0 →
      parent.start + 7 * 2 ^ (32 - (p + 3)) < 2 ^ 32) := by
  have hstartlt : parent.start < 2 ^ 32 := by
    unfold IPNet.start
    cases hip : To4 parent.IP with
    | none => exact Nat.two_pow_pos 32
    | some ip4 =>
      obtain ⟨b0, b1, b2, b3, rfl⟩ := eq_four_of_length ip4 (To4_length _ _ hip)
      exact Uint32_lt b0 b1 b2 b3
  refine ⟨fun h => ?_, fun p hv4 hsize hp hfit => ?_, fun p _ hp halign => ?_⟩
  · unfold splitInto8Subnets
    simp only [splitLoop, subnetAt, h]
  · cases hip : To4 parent.IP with
    | none => exact absurd hip hv4
    | some ip4 =>
      obtain ⟨b0, b1, b2, b3, rfl⟩ := eq_four_of_length ip4 (To4_length _ _ hip)
      have hn : Uint32 [b0, b1, b2, b3] =
          some (b3.val + b2.val * 2 ^ 8 + b1.val * 2 ^ 16 + b0.val * 2 ^ 24) := rfl
      have hstart : parent.start =
          b3.val + b2.val * 2 ^ 8 + b1.val * 2 ^ 16 + b0.val * 2 ^ 24 := by
        unfold IPNet.start
        rw [hip]
        rfl
      generalize b3.val + b2.val * 2 ^ 8 + b1.val * 2 ^ 16 + b0.val * 2 ^ 24 = n at hn hstart
      have h29 : 32 - (p + 3) = 29 - p := by omega
      rw [hstart, h29] at hfit
      rw [hstart]
      have h8 : 2 ^ (32 - p) = 8 * 2 ^ (29 - p) := by
        rw [show 32 - p = (29 - p) + 3 by omega, pow_add]
        ring
      have hq : 0 < 2 ^ (29 - p) := Nat.two_pow_pos (29 - p)
      have hlt : ∀ i, i < 8 → n + i * 2 ^ (29 - p) < 2 ^ 32 := by
        intro i hi
        have := Nat.mul_le_mul_right (2 ^ (29 - p)) (Nat.lt_succ_iff.1 hi)
        omega
      have hmask : Size (CIDRMask ((p : Int) + 3) 32) = (p + 3, 32) := by
        have h := Size_CIDRMask (p + 3) (by omega)
        rw [Nat.cast_add] at h
        exact h
      have hsub : ∀ i, i < 8 → ∀ a,
          IPNet.covers { IP := ipOf (n + i * 2 ^ (29 - p)),
                         Mask := CIDRMask ((p : Int) + 3) 32 } a ↔
            n + i * 2 ^ (29 - p) ≤ a ∧ a < n + i * 2 ^ (29 - p) + 2 ^ (29 - p) := by
        intro i hi a
        unfold IPNet.covers IPNet.prefixLength
        rw [start_ipOf _ _ (hlt i hi), hmask, h29]
      have hpar : ∀ a, parent.covers a ↔ n ≤ a ∧ a < n + 8 * 2 ^ (29 - p) := by
        intro a
        unfold IPNet.covers
        rw [hstart, hsize, h8]
      refine ⟨_, splitInto8Subnets_ok parent _ n p hip hn hsize hp hfit,
        by simp, fun i hi => ?_, fun a => ?_, fun i j x y hx hy hne a hboth => ?_⟩
      · refine ⟨{ IP := ipOf (n + i * 2 ^ (29 - p)), Mask := CIDRMask ((p : Int) + 3) 32 },
          ?_, ?_, hmask, ?_⟩
        · rw [List.getElem?_map, List.getElem?_range hi]
          rfl
        · rw [To4_ipOf]
          exact fun h => Option.noConfusion h
        · rw [start_ipOf _ _ (hlt i hi), h29]
      · rw [hpar]
        constructor
        · rintro ⟨h₁, h₂⟩
          obtain ⟨i, hi, hi₁, hi₂⟩ := cover_index n _ a hq h₁ h₂
          exact ⟨_, List.mem_map.2 ⟨i, List.mem_range.2 hi, rfl⟩, (hsub i hi a).2 ⟨hi₁, hi₂⟩⟩
        · rintro ⟨net, hmem, hcov⟩
          obtain ⟨i, hi, rfl⟩ := List.mem_map.1 hmem
          have hi' := List.mem_range.1 hi
          obtain ⟨h₁, h₂⟩ := (hsub i hi' a).1 hcov
          have := Nat.mul_le_mul_right (2 ^ (29 - p)) (Nat.lt_succ_iff.1 hi')
          omega
      · obtain ⟨hi, rfl⟩ := getElem?_map_range _ 8 i x hx
        obtain ⟨hj, rfl⟩ := getElem?_map_range _ 8 j y hy
        obtain ⟨hi₁, hi₂⟩ := (hsub i hi a).1 hboth.1
        obtain ⟨hj₁, hj₂⟩ := (hsub j hj a).1 hboth.2
        exact hne (cover_unique n _ a i j hi₁ hi₂ hj₁ hj₂)
  · obtain ⟨_, hfit⟩ := aligned_bound parent.start p hp hstartlt halign
    have h29 : 32 - (p + 3) = 29 - p := by omega
    have hq : 0 < 2 ^ (29 - p) := Nat.two_pow_pos (29 - p)
    rw [h29]
    omega

theorem C25_split_into_8_subnets_witness :
    To4 net10.IP ≠ none ∧ net10.prefixLength = 8 ∧ 8 ≤ 29 ∧
    net10.start + 7 * 2 ^ (32 - (8 + 3)) < 2 ^ 32 ∧
    (∃ subnets, splitInto8Subnets net10 = .ok subnets ∧ subnets.length = 8 ∧
      (∀ i, i < 8 → ∃ net, subnets[i]? = some net ∧ To4 net.IP ≠ none ∧
        Size net.Mask = (8 + 3, 32) ∧
        net.start = net10.start + i * 2 ^ (32 - (8 + 3))) ∧
      (∀ a, net10.covers a ↔ ∃ net ∈ subnets, net.covers a) ∧
      (∀ (i j : Nat) (x y : IPNet), subnets[i]? = some x → subnets[j]? = some y → i ≠ j →
        ∀ a, ¬ (x.covers a ∧ y.covers a))) ∧
    splitInto8Subnets net10 =
      .ok [{ IP := [10, 0, 0, 0], Mask := [255, 224, 0, 0] },
           { IP := [10, 32, 0, 0], Mask := [255, 224, 0, 0] },
           { IP := [10, 64, 0, 0], Mask := [255, 224, 0, 0] },
           { IP := [10, 96, 0, 0], Mask := [255, 224, 0, 0] },
           { IP := [10, 128, 0, 0], Mask := [255, 224, 0, 0] },
           { IP := [10, 160, 0, 0], Mask := [255, 224, 0, 0] },
           { IP := [10, 192, 0, 0], Mask := [255, 224, 0, 0] },
           { IP := [10, 224, 0, 0], Mask := [255, 224, 0, 0] }] ∧
    splitInto8Subnets net6 = .error (SplitErr.unexpectedIPType net6) ∧
    To4 netHost.IP ≠ none ∧ netHost.prefixLength = 8 ∧
    netHost.start + 7 * 2 ^ (32 - (8 + 3)) < 2 ^ 32 ∧
    splitInto8Subnets netHost =
      .ok [{ IP := [10, 1, 2, 3], Mask := [255, 224, 0, 0] },
           { IP := [10, 33, 2, 3], Mask := [255, 224, 0, 0] },
           { IP := [10, 65, 2, 3], Mask := [255, 224, 0, 0] },
           { IP := [10, 97, 2, 3], Mask := [255, 224, 0, 0] },
           { IP := [10, 129, 2, 3], Mask := [255, 224, 0, 0] },
           { IP := [10, 161, 2, 3], Mask := [255, 224, 0, 0] },
           { IP := [10, 193, 2, 3], Mask := [255, 224, 0, 0] },
           { IP := [10, 225, 2, 3], Mask := [255, 224, 0, 0] }] :=
  ⟨by decide, by decide, by decide, by decide,
   (C25_split_into_8_subnets net10).2.1 8 (by decide) (by decide) (by decide) (by decide),
   rfl, rfl, by decide, by decide, by decide, rfl⟩

/-- C25 (counterexample). The parent `10.0.0.0/30` is an IPv4 network with prefix length
30; `splitInto8Subnets` returns without error 8 networks that all have the parent's
address and the nil mask: the shift count `uint(32 - 33)` is out of range, so nothing is
added to the address, and `net.CIDRMask(33, 32)` is nil.  They have no prefix length
33 and are not disjoint. The parent `255.255.255.255/8` has prefix length 8, and the
addition of `i * 2 ^ 21` to its address wraps round in 32 bits: the networks returned
for `i` from 1 on start at `0.31.255.255` and above, not at the parent address plus
`i * 2 ^ 21`. -/
theorem C25_not_split_outside_bounds :
    To4 net10Small.IP = some [10, 0, 0, 0] ∧ Size net10Small.Mask = (30, 32) ∧
    net10Small.start % 2 ^ (32 - 30) = 0 ∧
    splitInto8Subnets net10Small =
      .ok (List.replicate 8 { IP := [10, 0, 0, 0], Mask := [] }) ∧
    To4 netWrap.IP = some [255, 255, 255, 255] ∧ Size netWrap.Mask = (8, 32) ∧
    netWrap.start = 2 ^ 32 - 1 ∧
    splitInto8Subnets netWrap =
      .ok [{ IP := [255, 255, 255, 255], Mask := [255, 224, 0, 0] },
           { IP := [0, 31, 255, 255], Mask := [255, 224, 0, 0] },
           { IP := [0, 63, 255, 255], Mask := [255, 224, 0, 0] },
           { IP := [0, 95, 255, 255], Mask := [255, 224, 0, 0] },
           { IP := [0, 127, 255, 255], Mask := [255, 224, 0, 0] },
           { IP := [0, 159, 255, 255], Mask := [255, 224, 0, 0] },
           { IP := [0, 191, 255, 255], Mask := [255, 224, 0, 0] },
           { IP := [0, 223, 255, 255], Mask := [255, 224, 0, 0] }] ∧
    IPNet.start { IP := [0, 31, 255, 255], Mask := [255, 224, 0, 0] } = 2 ^ 21 - 1 :=
  ⟨by decide, by decide, by decide, rfl, by decide, by decide, by decide, rfl, by decide⟩

end Kops
